import Mathlib

/-!
The cloop driver: the read-only compressed loop block device.

A shallow embedding of `drivers/block/compressed_loop.c` (linux-2.6.33.7 tree).

Conventions of the embedding.

* Bytes are natural numbers; a buffer is the list of its bytes, a pointer that
  may be `NULL` is an `Option`.
* The arrays `buffered_blocknum[BUFFERED_BLOCKS]` and `buffer[BUFFERED_BLOCKS]`
  are functions on `Fin 8`; `current_bufnum` is the C `int` it is in the source.
* Header fields and offsets are kept as the numbers they encode; `ntohl` and
  `be64_to_cpu` give them their C width.
* The zlib decoder and the backing file are collaborators outside the file:
  the decoder is a function, the file an object whose answers may differ from
  one `vfs_read` call to the next.
* A run that dereferences `NULL`, indexes outside an array, overruns a buffer or
  divides by zero has no defined result: the functions return `Except Fault`.
* A function returns, next to its C result and the new device state, the list
  of the observable operations it performed (`Event`).
-/

namespace Cloop

/-- Number of buffered decompressed blocks, `#define BUFFERED_BLOCKS 8`. -/
abbrev BUFFERED_BLOCKS : Nat := 8

/-- Return code `Z_OK` of zlib. -/
def Z_OK : Int := 0

/-- Return code `Z_STREAM_END` of zlib. -/
def Z_STREAM_END : Int := 1

/-- Width of `size_t` and `unsigned long`: coLinux guests are 32-bit x86. -/
def SIZE_BITS : Nat := 32

/-- Runs that leave the defined behaviour of C. -/
inductive Fault where
  | null_pointer
  | out_of_bounds (index : Int)
  | buffer_overflow
  | division_by_zero
  | no_termination
  deriving DecidableEq, Repr

/-- Observable operations, in the order in which the code performs them. -/
inductive Event where
  | offsets_index (i : Int)
  | read_from_file (pos len : Nat)
  | uncompress (slot : Nat) (src_len : Nat) (ret : Int)
  | load_buffer (blocknum : Int)
  | memcpy (src : List Nat) (offset_in_buffer length_in_buffer : Nat)
  deriving DecidableEq, Repr

/-- What one call of `vfs_read` delivers: bytes (none at end of file) or an errno. -/
inductive vfs_result where
  | data (bytes : List Nat)
  | error (errno : Nat)
  deriving DecidableEq, Repr

/-- An open `struct file`: `behaviour n pos count` is the answer of the `n`-th
`vfs_read` call on it when asked for `count` bytes at `pos`. -/
structure file where
  calls : Nat
  behaviour : Nat → Nat → Nat → vfs_result

/-- The zlib stream of the device: `inflate src avail_out` is the return code of
`zlib_inflate(.., Z_FINISH)` on a freshly reset stream and the bytes it produced. -/
structure zlib where
  inflate : List Nat → Nat → Int × List Nat

/-- The fields of `struct cloop_head`: the 32-bit `block_size` and `num_blocks` and the
elements of `preamble`, each with the value it has as a `char`. The struct is declared
in `compressed_loop.h`, which is not among the sources. -/
structure cloop_head where
  block_size : Nat
  num_blocks : Nat
  preamble : List Int := []

/-- A `struct request`: its start sector and the `bv_len` of each of its segments. -/
structure request where
  sector : Nat
  bvecs : List Nat
  deriving DecidableEq

/-- A request as `cloop_do_request` fetches it from the block layer: whether it is a
filesystem request (`blk_fs_request`), its data direction (`rq_data_dir`: 0 is `READ`,
1 is `WRITE`, 2 is `READA`) and what `cloop_handle_request` reads of it. -/
structure fetched_request where
  fs_request : Bool
  data_dir : Nat
  rq : request
  deriving DecidableEq

/-- The fields of `struct cloop_device`. A pointer is an `Option`; `clo_thread` and
`zstream_workspace` only record whether the pointer is set; `capacity` is the value
last given to `set_capacity`; `clo_list` is the work list, head first. -/
structure cloop_device where
  head : cloop_head
  offsets : Option (List Nat)
  buffered_blocknum : Fin BUFFERED_BLOCKS → Int
  current_bufnum : Int
  buffer : Fin BUFFERED_BLOCKS → Option (List Nat)
  compressed_buffer : Option (List Nat)
  preload_array_size : Nat
  preload_size : Nat
  preload_cache : Option (List (Option (List Nat)))
  backing_file : Option file
  largest_block : Nat := 0
  underlying_blksize : Nat := 0
  suspended : Int := 0
  refcnt : Int := 0
  capacity : Nat := 0
  clo_thread : Bool := false
  zstream_workspace : Bool := false
  clo_list : List fetched_request := []

/-- Result of `cloop_read_from_file`: the returned `ssize_t`, the file and the buffer. -/
structure read_result where
  ret : Int
  f : file
  buf : List Nat

/-- Result of `cloop_load_buffer`: the returned slot number or -1, the device, the operations. -/
structure load_result where
  ret : Int
  clo : cloop_device
  trace : List Event

/-- The local variables of `cloop_handle_request` that live across its loops. -/
structure copy_state where
  clo : cloop_device
  offset : Nat
  buffered_blocknum : Int
  preloaded : Int
  trace : List Event

/-- Result of `cloop_handle_request`: the returned "uptodate" flag, the device, the bytes
copied into each segment (in segment order) and the operations. -/
structure request_result where
  ret : Int
  clo : cloop_device
  dest : List (List Nat)
  trace : List Event

/-- A 32-bit header field read through `ntohl`. -/
def ntohl (field : Nat) : Nat := field % 2 ^ 32

/-- A 64-bit table entry read through `be64_to_cpu`. -/
def be64_to_cpu (entry : Nat) : Nat := entry % 2 ^ 64

/-- Conversion of a 64-bit quantity to `int`. -/
def to_int (x : Nat) : Int :=
  if x % 2 ^ 32 < 2 ^ 31 then ((x % 2 ^ 32 : Nat) : Int) else ((x % 2 ^ 32 : Nat) : Int) - 2 ^ 32

/-- Reading of a 64-bit quantity as the signed `loff_t`. -/
def to_loff_t (x : Nat) : Int :=
  if x % 2 ^ 64 < 2 ^ 63 then ((x % 2 ^ 64 : Nat) : Int) else ((x % 2 ^ 64 : Nat) : Int) - 2 ^ 64

/-- Dereference of a pointer. -/
def deref {α : Type} (p : Option α) : Except Fault α :=
  match p with
  | some a => .ok a
  | none => .error .null_pointer

/-- Element `i` of a C array with the given contents. -/
def index {α : Type} (l : List α) (i : Int) : Except Fault α :=
  if 0 ≤ i then
    match l[i.toNat]? with
    | some a => .ok a
    | none => .error (.out_of_bounds i)
  else .error (.out_of_bounds i)

/-- An `int` used as index into one of the `BUFFERED_BLOCKS`-sized arrays. -/
def slot_index (i : Int) : Except Fault (Fin BUFFERED_BLOCKS) :=
  if h : 0 ≤ i ∧ i < 8 then .ok ⟨i.toNat, by show i.toNat < 8; omega⟩ else .error (.out_of_bounds i)

/-- Storing `bytes` at `buf + pos`; storing no byte touches nothing. -/
def store (buf : List Nat) (pos : Nat) (bytes : List Nat) : Except Fault (List Nat) :=
  if bytes.length = 0 then .ok buf
  else if pos + bytes.length ≤ buf.length then
    .ok (buf.take pos ++ bytes ++ buf.drop (pos + bytes.length))
  else .error .buffer_overflow

/-- One `vfs_read(f, buf, count, &pos)`: the returned `ssize_t`, the bytes stored, the file. -/
def vfs_read (f : file) (pos count : Nat) : Int × List Nat × file :=
  match f.behaviour f.calls pos count with
  | .data bytes =>
    (((bytes.take count).length : Int), bytes.take count, { f with calls := f.calls + 1 })
  | .error errno => (-(errno : Int), [], { f with calls := f.calls + 1 })

/-- The `while (buf_done < buf_len)` loop of `cloop_read_from_file`; `fuel` bounds the
number of iterations the model follows. `size_read` is a `size_t`, so a negative
result of `vfs_read` is a large positive count. -/
def cloop_read_loop : Nat → file → List Nat → Nat → Nat → Nat → Except Fault read_result
  | 0, f, buf, _, buf_len, buf_done =>
    if buf_done < buf_len then .error .no_termination
    else .ok ⟨to_int buf_done, f, buf⟩
  | fuel + 1, f, buf, pos, buf_len, buf_done =>
    if buf_done < buf_len then
      let size := buf_len - buf_done
      match vfs_read f pos size with
      | (r, bytes, f1) =>
        let size_read : Nat := (r % 2 ^ SIZE_BITS).toNat
        if size_read = 0 then
          match store buf (buf_len - size) (List.replicate size 0) with
          | .ok buf1 => .ok ⟨to_int buf_done, f1, buf1⟩
          | .error e => .error e
        else
          match store buf buf_done bytes with
          | .ok buf1 =>
            cloop_read_loop fuel f1 buf1 (pos + r.toNat) buf_len
              ((buf_done + size_read) % 2 ^ SIZE_BITS)
          | .error e => .error e
    else .ok ⟨to_int buf_done, f, buf⟩

/-- Embedding of `cloop_read_from_file(clo, f, buf, pos, buf_len)`. -/
def cloop_read_from_file (fuel : Nat) (f : file) (buf : List Nat) (pos buf_len : Nat) :
    Except Fault read_result :=
  cloop_read_loop fuel f buf pos buf_len 0

/-- Embedding of `uncompress(clo, dest, &destLen, source, sourceLen)`: the stream is
reset (re-initialised when the reset fails), inflated with `Z_FINISH` into `dest`, and
`destLen` becomes `total_out`. Returns the code, the new `dest` and the new `destLen`. -/
def uncompress (z : zlib) (dest : List Nat) (destLen : Nat) (source : List Nat) :
    Except Fault (Int × List Nat × Nat) :=
  match z.inflate source destLen with
  | (err, produced) =>
    let out := produced.take destLen
    if dest.length < out.length then .error .buffer_overflow
    else
      .ok (if err ≠ Z_STREAM_END then err else Z_OK, out ++ dest.drop out.length, out.length)

/-- The scan `for(i=0; i<BUFFERED_BLOCKS; i++) if (blocknum == clo->buffered_blocknum[i])`:
the first slot tagged `blocknum`. -/
def find_buffered (tags : Fin BUFFERED_BLOCKS → Int) (blocknum : Int) :
    Option (Fin BUFFERED_BLOCKS) :=
  (List.finRange BUFFERED_BLOCKS).find? (fun i => decide (blocknum = tags i))

/-- The step "go to next position in the block ring buffer". -/
def next_bufnum (current_bufnum : Int) : Int :=
  if current_bufnum + 1 ≥ 8 then 0 else current_bufnum + 1

/-- Embedding of `cloop_load_buffer(clo, blocknum)`. -/
def cloop_load_buffer (z : zlib) (fuel : Nat) (clo : cloop_device) (blocknum : Int) :
    Except Fault load_result :=
  -- `blocknum > ntohl(clo->head.num_blocks)` compares as `unsigned int`
  if blocknum % 2 ^ 32 > (ntohl clo.head.num_blocks : Int) ∨ blocknum < 0 then
    .ok ⟨-1, clo, []⟩
  else
    match find_buffered clo.buffered_blocknum blocknum with
    | some i => .ok ⟨(i.val : Int), clo, []⟩
    | none =>
      match deref clo.offsets with
      | .error e => .error e
      | .ok offsets =>
      match index offsets (blocknum + 1) with
      | .error e => .error e
      | .ok o1 =>
      match index offsets blocknum with
      | .error e => .error e
      | .ok o0 =>
      let buf_length : Nat := (((be64_to_cpu o1 : Int) - be64_to_cpu o0) % 2 ^ 32).toNat
      match deref clo.backing_file with
      | .error e => .error e
      | .ok f =>
      match deref clo.compressed_buffer with
      | .error e => .error e
      | .ok cbuf =>
      match cloop_read_from_file fuel f cbuf (be64_to_cpu o0) buf_length with
      | .error e => .error e
      | .ok rd =>
      let buflen := ntohl clo.head.block_size
      let cur := next_bufnum clo.current_bufnum
      match slot_index cur with
      | .error e => .error e
      | .ok slot =>
      match deref (clo.buffer slot) with
      | .error e => .error e
      | .ok dest =>
      match uncompress z dest buflen (rd.buf.take buf_length) with
      | .error e => .error e
      | .ok (ret, dest1, _) =>
        let clo1 : cloop_device :=
          { clo with
            backing_file := some rd.f
            compressed_buffer := some rd.buf
            current_bufnum := cur
            buffer := Function.update clo.buffer slot (some dest1) }
        let trace : List Event :=
          [.offsets_index (blocknum + 1), .offsets_index blocknum,
           .read_from_file (be64_to_cpu o0) buf_length,
           .uncompress slot.val buf_length ret]
        if ret ≠ 0 then
          .ok ⟨-1, { clo1 with buffered_blocknum := Function.update clo.buffered_blocknum slot (-1) },
               trace⟩
        else
          .ok ⟨cur, { clo1 with
                      buffered_blocknum := Function.update clo.buffered_blocknum slot blocknum },
               trace⟩

/-- The preload lookup of `cloop_handle_request`:
`block_offset < clo->preload_size && clo->preload_cache != NULL &&
clo->preload_cache[block_offset] != NULL`, the comparison being the signed 64-bit one
of `loff_t` against the 32-bit `size_t`. Yields the preloaded block, if any. -/
def preload_lookup (clo : cloop_device) (block_offset : Nat) :
    Except Fault (Option (List Nat)) :=
  if to_loff_t block_offset < ((clo.preload_size % 2 ^ SIZE_BITS : Nat) : Int) then
    match clo.preload_cache with
    | none => .ok none
    | some table => index table (to_loff_t block_offset)
  else .ok none

/-- The block lookup in the body of the inner loop of `cloop_handle_request`: the
preload cache first, `cloop_load_buffer` otherwise. Updates the locals `preloaded` and
`buffered_blocknum` and yields the buffer `from_ptr` points to, or nothing when the
loop is to be left ("invalid data, leave inner loop"). -/
def cloop_resolve_block (z : zlib) (rfuel : Nat) (st : copy_state) (block_offset : Nat) :
    Except Fault (copy_state × Option (List Nat)) :=
  match preload_lookup st.clo block_offset with
  | .error e => .error e
  | .ok (some from_ptr) => .ok ({ st with preloaded := 1 }, some from_ptr)
  | .ok none =>
    match cloop_load_buffer z rfuel st.clo (to_int block_offset) with
    | .error e => .error e
    | .ok r =>
      let st1 : copy_state :=
        { st with
          clo := r.clo
          preloaded := 0
          buffered_blocknum := r.ret
          trace := st.trace ++ [.load_buffer (to_int block_offset)] ++ r.trace }
      if r.ret = -1 then .ok (st1, none)
      else
        match slot_index r.ret with
        | .error e => .error e
        | .ok slot =>
          match deref (r.clo.buffer slot) with
          | .error e => .error e
          | .ok from_ptr => .ok (st1, some from_ptr)

/-- The loop `while(len > 0)` of `cloop_handle_request`, followed for at most `fuel`
iterations: `len` is what is left of the segment, `written` what has been copied to it.
Returns the locals and the bytes copied to the segment when the loop is left. -/
def cloop_copy_segment (z : zlib) (rfuel : Nat) :
    Nat → copy_state → Nat → List Nat → Except Fault (copy_state × List Nat)
  | 0, st, len, written =>
    if len > 0 then .error .no_termination else .ok (st, written)
  | fuel + 1, st, len, written =>
    if len > 0 then
      let block_size := ntohl st.clo.head.block_size
      if block_size = 0 then .error .division_by_zero
      else
        -- offset_in_buffer = do_div(block_offset, ntohl(clo->head.block_size))
        let block_offset := st.offset / block_size
        let offset_in_buffer := st.offset % block_size
        match cloop_resolve_block z rfuel st block_offset with
        | .error e => .error e
        | .ok (st1, none) => .ok (st1, written)
        | .ok (st1, some from_ptr) =>
          let length_in_buffer := min (block_size - offset_in_buffer) len
          if from_ptr.length < offset_in_buffer + length_in_buffer then .error .buffer_overflow
          else
            cloop_copy_segment z rfuel fuel
              { st1 with
                offset := (st.offset + length_in_buffer) % 2 ^ 64
                trace := st1.trace ++ [.memcpy from_ptr offset_in_buffer length_in_buffer] }
              (len - length_in_buffer)
              (written ++ (from_ptr.drop offset_in_buffer).take length_in_buffer)
    else .ok (st, written)

/-- The loop `rq_for_each_segment(bvec, req, iter)` of `cloop_handle_request` over the
segment lengths `bv_len`; each segment is copied by the inner loop, which needs at most
`bv_len` iterations. Returns the locals and the bytes copied to each segment. -/
def cloop_copy_segments (z : zlib) (rfuel : Nat) :
    copy_state → List Nat → Except Fault (copy_state × List (List Nat))
  | st, [] => .ok (st, [])
  | st, bv_len :: rest =>
    match cloop_copy_segment z rfuel bv_len st bv_len [] with
    | .error e => .error e
    | .ok (st1, written) =>
      match cloop_copy_segments z rfuel st1 rest with
      | .error e => .error e
      | .ok (st2, dest) => .ok (st2, written :: dest)

/-- Embedding of `cloop_handle_request(clo, req)`; returns "uptodate". -/
def cloop_handle_request (z : zlib) (rfuel : Nat) (clo : cloop_device) (req : request) :
    Except Fault request_result :=
  match cloop_copy_segments z rfuel
      { clo := clo
        buffered_blocknum := -1
        preloaded := 0
        -- loff_t offset = (loff_t) blk_rq_pos(req)<<9
        offset := (req.sector * 512) % 2 ^ 64
        trace := [] }
      req.bvecs with
  | .error e => .error e
  | .ok (st, dest) =>
    .ok ⟨if st.buffered_blocknum ≠ -1 ∨ st.preloaded ≠ 0 then 1 else 0, st.clo, dest, st.trace⟩

/-- `PAGE_SIZE` on x86. -/
def PAGE_SIZE : Nat := 4096

/-- Error number `EBADF`. -/
def EBADF : Int := 9

/-- Error number `ENOMEM`. -/
def ENOMEM : Int := 12

/-- What `S_ISREG` and `S_ISBLK` tell of `inode->i_mode`. -/
inductive inode_kind where
  | regular
  | block_device
  | other
  deriving DecidableEq, Repr

/-- The inode of the file handed to the attach: its kind, its `i_size` and, for a block
device, `block_size(inode->i_bdev)`. -/
structure inode where
  kind : inode_kind
  i_size : Nat
  bdev_block_size : Nat

/-- What `cloop_set_file` takes from outside the device: the decoder, the bound on loop
iterations the model follows, the module parameter `preload`, the size `CLOOP_HEADROOM`
of the preamble (a constant of `compressed_loop.h`, which is not among the sources),
the size of the zlib workspace, whether the `n`-th `cloop_malloc` of the attach (for
`size` bytes) succeeds, what the memory it returns holds at each index (`kmalloc` does not
clear it), the value a byte of the file has as an element of `preamble` (the element type
is declared in `compressed_loop.h`), and the errno of `kthread_create` (0 when the thread
is created). The bounce
buffer is allocation 0, the offsets table 1, `buffer[i]` is `2 + i`, the compressed buffer
10, the zlib workspace 11, the preload table 12 and `preload_cache[i]` is `13 + i`. -/
structure attach_env where
  z : zlib
  fuel : Nat
  preload : Nat
  headroom : Nat
  workspacesize : Nat
  malloc : Nat → Nat → Bool
  garbage : Nat → Nat → Nat
  char : Nat → Int
  kthread_create : Int

/-- Result of `cloop_set_file`: the returned `error` and the device. -/
structure set_file_result where
  ret : Int
  clo : cloop_device

/-- The `size` units of memory the `n`-th `cloop_malloc` returns. -/
def fresh_memory (env : attach_env) (n size : Nat) : List Nat :=
  (List.range size).map (env.garbage n)

/-- The value of the byte `b` as a `char`, which is signed on the x86 target of the
driver: the bytes from 0x80 on are negative. -/
def x86_char (b : Nat) : Int :=
  if b % 256 < 128 then ((b % 256 : Nat) : Int) else ((b % 256 : Nat) : Int) - 256

/-- The number a sequence of bytes encodes in network (big-endian) order. -/
def be_value (bytes : List Nat) : Nat :=
  bytes.foldl (fun acc b => acc * 256 + b % 256) 0

/-- `sizeof(struct cloop_head)`: the preamble and two 32-bit fields. -/
def sizeof_cloop_head (headroom : Nat) : Nat := headroom + 8

/-- The `memcpy(&clo->head, bbuf, sizeof(struct cloop_head))`; the fields are kept as the
numbers their bytes encode. -/
def read_head (env : attach_env) (bbuf : List Nat) : Except Fault cloop_head :=
  if bbuf.length < sizeof_cloop_head env.headroom then .error .buffer_overflow
  else
    .ok { preamble := (bbuf.take env.headroom).map env.char
          block_size := be_value ((bbuf.drop env.headroom).take 4)
          num_blocks := be_value ((bbuf.drop (env.headroom + 4)).take 4) }

/-- The `num_readable` table entries that start at `bbuf + offset`. -/
def read_entries (bbuf : List Nat) (offset : Nat) : Nat → List Nat
  | 0 => []
  | n + 1 => be_value ((bbuf.drop offset).take 8) :: read_entries bbuf (offset + 8) n

/-- The `memcpy(&clo->offsets[offsets_read], ...)` of `entries` into the table. -/
def store_entries (table : List Nat) (offsets_read : Nat) (entries : List Nat) :
    Except Fault (List Nat) :=
  if entries.length = 0 then .ok table
  else if offsets_read + entries.length ≤ table.length then
    .ok (table.take offsets_read ++ entries ++ table.drop (offsets_read + entries.length))
  else .error .buffer_overflow

/-- The exit `error_release:` of `cloop_set_file`. -/
def error_release (clo : cloop_device) (error : Int) : set_file_result :=
  ⟨error, { clo with backing_file := none }⟩

/-- The exit `error_release_free:` of `cloop_set_file`, which falls through to
`error_release`. -/
def error_release_free (clo : cloop_device) (error : Int) : set_file_result :=
  error_release { clo with offsets := none } error

/-- The exit `error_release_free_buffer:` of `cloop_set_file`, which falls through to
`error_release_free`. -/
def error_release_free_buffer (clo : cloop_device) (error : Int) : set_file_result :=
  error_release_free { clo with buffer := fun _ => none } error

/-- The exit `error_release_free_all:` of `cloop_set_file`, which falls through to
`error_release_free_buffer`. -/
def error_release_free_all (clo : cloop_device) (error : Int) : set_file_result :=
  error_release_free_buffer { clo with compressed_buffer := none } error

/-- The end of the `if(i==0)` part of `cloop_set_file`, after the marker checks:
`total_offsets`, the check of the file size against the size of the table, and the
allocation of the offsets table. Either the exit taken
or the device with `offsets` set, together with `total_offsets`. -/
def cloop_alloc_offsets (env : attach_env) (isblkdev : Bool) (i_size : Nat)
    (clo : cloop_device) : set_file_result ⊕ (cloop_device × Nat) :=
  -- unsigned int total_offsets; the products are `size_t`
  let total_offsets := (ntohl clo.head.num_blocks + 1) % 2 ^ 32
  if ¬ isblkdev ∧
      (sizeof_cloop_head env.headroom + 8 * total_offsets) % 2 ^ SIZE_BITS > i_size then
    .inl (error_release clo (-EBADF))
  else if env.malloc 1 ((8 * total_offsets) % 2 ^ SIZE_BITS) then
    .inr ({ clo with
            offsets := some (fresh_memory env 1 ((8 * total_offsets) % 2 ^ SIZE_BITS / 8)) },
          total_offsets)
  else .inl (error_release { clo with offsets := none } (-ENOMEM))

/-- The `if(i==0)` part of `cloop_set_file`: the header is copied from block zero, then
the block size and the markers at `preamble[0x0B]` and `preamble[0x0C]` are checked
('V' is 86, '1' is 49, '2' is 50). -/
def cloop_check_head (env : attach_env) (isblkdev : Bool) (i_size : Nat) (clo : cloop_device)
    (bbuf : List Nat) : Except Fault (set_file_result ⊕ (cloop_device × Nat)) :=
  match read_head env bbuf with
  | .error e => .error e
  | .ok head =>
    let clo1 : cloop_device := { clo with head := head }
    if ntohl head.block_size % 512 ≠ 0 then .ok (.inl (error_release clo1 (-EBADF)))
    else
      match index head.preamble 0x0B with
      | .error e => .error e
      | .ok c0B =>
      match index head.preamble 0x0C with
      | .error e => .error e
      | .ok c0C =>
        if c0B ≠ 86 ∨ c0C < 49 then .ok (.inl (error_release clo1 (-EBADF)))
        else if c0C < 50 then .ok (.inl (error_release clo1 (-EBADF)))
        else .ok (cloop_alloc_offsets env isblkdev i_size clo1)

/-- The loop `for (i = 0, offsets_read = 0; offsets_read < total_offsets; i++)` of
`cloop_set_file`, followed for at most `fuel` iterations: either the exit taken or the
device with the table filled, together with `total_offsets`. -/
def cloop_read_offsets (env : attach_env) (isblkdev : Bool) (i_size : Nat) :
    Nat → cloop_device → file → List Nat → Nat → Nat → Nat →
      Except Fault (set_file_result ⊕ (cloop_device × Nat))
  | 0, clo, _, _, _, offsets_read, total_offsets =>
    if offsets_read < total_offsets then .error .no_termination
    else .ok (.inr (clo, total_offsets))
  | fuel + 1, clo, f, bbuf, i, offsets_read, total_offsets =>
    if offsets_read < total_offsets then
      match cloop_read_from_file env.fuel f bbuf ((i * clo.underlying_blksize) % 2 ^ 32)
          clo.underlying_blksize with
      | .error e => .error e
      | .ok rd =>
        let clo1 : cloop_device := { clo with backing_file := some rd.f }
        if (rd.ret % 2 ^ SIZE_BITS).toNat ≠ clo.underlying_blksize then
          .ok (.inl (error_release clo1 (-EBADF)))
        else
          match (if i = 0 then cloop_check_head env isblkdev i_size clo1 rd.buf
                 else .ok (.inr (clo1, total_offsets))) with
          | .error e => .error e
          | .ok (.inl res) => .ok (.inl res)
          | .ok (.inr (clo2, total)) =>
            let offset := if i = 0 then sizeof_cloop_head env.headroom else 0
            -- the operands are `unsigned int`
            let num_readable := min ((total + 2 ^ 32 - offsets_read) % 2 ^ 32)
              ((clo.underlying_blksize + 2 ^ 32 - offset) % 2 ^ 32 / 8)
            match deref clo2.offsets with
            | .error e => .error e
            | .ok table =>
              match store_entries table offsets_read (read_entries rd.buf offset num_readable) with
              | .error e => .error e
              | .ok table1 =>
                cloop_read_offsets env isblkdev i_size fuel { clo2 with offsets := some table1 }
                  rd.f rd.buf ((i + 1) % 2 ^ 32) ((offsets_read + num_readable) % 2 ^ 32) total
    else .ok (.inr (clo, total_offsets))

/-- The loop `for(i=0;i<total_offsets-1;i++)` of `cloop_set_file` that raises
`clo->largest_block` to the largest difference of adjacent offsets, followed for at most
`fuel` iterations. `d` is a signed `loff_t`; `MAX` compares it with the `unsigned long`
`largest_block` as 64-bit signed numbers and the result is stored as `unsigned long`. -/
def cloop_largest_block (offsets : List Nat) (bound : Nat) :
    Nat → Nat → Nat → Except Fault Nat
  | 0, i, largest => if i < bound then .error .no_termination else .ok largest
  | fuel + 1, i, largest =>
    if i < bound then
      match index offsets ((i : Int) + 1), index offsets (i : Int) with
      | .error e, _ => .error e
      | _, .error e => .error e
      | .ok o1, .ok o0 =>
        let d : Int := to_loff_t ((be64_to_cpu o1 + 2 ^ 64 - be64_to_cpu o0) % 2 ^ 64)
        cloop_largest_block offsets bound fuel (i + 1)
          (if (largest : Int) > d then largest else (d % 2 ^ SIZE_BITS).toNat)
    else .ok largest

/-- The loop `for(i=0;i<BUFFERED_BLOCKS;i++) clo->buffer[i] = cloop_malloc(...)` over the
slots still to come: the buffers, and whether an allocation failed. -/
def cloop_alloc_buffers (env : attach_env) (block_size : Nat) :
    List (Fin BUFFERED_BLOCKS) → (Fin BUFFERED_BLOCKS → Option (List Nat)) →
      (Fin BUFFERED_BLOCKS → Option (List Nat)) × Bool
  | [], buffer => (buffer, false)
  | i :: rest, buffer =>
    if env.malloc (2 + i.val) block_size then
      cloop_alloc_buffers env block_size rest
        (Function.update buffer i (some (fresh_memory env (2 + i.val) block_size)))
    else (Function.update buffer i none, true)

/-- Assignment to `preload_cache[i]`. -/
def set_preload (table : List (Option (List Nat))) (i : Nat) (p : Option (List Nat)) :
    Except Fault (List (Option (List Nat))) :=
  if i < table.length then .ok (table.set i p) else .error .buffer_overflow

/-- The loop `for(i=0; i<clo->preload_array_size; i++)` that allocates the preload buffers
and stops at the first failure, with `count` slots still to come: the table and the final
`i`. -/
def cloop_alloc_preload (env : attach_env) (block_size : Nat) :
    Nat → Nat → List (Option (List Nat)) → Except Fault (List (Option (List Nat)) × Nat)
  | 0, i, table => .ok (table, i)
  | count + 1, i, table =>
    if env.malloc (13 + i) block_size then
      match set_preload table i (some (fresh_memory env (13 + i) block_size)) with
      | .error e => .error e
      | .ok table1 => cloop_alloc_preload env block_size count (i + 1) table1
    else
      match set_preload table i none with
      | .error e => .error e
      | .ok table1 => .ok (table1, i)

/-- The loop `for(i=0; i<clo->preload_size; i++)` that fills the preload buffers through
`cloop_load_buffer`, with `count` blocks still to come: a block that loads is copied from
its slot, one that does not is set to zero. -/
def cloop_fill_preload (z : zlib) (fuel : Nat) :
    Nat → Nat → cloop_device → List (Option (List Nat)) →
      Except Fault (cloop_device × List (Option (List Nat)))
  | 0, _, clo, table => .ok (clo, table)
  | count + 1, i, clo, table =>
    match cloop_load_buffer z fuel clo (i : Int) with
    | .error e => .error e
    | .ok r =>
      let block_size := ntohl r.clo.head.block_size
      if r.ret ≥ 0 then
        match slot_index r.ret with
        | .error e => .error e
        | .ok slot =>
          match deref (r.clo.buffer slot) with
          | .error e => .error e
          | .ok src =>
            if src.length < block_size then .error .buffer_overflow
            else
              match set_preload table i (some (src.take block_size)) with
              | .error e => .error e
              | .ok table1 => cloop_fill_preload z fuel count (i + 1) r.clo table1
      else
        match set_preload table i (some (List.replicate block_size 0)) with
        | .error e => .error e
        | .ok table1 => cloop_fill_preload z fuel count (i + 1) r.clo table1

/-- The part `if(preload > 0) { ... }` of `cloop_set_file` and the `wake_up_process` that
follows it. -/
def cloop_set_file_preload (env : attach_env) (clo : cloop_device) : Except Fault cloop_device :=
  if env.preload % 2 ^ 32 > 0 then
    let preload_array_size :=
      if env.preload % 2 ^ 32 ≤ ntohl clo.head.num_blocks then env.preload % 2 ^ 32
      else ntohl clo.head.num_blocks
    if env.malloc 12 ((preload_array_size * 4) % 2 ^ SIZE_BITS) then
      match cloop_alloc_preload env (ntohl clo.head.block_size) preload_array_size 0
          (List.replicate ((preload_array_size * 4) % 2 ^ SIZE_BITS / 4) none) with
      | .error e => .error e
      | .ok (table, i) =>
        match cloop_fill_preload env.z env.fuel i 0
            { clo with preload_array_size := preload_array_size, preload_size := i } table with
        | .error e => .error e
        | .ok (clo1, table1) =>
          .ok { clo1 with preload_cache := some table1 }
    else
      .ok { clo with
            preload_cache := none
            preload_array_size := 0
            preload_size := 0 }
  else .ok clo

/-- The argument of `set_capacity` in `cloop_set_file`,
`(sector_t)(ntohl(clo->head.num_blocks)*(ntohl(clo->head.block_size)>>9))`: the product
is one of two `unsigned int`, taken before the cast. -/
def cloop_capacity (head : cloop_head) : Nat :=
  (ntohl head.num_blocks * (ntohl head.block_size / 512)) % 2 ^ 32

/-- The part of `cloop_set_file` from its start to the creation of the thread: either the
value returned (an error exit, or the early return of the suspended mode) or the device
as it enters the preload part. -/
def cloop_set_file_attach (env : attach_env) (clo : cloop_device) (file : file)
    (inode : inode) : Except Fault (set_file_result ⊕ cloop_device) :=
  let isblkdev : Bool := decide (inode.kind = .block_device)
  if ¬ isblkdev ∧ inode.kind ≠ .regular then .ok (.inl (error_release clo (-EBADF)))
  else
    let clo1 : cloop_device := { clo with backing_file := some file }
    if ¬ isblkdev ∧ inode.i_size < sizeof_cloop_head env.headroom then
      .ok (.inl (error_release clo1 (-EBADF)))
    -- In suspended mode, we have done all checks necessary
    else if clo1.suspended ≠ 0 then .ok (.inl ⟨0, clo1⟩)
    else
      let clo2 : cloop_device :=
        { clo1 with
          underlying_blksize := if isblkdev then inode.bdev_block_size % 2 ^ 32 else PAGE_SIZE }
      if ¬ env.malloc 0 clo2.underlying_blksize then .ok (.inl (error_release clo2 (-ENOMEM)))
      else
        match cloop_read_offsets env isblkdev inode.i_size env.fuel clo2 file
            (fresh_memory env 0 clo2.underlying_blksize) 0 0 1 with
        | .error e => .error e
        | .ok (.inl res) => .ok (.inl res)
        | .ok (.inr (clo3, total_offsets)) =>
          match deref clo3.offsets with
          | .error e => .error e
          | .ok offsets =>
          match cloop_largest_block offsets ((total_offsets + 2 ^ 32 - 1) % 2 ^ 32) env.fuel 0
              clo3.largest_block with
          | .error e => .error e
          | .ok largest =>
          let clo4 : cloop_device := { clo3 with largest_block := largest }
          match cloop_alloc_buffers env (ntohl clo4.head.block_size)
              (List.finRange BUFFERED_BLOCKS) clo4.buffer with
          | (buffer, true) =>
            .ok (.inl (error_release_free { clo4 with buffer := buffer } (-ENOMEM)))
          | (buffer, false) =>
          let clo5 : cloop_device := { clo4 with buffer := buffer }
          if ¬ env.malloc 10 clo5.largest_block then
            .ok (.inl (error_release_free_buffer { clo5 with compressed_buffer := none }
              (-ENOMEM)))
          else
          let clo6 : cloop_device :=
            { clo5 with compressed_buffer := some (fresh_memory env 10 clo5.largest_block) }
          if ¬ env.malloc 11 env.workspacesize then
            .ok (.inl (error_release_free_all { clo6 with zstream_workspace := false }
              (-ENOMEM)))
          else
          let clo7 : cloop_device := { clo6 with zstream_workspace := true }
          match (if isblkdev then .ok 0 else index offsets (ntohl clo7.head.num_blocks : Int)) with
          | .error e => .error e
          | .ok last =>
          if ¬ isblkdev ∧ be64_to_cpu last ≠ inode.i_size then
            -- "final offset wrong": `error` is not set on this exit
            .ok (.inl (error_release_free_all { clo7 with zstream_workspace := false } 0))
          else
          let clo8 : cloop_device :=
            { clo7 with
              buffered_blocknum := fun _ => -1
              current_bufnum := 0
              capacity := cloop_capacity clo7.head }
          if env.kthread_create ≠ 0 then
            .ok (.inl (error_release_free_all { clo8 with clo_thread := false }
              env.kthread_create))
          else .ok (.inr { clo8 with clo_thread := true })

/-- Embedding of `cloop_set_file(cloop_num, file, filename)` on the device
`cloop_dev[cloop_num]`. -/
def cloop_set_file (env : attach_env) (clo : cloop_device) (file : file) (inode : inode) :
    Except Fault set_file_result :=
  match cloop_set_file_attach env clo file inode with
  | .error e => .error e
  | .ok (.inl res) => .ok res
  | .ok (.inr clo1) =>
    match cloop_set_file_preload env clo1 with
    | .error e => .error e
    | .ok clo2 => .ok ⟨0, clo2⟩

/-- Error number `EBUSY`. -/
def EBUSY : Int := 16

/-- Error number `EINVAL`. -/
def EINVAL : Int := 22

/-- Error number `EIO`. -/
def EIO : Int := 5

/-- A call `__blk_end_request_all(req, error)`. -/
structure completion where
  req : fetched_request
  error : Int
  deriving DecidableEq

/-- Embedding of `cloop_do_request(q)`: `q` lists the requests `blk_fetch_request` yields.
A request that is accepted goes to the tail of the work list; the others are completed
with `-EIO`. Returns the device and the completions. -/
def cloop_do_request : cloop_device → List fetched_request → cloop_device × List completion
  | clo, [] => (clo, [])
  | clo, req :: q =>
    if ¬ req.fs_request ∨ (req.data_dir ≠ 0 ∧ req.data_dir ≠ 2)
        ∨ (clo.backing_file.isNone ∧ clo.suspended = 0) then
      match cloop_do_request clo q with
      | (clo1, done) => (clo1, ⟨req, - EIO⟩ :: done)
    else cloop_do_request { clo with clo_list := clo.clo_list ++ [req] } q

/-- The body of the loop of `cloop_thread` when the work list is not empty: the request at
the head is removed, handled and completed. -/
def cloop_thread_step (z : zlib) (fuel : Nat) (clo : cloop_device) :
    Except Fault (cloop_device × Option completion) :=
  match clo.clo_list with
  | [] => .ok (clo, none)
  | req :: rest =>
    match cloop_handle_request z fuel { clo with clo_list := rest } req.rq with
    | .error e => .error e
    | .ok r => .ok (r.clo, some ⟨req, if r.ret ≠ 0 then 0 else - EIO⟩)

/-- The loop of `cloop_thread` once `kthread_stop` has been called: it runs until the work
list is empty (`while (!kthread_should_stop()||!list_empty(&clo->clo_list))`). -/
def cloop_thread_drain (z : zlib) (fuel : Nat) :
    Nat → cloop_device → Except Fault (cloop_device × List completion)
  | 0, clo => if clo.clo_list.length = 0 then .ok (clo, []) else .error .no_termination
  | n + 1, clo =>
    match cloop_thread_step z fuel clo with
    | .error e => .error e
    | .ok (clo1, none) => .ok (clo1, [])
    | .ok (clo1, some c) =>
      match cloop_thread_drain z fuel n clo1 with
      | .error e => .error e
      | .ok (clo2, done) => .ok (clo2, c :: done)

/-- Embedding of `cloop_clr_fd(cloop_num, bdev)`: the returned value, the device and the
completions of the requests the stopping thread still handles. -/
def cloop_clr_fd (z : zlib) (fuel : Nat) (clo : cloop_device) :
    Except Fault (Int × cloop_device × List completion) :=
  if clo.refcnt > 1 then .ok (-EBUSY, clo, [])
  else if clo.backing_file.isNone then .ok (-EINVAL, clo, [])
  else
    match (if clo.clo_thread then cloop_thread_drain z fuel clo.clo_list.length clo
           else .ok (clo, [])) with
    | .error e => .error e
    | .ok (clo1, done) =>
      .ok (0,
        { clo1 with
          clo_thread := false
          backing_file := none
          offsets := none
          preload_cache := none
          preload_size := if clo1.preload_cache.isSome then 0 else clo1.preload_size
          preload_array_size :=
            if clo1.preload_cache.isSome then 0 else clo1.preload_array_size
          buffer := fun _ => none
          compressed_buffer := none
          zstream_workspace := false
          capacity := 0 },
        done)

/-- The request engine of one device: the device, the request the worker has removed
from the work list and not yet completed, the completions so far, and three records kept
for the statements: the requests appended to the work list, the requests removed from it
and the requests handed to `cloop_handle_request`, each in the order in which that
happened. -/
structure engine where
  clo : cloop_device
  in_flight : Option fetched_request
  completed : List completion
  accepted : List fetched_request
  dequeued : List fetched_request
  serviced : List fetched_request

/-- What can happen to the engine: the block layer calls `cloop_do_request` with the
requests `q`; the worker removes the head of the work list (under `queue_lock`); the
worker handles and completes the request it holds. -/
inductive engine_action where
  | submit (q : List fetched_request)
  | dequeue
  | service

/-- One action of the engine. -/
def engine_step (z : zlib) (fuel : Nat) (e : engine) : engine_action → Except Fault engine
  | .submit q =>
    match cloop_do_request e.clo q with
    | (clo1, done) =>
      .ok { e with
            clo := clo1
            completed := e.completed ++ done
            accepted := e.accepted ++ clo1.clo_list.drop e.clo.clo_list.length }
  | .dequeue =>
    match e.in_flight, e.clo.clo_list with
    | none, req :: rest =>
      .ok { e with
            clo := { e.clo with clo_list := rest }
            in_flight := some req
            dequeued := e.dequeued ++ [req] }
    | _, _ => .ok e
  | .service =>
    match e.in_flight with
    | none => .ok e
    | some req =>
      match cloop_handle_request z fuel e.clo req.rq with
      | .error err => .error err
      | .ok r =>
        .ok { e with
              clo := r.clo
              in_flight := none
              completed := e.completed ++ [⟨req, if r.ret ≠ 0 then 0 else - EIO⟩]
              serviced := e.serviced ++ [req] }

/-- A sequence of actions of the engine. -/
def engine_run (z : zlib) (fuel : Nat) : engine → List engine_action → Except Fault engine
  | e, [] => .ok e
  | e, a :: rest =>
    match engine_step z fuel e a with
    | .error err => .error err
    | .ok e1 => engine_run z fuel e1 rest

/-- Error number `ENODEV`. -/
def ENODEV : Int := 19

/-- Error number `EROFS`. -/
def EROFS : Int := 30

/-- The flag `FMODE_WRITE` of `fmode_t` (a constant of `linux/fs.h`). -/
def FMODE_WRITE : Nat := 2

/-- Embedding of `clo_suspend_fd(cloop_num)` on the device `cloop_dev[cloop_num]`: the
returned value and the device. -/
def clo_suspend_fd (clo : cloop_device) : Int × cloop_device :=
  if clo.backing_file.isNone ∨ clo.suspended ≠ 0 then (-EINVAL, clo)
  else (0, { clo with suspended := 1, backing_file := none })

/-- Embedding of `cloop_set_fd(cloop_num, clo_file, bdev, arg)`: `arg` is what `fget(arg)`
yields, the file with its inode, or nothing. -/
def cloop_set_fd (env : attach_env) (clo : cloop_device) (arg : Option (file × inode)) :
    Except Fault set_file_result :=
  if clo.backing_file.isSome then .ok ⟨-EBUSY, clo⟩
  else
    match arg with
    | none => .ok ⟨-EBADF, clo⟩
    | some (file, inode) => cloop_set_file env clo file inode

/-- The commands of `cloop_ioctl` that change the device: `LOOP_SET_FD` (and
`LOOP_CHANGE_FD`) with what `fget(arg)` yields, `LOOP_CLR_FD`, `CLOOP_SUSPEND`, and the
commands the `switch` does not know. The status commands are left out. -/
inductive ioctl_cmd where
  | set_fd (arg : Option (file × inode))
  | clr_fd
  | suspend
  | unknown

/-- Embedding of `cloop_ioctl(bdev, mode, cmd, arg)` for a valid `bdev`, on the device
`cloop_dev[cloop_num]`: the returned value, the device and the completions of the requests
a stopping thread still handles. -/
def cloop_ioctl (env : attach_env) (clo : cloop_device) :
    ioctl_cmd → Except Fault (Int × cloop_device × List completion)
  | .set_fd arg =>
    match cloop_set_fd env clo arg with
    | .error e => .error e
    | .ok r =>
      -- Okay, we have again a backing file - get reqs again
      if r.ret = 0 ∧ r.clo.suspended ≠ 0 then .ok (r.ret, { r.clo with suspended := 0 }, [])
      else .ok (r.ret, r.clo, [])
  | .clr_fd => cloop_clr_fd env.z env.fuel clo
  | .suspend =>
    match clo_suspend_fd clo with
    | (err, clo1) => .ok (err, clo1, [])
  | .unknown => .ok (-EINVAL, clo, [])

/-- Embedding of `cloop_open(bdev, mode)`: `bdev` is the minor number of the device, if
there is one, and `clo` is `cloop_dev[cloop_num]`. Returns the value and the device. -/
def cloop_open (cloop_count : Int) (bdev : Option Nat) (mode : Nat) (clo : cloop_device) :
    Int × cloop_device :=
  match bdev with
  | none => (-EINVAL, clo)
  | some minor =>
    if to_int minor > cloop_count - 1 then (-ENODEV, clo)
    -- Allow write open for ioctl, but not for mount.
    else if mode &&& FMODE_WRITE ≠ 0 then (-EROFS, clo)
    else (0, { clo with refcnt := to_int ((clo.refcnt + 1) % 2 ^ 32).toNat })
/-! ## Notions used in the statements -/

/-- Block `b` is resident in the decode cache: some slot is tagged `b`. -/
def resident (clo : cloop_device) (b : Int) : Prop :=
  ∃ i : Fin BUFFERED_BLOCKS, clo.buffered_blocknum i = b

instance (clo : cloop_device) (b : Int) : Decidable (resident clo b) :=
  inferInstanceAs (Decidable (∃ i : Fin BUFFERED_BLOCKS, clo.buffered_blocknum i = b))

/-- The number of decoder invocations recorded in a trace. -/
def decoder_calls (trace : List Event) : Nat :=
  (trace.filter (fun e => match e with
    | .uncompress _ _ _ => true
    | _ => false)).length

/-- The number of `cloop_load_buffer` calls recorded in a trace. -/
def load_buffer_calls (trace : List Event) : Nat :=
  (trace.filter (fun e => match e with
    | .load_buffer _ => true
    | _ => false)).length

/-- A sequence of `cloop_load_buffer` calls on one device, as issued by the successive
iterations of the request loop: each call starts in the state the previous one left.
Returns the final state and, per call, the block asked for and the result. -/
def cloop_load_buffers (z : zlib) (fuel : Nat) :
    cloop_device → List Int → Except Fault (cloop_device × List (Int × load_result))
  | clo, [] => .ok (clo, [])
  | clo, b :: rest =>
    match cloop_load_buffer z fuel clo b with
    | .error e => .error e
    | .ok r =>
      match cloop_load_buffers z fuel r.clo rest with
      | .error e => .error e
      | .ok (clo2, rs) => .ok (clo2, (b, r) :: rs)

/-- The blocks inserted by a sequence of calls: those whose call ran the decoder. -/
def inserted (rs : List (Int × load_result)) : List Int :=
  (rs.filter (fun p => decide (decoder_calls p.2.trace ≠ 0))).map Prod.fst

/-- The effect of one insertion on tags and cursor: the cursor advances, wrapping at
`BUFFERED_BLOCKS`, and the slot it selects is tagged. -/
def ring_insert (s : (Fin BUFFERED_BLOCKS → Int) × Int) (b : Int) :
    (Fin BUFFERED_BLOCKS → Int) × Int :=
  (fun i => if (i.val : Int) = next_bufnum s.2 then b else s.1 i, next_bufnum s.2)

/-- The device states reachable from a completed attach (all tags -1, cursor 0, see the
end of `cloop_set_file`) by calls of `cloop_load_buffer`. -/
inductive reachable (z : zlib) : cloop_device → Prop where
  | attach (clo : cloop_device) (htags : ∀ i, clo.buffered_blocknum i = -1)
      (hcur : clo.current_bufnum = 0) : reachable z clo
  | call (clo : cloop_device) (fuel : Nat) (b : Int) (r : load_result)
      (hclo : reachable z clo) (hcall : cloop_load_buffer z fuel clo b = .ok r) :
      reachable z r.clo

/-- The logical image: the decoded blocks `img 0, ..., img (n-1)` one after the other. -/
def logical_image (img : Nat → List Nat) (n : Nat) : List Nat :=
  ((List.range n).map img).flatten

/-- The image `X` cut at the segment boundaries of a request that starts at byte `off`. -/
def image_segments (X : List Nat) : Nat → List Nat → List (List Nat)
  | _, [] => []
  | off, len :: rest => (X.drop off).take len :: image_segments X (off + len) rest

/-- The copy steps of one segment as the specification describes them: while bytes
remain, a step takes `min (block_size - offset_in_block) remaining` bytes of block
`offset / block_size` from position `offset mod block_size` on, and the offset advances
by that amount. A step is the block, the position in the block and the count. -/
def copy_steps (block_size : Nat) : Nat → Nat → Nat → List (Nat × Nat × Nat)
  | 0, _, _ => []
  | fuel + 1, offset, remaining =>
    if remaining = 0 then []
    else
      (offset / block_size, offset % block_size,
          min (block_size - offset % block_size) remaining)
        :: copy_steps block_size fuel
            (offset + min (block_size - offset % block_size) remaining)
            (remaining - min (block_size - offset % block_size) remaining)

/-- The copy steps of a request that starts at byte `offset`, segment after segment. -/
def request_steps (block_size : Nat) : Nat → List Nat → List (Nat × Nat × Nat)
  | _, [] => []
  | offset, len :: rest =>
    copy_steps block_size len offset len ++ request_steps block_size (offset + len) rest

/-- The `memcpy` operations of a trace: source buffer, position in it, count. -/
def memcpy_steps (trace : List Event) : List (List Nat × Nat × Nat) :=
  trace.filterMap (fun e => match e with
    | .memcpy src o l => some (src, o, l)
    | _ => none)

/-- What the statements read of the result of an attach: the returned value and
whether `backing_file`, `offsets`, each `buffer[i]` and `compressed_buffer` are set. -/
def attach_summary (r : Except Fault set_file_result) :
    Option (Int × Bool × Bool × List Bool × Bool) :=
  match r with
  | .error _ => none
  | .ok r =>
    some (r.ret, r.clo.backing_file.isSome, r.clo.offsets.isSome,
      (List.finRange BUFFERED_BLOCKS).map (fun i => (r.clo.buffer i).isSome),
      r.clo.compressed_buffer.isSome)

/-- The fault of a run, if it has one. -/
def fault_of {α : Type} (r : Except Fault α) : Option Fault :=
  match r with
  | .error e => some e
  | .ok _ => none

/-- The device an attach leaves behind (the device as it was when the run has a fault). -/
def attach_device (clo : cloop_device) (r : Except Fault set_file_result) : cloop_device :=
  match r with
  | .error _ => clo
  | .ok r => r.clo

/-- The device a detach leaves behind (the device as it was when the run has a fault). -/
def detach_device (clo : cloop_device)
    (r : Except Fault (Int × cloop_device × List completion)) : cloop_device :=
  match r with
  | .error _ => clo
  | .ok (_, clo1, _) => clo1

/-- An engine at rest: nothing queued, nothing in flight, nothing recorded. -/
def engine_idle (clo : cloop_device) : engine :=
  { clo := { clo with clo_list := [] }
    in_flight := none
    completed := []
    accepted := []
    dequeued := []
    serviced := [] }

/-- The result of an attach that returns (a result with the device as it was when the run
has a fault). -/
def attach_result (clo : cloop_device) (r : Except Fault set_file_result) : set_file_result :=
  match r with
  | .error _ => ⟨0, clo⟩
  | .ok r => r

/-- The device as the attach hands it to its preload part (the device as it was when the
attach does not get there). -/
def attach_base (clo : cloop_device) (r : Except Fault (set_file_result ⊕ cloop_device)) :
    cloop_device :=
  match r with
  | .ok (.inr base) => base
  | _ => clo

/-- The engine after a sequence of actions (the engine as it was when the run has a
fault). -/
def engine_after (z : zlib) (fuel : Nat) (e : engine) (acts : List engine_action) : engine :=
  match engine_run z fuel e acts with
  | .ok e1 => e1
  | .error _ => e

/-- The result of a read of a block-zero-sized buffer (the untouched buffer when the run
has a fault). -/
def read_result_of (f : file) (buf : List Nat) (r : Except Fault read_result) : read_result :=
  match r with
  | .ok rd => rd
  | .error _ => ⟨0, f, buf⟩

/-- The header `read_head` yields (an empty header when it has a fault). -/
def head_of (r : Except Fault cloop_head) : cloop_head :=
  match r with
  | .ok head => head
  | .error _ => { block_size := 0, num_blocks := 0 }

/-- Whether the attach gets to its preload part. -/
def reaches_preload (r : Except Fault (set_file_result ⊕ cloop_device)) : Bool :=
  match r with
  | .ok (.inr _) => true
  | _ => false

/-- A request is a filesystem read and the device is attached or suspended: what the
statements call a request that `cloop_do_request` accepts on the device. -/
def accepted_by (clo : cloop_device) (req : fetched_request) : Bool :=
  req.fs_request && (req.data_dir == 0 || req.data_dir == 2)
    && (clo.backing_file.isSome || decide (clo.suspended ≠ 0))

/-- What the statements read of a pass of the worker: the request completed, if any, with
the error it was completed with. -/
def step_completion (r : Except Fault (cloop_device × Option completion)) :
    Option (Option (fetched_request × Int)) :=
  match r with
  | .error _ => none
  | .ok (_, done) => some (done.map (fun c => (c.req, c.error)))

/-- The device after a pass of the worker (the device as it was when the run has a
fault). -/
def worker_device (clo : cloop_device) (r : Except Fault (cloop_device × Option completion)) :
    cloop_device :=
  match r with
  | .error _ => clo
  | .ok (clo1, _) => clo1

/-- A file that always answers with what `data` holds at the position asked for. -/
def stable_file (data : List Nat) (f : file) : Prop :=
  f.behaviour = fun _ pos count => vfs_result.data ((data.drop pos).take count)

/-- The 8-byte big-endian value at position `pos` of a file that holds `data`. -/
def file_entry (data : List Nat) (pos : Nat) : Nat := be_value ((data.drop pos).take 8)

/-- What a detach returns (nothing done on the device as it was when the run has a
fault). -/
def detach_outcome (clo : cloop_device)
    (r : Except Fault (Int × cloop_device × List completion)) :
    Int × cloop_device × List completion :=
  match r with
  | .error _ => (0, clo, [])
  | .ok x => x

/-- The device and `total_offsets` that the checks of the header hand to the index loop
(the device as it was, with no entry to read, when the checks take an exit). -/
def checked_head (clo : cloop_device)
    (r : Except Fault (set_file_result ⊕ (cloop_device × Nat))) : cloop_device × Nat :=
  match r with
  | .ok (.inr x) => x
  | _ => (clo, 0)

/-- Whether the header passes its checks and the offsets table is allocated. -/
def passes_check (r : Except Fault (set_file_result ⊕ (cloop_device × Nat))) : Bool :=
  match r with
  | .ok (.inr _) => true
  | _ => false

/-- A stand-in decoder: the stream `[v, hi, lo]` with `v ≠ 0` inflates to `256*hi + lo`
copies of the byte `v`; output that does not fit gives `Z_BUF_ERROR`, every other
stream `Z_DATA_ERROR`. -/
def demo_zlib : zlib :=
  ⟨fun src avail_out =>
    match src with
    | [v, hi, lo] =>
      if v = 0 then (-3, [])
      else if 256 * hi + lo ≤ avail_out then (1, List.replicate (256 * hi + lo) v)
      else (-5, List.replicate avail_out v)
    | _ => (-3, [])⟩

/-- The bytes of a two-block container: 160 bytes of header and offsets table, then the
streams of block 0 (512 bytes of 7) and block 1 (512 bytes of 9). -/
def demo_bytes : List Nat := List.replicate 160 0 ++ [7, 2, 0, 9, 2, 0]

/-- A regular file with fixed contents: every read returns what is there. -/
def regular_file (data : List Nat) : file :=
  ⟨0, fun _ pos count => .data ((data.drop pos).take count)⟩

/-- A file whose first `vfs_read` fails with `EIO` and that answers normally afterwards. -/
def flaky_file (data : List Nat) : file :=
  ⟨0, fun n pos count => if n = 0 then .error 5 else .data ((data.drop pos).take count)⟩

/-- The device after attaching `demo_bytes`: block size 512, two blocks, empty cache. -/
def demo_device : cloop_device :=
  { head := { block_size := 512, num_blocks := 2 }
    offsets := some [160, 163, 166]
    buffered_blocknum := fun _ => -1
    current_bufnum := 0
    buffer := fun _ => some (List.replicate 512 0)
    compressed_buffer := some [0, 0, 0]
    preload_array_size := 0
    preload_size := 0
    preload_cache := none
    backing_file := some (regular_file demo_bytes) }

/-- The same device on a backing file whose first read fails. -/
def flaky_device : cloop_device :=
  { demo_device with backing_file := some (flaky_file demo_bytes) }

/-- The device `demo_device` when the eight bytes behind its three-entry offsets table
can be read and hold 166: the table is given a fourth entry. -/
def overread_device : cloop_device :=
  { demo_device with offsets := some [160, 163, 166, 166] }

/-- The result of `cloop_load_buffer` with the stand-in decoder, for building example states. -/
def demo_load (clo : cloop_device) (b : Int) : load_result :=
  match cloop_load_buffer demo_zlib 4 clo b with
  | .ok r => r
  | .error _ => ⟨-1, clo, []⟩

/-- The two-block container with the stream of block 1 damaged (it starts with a zero). -/
def corrupt_device : cloop_device :=
  { demo_device with
    backing_file := some (regular_file (List.replicate 160 0 ++ [7, 2, 0, 0, 2, 0])) }

/-- A nine-block container: block `k` is 512 bytes of `k + 1`. -/
def nine_device : cloop_device :=
  { demo_device with
    head := { block_size := 512, num_blocks := 9 }
    offsets := some [216, 219, 222, 225, 228, 231, 234, 237, 240, 243]
    backing_file := some (regular_file (List.replicate 216 0 ++
      [1, 2, 0, 2, 2, 0, 3, 2, 0, 4, 2, 0, 5, 2, 0, 6, 2, 0, 7, 2, 0, 8, 2, 0, 9, 2, 0])) }

/-- The calls of the round-robin example: blocks 0 to 7 are inserted, block 0 is looked up
again (a hit), then block 8 is inserted. -/
def nine_calls : List Int := [0, 1, 2, 3, 4, 5, 6, 7, 0, 8]

/-- The final state of the round-robin example. -/
def nine_final : cloop_device :=
  match cloop_load_buffers demo_zlib 4 nine_device nine_calls with
  | .ok p => p.1
  | .error _ => nine_device

/-- The per-call results of the round-robin example. -/
def nine_results : List (Int × load_result) :=
  match cloop_load_buffers demo_zlib 4 nine_device nine_calls with
  | .ok p => p.2
  | .error _ => []

/-- The state of `corrupt_device` after block 0 has been read and the damaged block 1
has been asked for seven times. -/
def corrupt_before : cloop_device :=
  match cloop_load_buffers demo_zlib 4 corrupt_device [0, 1, 1, 1, 1, 1, 1, 1] with
  | .ok p => p.1
  | .error _ => corrupt_device

/-- A three-block container attached with `preload=1`: block 0 (512 bytes of 7) sits in
the preload cache and, from the preloading, in slot 1 of the decode cache. -/
def preload_device : cloop_device :=
  { head := { block_size := 512, num_blocks := 3 }
    offsets := some [168, 171, 174, 177]
    buffered_blocknum := fun i => if i = 1 then 0 else -1
    current_bufnum := 1
    buffer := fun i => if i = 1 then some (List.replicate 512 7) else some (List.replicate 512 0)
    compressed_buffer := some [7, 2, 0]
    preload_array_size := 1
    preload_size := 1
    preload_cache := some [some (List.replicate 512 7)]
    backing_file :=
      some (regular_file (List.replicate 168 0 ++ [7, 2, 0, 9, 2, 0, 11, 2, 0])) }

/-- The same container with the stream of block 2 damaged. -/
def preload_corrupt_device : cloop_device :=
  { preload_device with
    backing_file :=
      some (regular_file (List.replicate 168 0 ++ [7, 2, 0, 9, 2, 0, 0, 2, 0])) }

/-- The decoded blocks of `demo_bytes`. -/
def demo_img (k : Nat) : List Nat :=
  if k = 0 then List.replicate 512 7 else List.replicate 512 9

/-- The states of `demo_device` in which blocks 0 and 1 have been read in either order. -/
def demo_states (c : cloop_device) : Prop :=
  c = demo_device
    ∨ c = (demo_load demo_device 0).clo
    ∨ c = (demo_load demo_device 1).clo
    ∨ c = (demo_load (demo_load demo_device 0).clo 1).clo
    ∨ c = (demo_load (demo_load demo_device 1).clo 0).clo

/-- The `width` bytes that encode `x` in network order. -/
def be_bytes : Nat → Nat → List Nat
  | 0, _ => []
  | width + 1, x => be_bytes width (x / 256) ++ [x % 256]

/-- A 128-byte preamble: the text `#!/bin/sh`, a line break, `#V2.0 Format`, a line
break, then zero bytes. Byte 0x0B is 'V' (86) and byte 0x0C is '2' (50). -/
def demo_preamble : List Nat :=
  [35, 33, 47, 98, 105, 110, 47, 115, 104, 10, 35, 86, 50, 46, 48, 32, 70, 111, 114, 109, 97,
    116, 10] ++ List.replicate 105 0

/-- The bytes of a container file: the preamble, the two header fields, the offsets
table, zero bytes up to `data_start`, then `data`. -/
def container_bytes (preamble : List Nat) (block_size num_blocks : Nat) (offsets : List Nat)
    (data_start : Nat) (data : List Nat) : List Nat :=
  let head := preamble ++ be_bytes 4 block_size ++ be_bytes 4 num_blocks
    ++ offsets.flatMap (be_bytes 8)
  head ++ List.replicate (data_start - head.length) 0 ++ data

/-- A device as `cloop_alloc` leaves it: all fields zero. -/
def blank_device : cloop_device :=
  { head := { block_size := 0, num_blocks := 0 }
    offsets := none
    buffered_blocknum := fun _ => 0
    current_bufnum := 0
    buffer := fun _ => none
    compressed_buffer := none
    preload_array_size := 0
    preload_size := 0
    preload_cache := none
    backing_file := none }

/-- An environment in which every allocation succeeds and returns memory full of the
byte 170, the thread is created, nothing is preloaded, the preamble has 128 bytes and
`char` is signed. -/
def demo_env : attach_env :=
  { z := demo_zlib
    fuel := 8
    preload := 0
    headroom := 128
    workspacesize := 1000
    malloc := fun _ _ => true
    garbage := fun _ _ => 170
    char := fun b => if b % 256 < 128 then ((b % 256 : Nat) : Int) else ((b % 256 : Nat) : Int) - 256
    kthread_create := 0 }

/-- A container of two blocks of 512 bytes in a file of 4096 bytes: the streams of block 0
(512 bytes of 7) and block 1 (512 bytes of 9) are the last six bytes. -/
def file_a : List Nat :=
  container_bytes demo_preamble 512 2 [4090, 4093, 4096] 4090 [7, 2, 0, 9, 2, 0]

/-- The file `file_a` with one more byte behind the last block: 4097 bytes, while the
last entry of the offsets table is 4096. -/
def file_long : List Nat := file_a ++ [0]

/-- The 512 bytes of a block device with blocks of 512 bytes that holds a container of two
blocks: header with the given `block_size`, the given offsets table, the streams of block 0
(512 bytes of 7) and block 1 (512 bytes of 9) at 160 and 163. -/
def bdev_bytes (block_size : Nat) (offsets : List Nat) : List Nat :=
  container_bytes demo_preamble block_size 2 offsets 160 [7, 2, 0, 9, 2, 0]
    ++ List.replicate 346 0

/-- The inode of a block device with blocks of 512 bytes. -/
def bdev_inode : inode := ⟨.block_device, 0, 512⟩

/-- The inode of a block device with blocks of 192 bytes. -/
def small_bdev_inode : inode := ⟨.block_device, 0, 192⟩

/-- The first 200 bytes of a container of nine blocks, whose header and offsets table
take 216 bytes: on a device with blocks of 192 bytes the second block cannot be read in
full. -/
def truncated_bytes : List Nat :=
  (container_bytes demo_preamble 512 9 [216, 219, 222, 225, 228, 231, 234, 237, 240, 243]
    216 []).take 200

/-- A request for the first sector. -/
def first_sector : request := ⟨0, [512]⟩

/-- The environment `demo_env` with the module parameter `preload` set to 2. -/
def preload_env : attach_env := { demo_env with preload := 2 }

/-- The environment `preload_env` when the allocation of the second preload buffer
fails. -/
def preload_short_env : attach_env :=
  { preload_env with malloc := fun n _ => decide (n ≠ 14) }

/-- The environment `preload_env` when the allocation of the preload pointer table
fails. -/
def preload_no_table_env : attach_env :=
  { preload_env with malloc := fun n _ => decide (n ≠ 12) }

/-- The environment `demo_env` when the allocation of `buffer[3]` fails. -/
def buffer_failure_env : attach_env :=
  { demo_env with malloc := fun n _ => decide (n ≠ 5) }

/-- The block device of `bdev_bytes 512 [160, 163, 166]` with a damaged stream for
block 1. -/
def bdev_corrupt_bytes : List Nat :=
  container_bytes demo_preamble 512 2 [160, 163, 166] 160 [7, 2, 0, 0, 2, 0]
    ++ List.replicate 346 0

/-- A preamble of the old format generation 1.0: as `demo_preamble`, with '1' at
byte 0x0C. -/
def old_preamble : List Nat :=
  [35, 33, 47, 98, 105, 110, 47, 115, 104, 10, 35, 86, 49, 46, 48, 32, 70, 111, 114, 109, 97,
    116, 10] ++ List.replicate 105 0

/-- A block device as `bdev_bytes 512 [160, 163, 166]` whose header has the old
preamble. -/
def bdev_old_bytes : List Nat :=
  container_bytes old_preamble 512 2 [160, 163, 166] 160 [7, 2, 0, 9, 2, 0]
    ++ List.replicate 346 0

/-- A read request for the first block. -/
def read_a : fetched_request := ⟨true, 0, ⟨0, [512]⟩⟩

/-- A read request for the second block. -/
def read_b : fetched_request := ⟨true, 0, ⟨1, [512]⟩⟩

/-- A write request. -/
def write_c : fetched_request := ⟨true, 1, ⟨0, [512]⟩⟩

/-- A run of the engine: three requests are submitted, one of them a write; the worker
takes the first; a fourth request is submitted; the worker services what it holds and
takes the next. -/
def demo_actions : List engine_action :=
  [.submit [read_a, write_c, read_b], .dequeue, .submit [read_b], .service, .dequeue]

/-- The device `demo_device` after block 0 has been loaded and the device has been
suspended. -/
def suspended_device : cloop_device := (clo_suspend_fd (demo_load demo_device 0).clo).2

/-- A file with the header and table of `demo_bytes` that ends one byte short of the
stream of block 1. -/
def short_bytes : List Nat := List.replicate 160 0 ++ [7, 2, 0, 9, 2]

/-- The device `demo_device` on the file `short_bytes`. -/
def short_device : cloop_device :=
  { demo_device with backing_file := some (regular_file short_bytes) }

/-- A container whose only block has a stream that ends cleanly after 511 bytes. -/
def short_stream_device : cloop_device :=
  { demo_device with
    head := { block_size := 512, num_blocks := 1 }
    offsets := some [160, 163]
    buffer := fun _ => some (List.replicate 512 170)
    backing_file := some (regular_file (List.replicate 160 0 ++ [7, 1, 255])) }

/-- A file whose reads deliver one byte and fail with `EPERM` in turn. -/
def alternating_file : file :=
  ⟨0, fun n _ _ => if n % 2 = 0 then .data [1] else .error 1⟩

/-- A container of nine blocks on a device with blocks of 192 bytes: the header and the
offsets table take 216 bytes, zero bytes fill the rest of the second block. -/
def nine_index_bytes : List Nat :=
  container_bytes demo_preamble 512 9 [216, 219, 222, 225, 228, 231, 234, 237, 240, 243]
    216 [] ++ List.replicate 168 0

/-- A blank device on a backing store with blocks of 192 bytes. -/
def index_device : cloop_device := { blank_device with underlying_blksize := 192 }

/-- A regular file of 4096 bytes whose header announces 2^29 blocks of 512 bytes. -/
def wrap_bytes : List Nat := container_bytes demo_preamble 512 (2 ^ 29) [] 4096 []

/-- A preamble whose byte at 0x0C is 0xB2: as `demo_preamble`, with 178 for '2'. -/
def high_preamble : List Nat :=
  [35, 33, 47, 98, 105, 110, 47, 115, 104, 10, 35, 86, 178, 46, 48, 32, 70, 111, 114, 109, 97,
    116, 10] ++ List.replicate 105 0

/-- A block device as `bdev_bytes 512 [160, 163, 166]` whose header has the byte 0xB2 at
0x0C. -/
def bdev_high_bytes : List Nat :=
  container_bytes high_preamble 512 2 [160, 163, 166] 160 [7, 2, 0, 9, 2, 0]
    ++ List.replicate 346 0

/-- The environment `demo_env` with an allocator that returns `NULL` for size 0, as
`cloop_malloc` does: `get_order(0)` is not below `MAX_O(read_result_of (regular_file (bdev_bytes 0 [160, 163, 166])) (fresh_memory strict_env 0 512)
      (cloop_read_from_file strict_env.fuel (regular_file (bdev_bytes 0 [160, 163, 166]))
        (fresh_memory strict_env 0 512) 0 512))ER`, and `vmalloc(0)` returns
`NULL`. -/
def strict_env : attach_env := { demo_env with malloc := fun _ size => decide (size ≠ 0) }

/-- A container of nine blocks of 512 bytes on a block device with blocks of 512 bytes:
the stream of block 0 ends after 511 bytes of 1, block `k` above 0 is 512 bytes of
`k + 1`. -/
def nine_short_bytes : List Nat :=
  container_bytes demo_preamble 512 9 [216, 219, 222, 225, 228, 231, 234, 237, 240, 243] 216
    [1, 1, 255, 2, 2, 0, 3, 2, 0, 4, 2, 0, 5, 2, 0, 6, 2, 0, 7, 2, 0, 8, 2, 0, 9, 2, 0]
    ++ List.replicate 269 0

/-- The environment `demo_env` with the module parameter `preload` set to 2 and loops
followed for up to 12 iterations. -/
def nine_env : attach_env := { demo_env with preload := 2, fuel := 12 }

set_option maxRecDepth 100000

/-! ### The decode cache: `cloop_load_buffer` -/

theorem slot_index_ok {i : Int} {s : Fin BUFFERED_BLOCKS} (h : slot_index i = .ok s) :
    (s.val : Int) = i ∧ 0 ≤ i ∧ i < 8 := by
  unfold slot_index at h
  split at h
  · rename_i hi
    injection h with h
    subst h
    refine ⟨?_, hi.1, hi.2⟩
    simp only
    omega
  · cases h

theorem slot_index_val (s : Fin BUFFERED_BLOCKS) : slot_index (s.val : Int) = .ok s := by
  unfold slot_index
  have h1 : (0 : Int) ≤ (s.val : Int) := by omega
  have h2 : ((s.val : Nat) : Int) < 8 := by have : s.val < 8 := s.isLt; omega
  rw [dif_pos ⟨h1, h2⟩]
  congr

theorem cloop_load_buffer_cases {z : zlib} {fuel : Nat} {clo : cloop_device} {b : Int}
    {r : load_result} (h : cloop_load_buffer z fuel clo b = .ok r) :
    ((b % 2 ^ 32 > (ntohl clo.head.num_blocks : Int) ∨ b < 0) ∧ r = ⟨-1, clo, []⟩)
    ∨ (¬ (b % 2 ^ 32 > (ntohl clo.head.num_blocks : Int) ∨ b < 0) ∧
        ∃ i, find_buffered clo.buffered_blocknum b = some i ∧ r = ⟨(i.val : Int), clo, []⟩)
    ∨ (¬ (b % 2 ^ 32 > (ntohl clo.head.num_blocks : Int) ∨ b < 0) ∧
        find_buffered clo.buffered_blocknum b = none ∧
        ∃ (slot : Fin BUFFERED_BLOCKS) (dest1 : List Nat) (ret : Int) (f1 : file)
          (cbuf1 : List Nat) (pos len : Nat),
          slot_index (next_bufnum clo.current_bufnum) = .ok slot ∧
          r.ret = (if ret ≠ 0 then -1 else next_bufnum clo.current_bufnum) ∧
          r.clo = { clo with
                    backing_file := some f1
                    compressed_buffer := some cbuf1
                    current_bufnum := next_bufnum clo.current_bufnum
                    buffer := Function.update clo.buffer slot (some dest1)
                    buffered_blocknum :=
                      Function.update clo.buffered_blocknum slot (if ret ≠ 0 then -1 else b) } ∧
          r.trace = [.offsets_index (b + 1), .offsets_index b, .read_from_file pos len,
                     .uncompress slot.val len ret]) := by
  unfold cloop_load_buffer at h
  split at h
  · left
    rename_i hg
    injection h with h
    exact ⟨hg, h.symm⟩
  · rename_i hg
    right
    split at h
    · left
      rename_i i hi
      injection h with h
      exact ⟨hg, i, hi, h.symm⟩
    · right
      rename_i hnone
      refine ⟨hg, hnone, ?_⟩
      repeat (split at h; · cases h)
      dsimp only at h
      repeat (split at h; · cases h)
      split at h
      · injection h with h
        subst h
        rename_i rd hrd _ slot hslot _ dest hdest _ ret dest1 snd hun hret
        exact ⟨slot, dest1, ret, rd.f, rd.buf, _, _, hslot, by simp [hret], by simp [hret], rfl⟩
      · injection h with h
        subst h
        rename_i rd hrd _ slot hslot _ dest hdest _ ret dest1 snd hun hret
        exact ⟨slot, dest1, ret, rd.f, rd.buf, _, _, hslot, by simp [hret], by simp [hret], rfl⟩

theorem find_buffered_some {tags : Fin BUFFERED_BLOCKS → Int} {b : Int}
    {i : Fin BUFFERED_BLOCKS} (h : find_buffered tags b = some i) : tags i = b := by
  unfold find_buffered at h
  have := List.find?_some h
  simp only [decide_eq_true_eq] at this
  exact this.symm

theorem find_buffered_none {tags : Fin BUFFERED_BLOCKS → Int} {b : Int} :
    find_buffered tags b = none ↔ ∀ i, tags i ≠ b := by
  unfold find_buffered
  rw [List.find?_eq_none]
  constructor
  · intro h i hi
    have := h i (List.mem_finRange i)
    simp [hi] at this
  · intro h i _
    simpa using fun hb => h i hb.symm

theorem find_buffered_update {tags : Fin BUFFERED_BLOCKS → Int} {b : Int}
    (h : find_buffered tags b = none) (s : Fin BUFFERED_BLOCKS) :
    find_buffered (Function.update tags s b) b = some s := by
  rw [find_buffered_none] at h
  cases hf : find_buffered (Function.update tags s b) b with
  | none =>
    rw [find_buffered_none] at hf
    exact absurd (by simp) (hf s)
  | some j =>
    have hj := find_buffered_some hf
    by_cases hjs : j = s
    · rw [hjs]
    · rw [Function.update_noteq hjs] at hj
      exact absurd hj (h j)

theorem find_buffered_deterministic {tags : Fin BUFFERED_BLOCKS → Int} {b : Int}
    {i : Fin BUFFERED_BLOCKS} (h : find_buffered tags b = some i) :
    ∃ j, find_buffered tags b = some j := ⟨i, h⟩

theorem cloop_load_buffer_of_find {z : zlib} {fuel : Nat} {clo : cloop_device} {b : Int}
    {i : Fin BUFFERED_BLOCKS}
    (hg : ¬ (b % 2 ^ 32 > (ntohl clo.head.num_blocks : Int) ∨ b < 0))
    (hf : find_buffered clo.buffered_blocknum b = some i) :
    cloop_load_buffer z fuel clo b = .ok ⟨(i.val : Int), clo, []⟩ := by
  unfold cloop_load_buffer
  rw [if_neg hg, hf]

theorem decoder_calls_miss (a b : Int) (p l s : Nat) (ret : Int) :
    decoder_calls [.offsets_index a, .offsets_index b, .read_from_file p l,
      .uncompress s l ret] = 1 := by
  simp [decoder_calls]

theorem cloop_load_buffer_no_decode {z : zlib} {fuel : Nat} {clo : cloop_device} {b : Int}
    {r : load_result} (h : cloop_load_buffer z fuel clo b = .ok r)
    (hd : decoder_calls r.trace = 0) : r.clo = clo ∧ r.trace = [] := by
  rcases cloop_load_buffer_cases h with ⟨_, rfl⟩ | ⟨_, i, _, rfl⟩ | ⟨_, _, s, d, ret, f1, c1, p, l, _, _, _, ht⟩
  · exact ⟨rfl, rfl⟩
  · exact ⟨rfl, rfl⟩
  · rw [ht, decoder_calls_miss] at hd
    cases hd

theorem cloop_load_buffers_no_decode {z : zlib} {fuel : Nat} :
    ∀ (calls : List Int) (clo clo2 : cloop_device) (rs : List (Int × load_result)),
      cloop_load_buffers z fuel clo calls = .ok (clo2, rs) →
      (∀ p ∈ rs, decoder_calls p.2.trace = 0) → clo2 = clo := by
  intro calls
  induction calls with
  | nil =>
    intro clo clo2 rs h _
    simp only [cloop_load_buffers] at h
    injection h with h
    injection h with h1 h2
    exact h1.symm
  | cons b rest ih =>
    intro clo clo2 rs h hno
    simp only [cloop_load_buffers] at h
    split at h
    · cases h
    · rename_i r hr
      split at h
      · cases h
      · rename_i clo3 rs3 hrest
        injection h with h
        injection h with h1 h2
        subst h1 h2
        have h0 := (cloop_load_buffer_no_decode hr (hno (b, r) (by simp))).1
        have := ih r.clo clo3 rs3 hrest (fun p hp => hno p (by simp [hp]))
        rw [this, h0]

theorem cloop_load_buffer_repeat {z : zlib} {fuel : Nat} (fuel2 : Nat) {clo : cloop_device}
    {b : Int} {r : load_result} (h : cloop_load_buffer z fuel clo b = .ok r) (hs : r.ret ≠ -1) :
    cloop_load_buffer z fuel2 r.clo b = .ok ⟨r.ret, r.clo, []⟩ := by
  rcases cloop_load_buffer_cases h with ⟨_, rfl⟩ | ⟨hg, i, hi, rfl⟩ |
    ⟨hg, hnone, s, d, ret, f1, c1, p, l, hslot, hret, hclo, _⟩
  · exact absurd rfl hs
  · exact cloop_load_buffer_of_find hg hi
  · have hret0 : ret = 0 := by
      by_contra hne
      rw [if_pos hne] at hret
      exact hs hret
    subst hret0
    simp only [ne_eq, not_true_eq_false, if_false] at hret hclo
    have hsv := (slot_index_ok hslot).1
    have hg2 : ¬ (b % 2 ^ 32 > (ntohl r.clo.head.num_blocks : Int) ∨ b < 0) := by
      rw [hclo]; exact hg
    have hf2 : find_buffered r.clo.buffered_blocknum b = some s := by
      rw [hclo]; exact find_buffered_update hnone s
    rw [cloop_load_buffer_of_find hg2 hf2, hret, hsv]

/-- C6. Once `cloop_load_buffer(b)` has succeeded with slot `r.ret`, a following call
for `b`, separated from it only by calls that did not run the decoder, returns the same
slot, leaves the whole device (tags, cursor, buffers, file) as the first call left it, and
performs no operation: no table access, no file read, no decoder run. -/
theorem cloop_load_buffer_hit_short_circuit (z : zlib) (fuel fuel2 : Nat)
    (clo clo2 : cloop_device) (b : Int) (r : load_result) (mid : List Int)
    (rs : List (Int × load_result))
    (h : cloop_load_buffer z fuel clo b = .ok r) (hs : r.ret ≠ -1)
    (hmid : cloop_load_buffers z fuel r.clo mid = .ok (clo2, rs))
    (hno : ∀ p ∈ rs, decoder_calls p.2.trace = 0) :
    cloop_load_buffer z fuel2 clo2 b = .ok ⟨r.ret, clo2, []⟩ ∧ clo2 = r.clo := by
  have h2 : clo2 = r.clo := cloop_load_buffers_no_decode mid r.clo clo2 rs hmid hno
  refine ⟨?_, h2⟩
  rw [h2]
  exact cloop_load_buffer_repeat fuel2 h hs

theorem mem_miss_trace {a b : Int} {p l s : Nat} {ret : Int} {slot len : Nat} {e : Int}
    (h : Event.uncompress slot len e ∈
      [Event.offsets_index a, .offsets_index b, .read_from_file p l, .uncompress s l ret]) :
    slot = s ∧ len = l ∧ e = ret := by
  simp at h
  exact h

/-- C9. When a call of `cloop_load_buffer` for block `b` runs the decoder (a cache miss),
the slot used is the one selected by the advanced cursor; if the decoder fails the call
returns -1, that slot is tagged -1, `b` is not resident afterwards and the next call for
`b` runs the decoder again; if the decoder succeeds the slot is tagged `b` and its index
is returned. -/
theorem cloop_load_buffer_decode_outcome (z : zlib) (fuel : Nat) (clo : cloop_device)
    (b : Int) (r : load_result) (slot len : Nat) (ret : Int)
    (h : cloop_load_buffer z fuel clo b = .ok r)
    (he : Event.uncompress slot len ret ∈ r.trace) :
    (slot : Int) = next_bufnum clo.current_bufnum
    ∧ r.clo.current_bufnum = next_bufnum clo.current_bufnum
    ∧ ∃ s : Fin BUFFERED_BLOCKS, s.val = slot
      ∧ (ret ≠ 0 → r.ret = -1 ∧ r.clo.buffered_blocknum s = -1 ∧ ¬ resident r.clo b
          ∧ ∀ (fuel2 : Nat) (r2 : load_result),
              cloop_load_buffer z fuel2 r.clo b = .ok r2 → decoder_calls r2.trace = 1)
      ∧ (ret = 0 → r.ret = slot ∧ r.clo.buffered_blocknum s = b) := by
  rcases cloop_load_buffer_cases h with ⟨_, rfl⟩ | ⟨_, i, _, rfl⟩ |
    ⟨hg, hnone, s, d, ret1, f1, c1, p, l, hslot, hret, hclo, ht⟩
  · simp at he
  · simp at he
  · rw [ht] at he
    obtain ⟨hs, _, hr⟩ := mem_miss_trace he
    subst hs hr
    have hsv := (slot_index_ok hslot).1
    refine ⟨hsv, by rw [hclo], s, rfl, ?_, ?_⟩
    · intro hne
      rw [if_pos hne] at hret hclo
      have hnr : ¬ resident r.clo b := by
        rintro ⟨i, hi⟩
        rw [hclo] at hi
        simp only at hi
        by_cases his : i = s
        · subst his
          rw [Function.update_same] at hi
          apply hg
          right
          omega
        · rw [Function.update_noteq his] at hi
          exact (find_buffered_none.mp hnone) i hi
      refine ⟨hret, by rw [hclo]; simp, hnr, ?_⟩
      intro fuel2 r2 h2
      rcases cloop_load_buffer_cases h2 with ⟨hg2, _⟩ | ⟨_, i, hi, _⟩ |
        ⟨_, _, s2, d2, ret2, f2, c2, p2, l2, _, _, _, ht2⟩
      · rw [hclo] at hg2
        exact absurd hg2 hg
      · exact absurd ⟨i, find_buffered_some hi⟩ hnr
      · rw [ht2, decoder_calls_miss]
    · intro h0
      subst h0
      simp only [ne_eq, not_true_eq_false, if_false] at hret hclo
      exact ⟨by rw [hret, hsv], by rw [hclo]; simp⟩

/-- C10 (amended). A failing `cloop_load_buffer(b)` leaves every slot other than the one
selected by the advanced cursor as it was: a block `c` held by such a slot is still
tagged there, with the same bytes. A failure that did not reach the decoder leaves the
whole device unchanged; one that did tags the selected slot -1. -/
theorem cloop_load_buffer_failure_frame (z : zlib) (fuel : Nat) (clo : cloop_device)
    (b : Int) (r : load_result)
    (h : cloop_load_buffer z fuel clo b = .ok r) (hfail : r.ret = -1) :
    (∀ (c : Int) (i : Fin BUFFERED_BLOCKS), clo.buffered_blocknum i = c →
        (i.val : Int) ≠ next_bufnum clo.current_bufnum →
        r.clo.buffered_blocknum i = c ∧ r.clo.buffer i = clo.buffer i)
    ∧ (decoder_calls r.trace = 0 → r.clo = clo)
    ∧ (decoder_calls r.trace ≠ 0 → ∀ i : Fin BUFFERED_BLOCKS,
        (i.val : Int) = next_bufnum clo.current_bufnum → r.clo.buffered_blocknum i = -1) := by
  rcases cloop_load_buffer_cases h with ⟨_, rfl⟩ | ⟨_, i, _, rfl⟩ |
    ⟨hg, hnone, s, d, ret1, f1, c1, p, l, hslot, hret, hclo, ht⟩
  · exact ⟨fun c i hc _ => ⟨hc, rfl⟩, fun _ => rfl, fun hd => absurd (by simp [decoder_calls]) hd⟩
  · exact ⟨fun c i hc _ => ⟨hc, rfl⟩, fun _ => rfl, fun hd => absurd (by simp [decoder_calls]) hd⟩
  · have hsv := (slot_index_ok hslot).1
    refine ⟨?_, ?_, ?_⟩
    · intro c i hc hi
      have his : i ≠ s := by
        rintro rfl
        exact hi hsv
      rw [hclo]
      simp only
      rw [Function.update_noteq his, Function.update_noteq his]
      exact ⟨hc, rfl⟩
    · intro hd
      rw [ht, decoder_calls_miss] at hd
      cases hd
    · intro _ i hi
      have his : i = s := by
        apply Fin.ext
        have : ((i.val : Nat) : Int) = (s.val : Int) := by rw [hi, hsv]
        omega
      subst his
      have hne : ret1 ≠ 0 := by
        intro h0
        rw [h0] at hret
        simp only [ne_eq, not_true_eq_false, if_false] at hret
        rw [hret] at hfail
        have := (slot_index_ok hslot).2.1
        omega
      rw [hclo, if_pos hne]
      simp

/-- C7. In every state reachable from a completed attach by calls of
`cloop_load_buffer`, whatever their outcome, two slots that carry the same block number
other than the empty tag -1 are the same slot. -/
theorem reachable_tags_unique (z : zlib) (clo : cloop_device) (h : reachable z clo) :
    ∀ i j : Fin BUFFERED_BLOCKS, clo.buffered_blocknum i = clo.buffered_blocknum j →
      clo.buffered_blocknum i ≠ -1 → i = j := by
  induction h with
  | attach clo htags hcur =>
    intro i j _ hi
    exact absurd (htags i) hi
  | call clo fuel b r hclo hcall ih =>
    rcases cloop_load_buffer_cases hcall with ⟨_, rfl⟩ | ⟨_, i, _, rfl⟩ |
      ⟨hg, hnone, s, d, ret1, f1, c1, p, l, hslot, hret, hr, ht⟩
    · exact ih
    · exact ih
    · intro i j hij hi
      rw [hr] at hij hi
      simp only at hij hi
      have hfree := find_buffered_none.mp hnone
      by_cases hret0 : ret1 ≠ 0
      · rw [if_pos hret0] at hij hi
        by_cases his : i = s
        · subst his
          rw [Function.update_same] at hi
          exact absurd rfl hi
        · by_cases hjs : j = s
          · subst hjs
            rw [Function.update_same] at hij
            exact absurd hij hi
          · rw [Function.update_noteq his] at hij hi
            rw [Function.update_noteq hjs] at hij
            exact ih i j hij hi
      · rw [if_neg hret0] at hij hi
        by_cases his : i = s
        · by_cases hjs : j = s
          · rw [his, hjs]
          · subst his
            rw [Function.update_same, Function.update_noteq hjs] at hij
            exact absurd hij.symm (hfree j)
        · by_cases hjs : j = s
          · subst hjs
            rw [Function.update_same, Function.update_noteq his] at hij
            exact absurd hij (hfree i)
          · rw [Function.update_noteq his] at hij hi
            rw [Function.update_noteq hjs] at hij
            exact ih i j hij hi

/-- What a miss of `cloop_load_buffer` that returns a slot leaves in the slot: the bytes
the decoder produced for the stream of the block, followed by the bytes the buffer held
before from that position on. -/
theorem cloop_load_buffer_miss_shape {z : zlib} {fuel : Nat} {clo : cloop_device} {b : Int}
    {r : load_result} (h : cloop_load_buffer z fuel clo b = .ok r)
    (hmiss : find_buffered clo.buffered_blocknum b = none) (hret : r.ret ≠ -1) :
    ∃ (slot : Fin BUFFERED_BLOCKS) (old produced offsets cbuf : List Nat) (o1 o0 : Nat)
      (f : file) (rd : read_result) (err : Int),
      slot_index (next_bufnum clo.current_bufnum) = .ok slot ∧ r.ret = (slot.val : Int)
      ∧ clo.buffer slot = some old
      ∧ clo.offsets = some offsets ∧ index offsets (b + 1) = .ok o1 ∧ index offsets b = .ok o0
      ∧ clo.backing_file = some f ∧ clo.compressed_buffer = some cbuf
      ∧ cloop_read_from_file fuel f cbuf (be64_to_cpu o0)
          (((be64_to_cpu o1 : Int) - be64_to_cpu o0) % 2 ^ 32).toNat = .ok rd
      ∧ z.inflate (rd.buf.take (((be64_to_cpu o1 : Int) - be64_to_cpu o0) % 2 ^ 32).toNat)
          (ntohl clo.head.block_size) = (err, produced)
      ∧ (err = Z_STREAM_END ∨ err = Z_OK)
      ∧ r.clo.buffered_blocknum slot = b
      ∧ r.clo.buffer slot
          = some (produced.take (ntohl clo.head.block_size)
              ++ old.drop (produced.take (ntohl clo.head.block_size)).length)
      ∧ (produced.take (ntohl clo.head.block_size)).length ≤ ntohl clo.head.block_size := by
  have some_of_deref : ∀ {α : Type} {p : Option α} {a : α}, deref p = .ok a → p = some a := by
    intro α p a hp
    unfold deref at hp
    split at hp
    · injection hp with hp
      subst hp
      rfl
    · cases hp
  unfold cloop_load_buffer at h
  split at h
  · injection h with h
    subst h
    exact absurd rfl hret
  · rw [hmiss] at h
    dsimp only at h
    repeat (split at h; · cases h)
    rename_i offsets hoff _ o1 ho1 _ o0 ho0 _ f hf _ cbuf hcbuf _ rd hrd _ slot hslot _ dest
      hdest _ ret dest1 snd hun
    unfold uncompress at hun
    split at hun
    rename_i err produced hinf
    dsimp only at hun
    split at hun
    · cases hun
    · injection hun with hun
      injection hun with hu1 hu2
      injection hu2 with hu2 hu3
      split at h
      · injection h with h
        subst h
        exact absurd rfl hret
      · rename_i hz
        injection h with h
        subst h
        have hz0 : ret = 0 := by
          by_contra hne
          exact hz hne
        refine ⟨slot, dest, produced, offsets, cbuf, o1, o0, f, rd, err, hslot,
          (slot_index_ok hslot).1.symm,
          some_of_deref hdest, some_of_deref hoff, ho1, ho0, some_of_deref hf,
          some_of_deref hcbuf, hrd, hinf, ?_, ?_, ?_, List.length_take_le _ _⟩
        · rw [hz0] at hu1
          by_cases he : err = Z_STREAM_END
          · exact Or.inl he
          · right
            rw [if_pos he] at hu1
            rw [hu1]
            rfl
        · simp
        · simp only [Function.update_same]
          rw [← hu2]

theorem next_bufnum_range {cur : Int} (h : -1 ≤ cur) :
    next_bufnum cur = 0 ∨ next_bufnum cur = 1 ∨ next_bufnum cur = 2 ∨ next_bufnum cur = 3 ∨
    next_bufnum cur = 4 ∨ next_bufnum cur = 5 ∨ next_bufnum cur = 6 ∨ next_bufnum cur = 7 := by
  unfold next_bufnum
  split <;> omega

theorem ring_insert_eight (tags : Fin BUFFERED_BLOCKS → Int) (cur : Int) (hcur : -1 ≤ cur)
    (b2 b3 b4 b5 b6 b7 b8 b9 : Int) :
    (∀ i, ([b2, b3, b4, b5, b6, b7, b8, b9].foldl ring_insert (tags, cur)).1 i
        ∈ [b2, b3, b4, b5, b6, b7, b8, b9])
    ∧ (∀ b ∈ [b2, b3, b4, b5, b6, b7, b8, b9],
        ∃ i, ([b2, b3, b4, b5, b6, b7, b8, b9].foldl ring_insert (tags, cur)).1 i = b) := by
  simp only [List.foldl, ring_insert]
  rcases next_bufnum_range hcur with h | h | h | h | h | h | h | h <;>
  · simp only [h]
    constructor
    · intro i
      fin_cases i <;> simp [next_bufnum]
    · intro b hb
      simp only [List.mem_cons, List.mem_singleton, List.not_mem_nil, or_false] at hb
      rcases hb with rfl | rfl | rfl | rfl | rfl | rfl | rfl | rfl <;>
      first
      | (refine ⟨⟨0, by decide⟩, ?_⟩; simp [next_bufnum]; done)
      | (refine ⟨⟨1, by decide⟩, ?_⟩; simp [next_bufnum]; done)
      | (refine ⟨⟨2, by decide⟩, ?_⟩; simp [next_bufnum]; done)
      | (refine ⟨⟨3, by decide⟩, ?_⟩; simp [next_bufnum]; done)
      | (refine ⟨⟨4, by decide⟩, ?_⟩; simp [next_bufnum]; done)
      | (refine ⟨⟨5, by decide⟩, ?_⟩; simp [next_bufnum]; done)
      | (refine ⟨⟨6, by decide⟩, ?_⟩; simp [next_bufnum]; done)
      | (refine ⟨⟨7, by decide⟩, ?_⟩; simp [next_bufnum])

theorem cloop_load_buffer_insert {z : zlib} {fuel : Nat} {clo : cloop_device} {b : Int}
    {r : load_result} (h : cloop_load_buffer z fuel clo b = .ok r)
    (hd : decoder_calls r.trace ≠ 0) (hs : r.ret ≠ -1) :
    (r.clo.buffered_blocknum, r.clo.current_bufnum)
        = ring_insert (clo.buffered_blocknum, clo.current_bufnum) b
      ∧ -1 ≤ clo.current_bufnum := by
  rcases cloop_load_buffer_cases h with ⟨_, rfl⟩ | ⟨_, i, _, rfl⟩ |
    ⟨hg, hnone, s, d, ret1, f1, c1, p, l, hslot, hret, hclo, ht⟩
  · exact absurd (by simp [decoder_calls]) hd
  · exact absurd (by simp [decoder_calls]) hd
  · have hret0 : ret1 = 0 := by
      by_contra hne
      rw [if_pos hne] at hret
      exact hs hret
    subst hret0
    simp only [ne_eq, not_true_eq_false, if_false] at hclo
    obtain ⟨hsv, h0, h8⟩ := slot_index_ok hslot
    constructor
    · rw [hclo]
      simp only [ring_insert, Prod.mk.injEq, and_true]
      funext i
      by_cases his : i = s
      · subst his
        simp [hsv]
      · rw [Function.update_noteq his, if_neg]
        intro hi
        apply his
        apply Fin.ext
        have : ((i.val : Nat) : Int) = (s.val : Int) := by rw [hi, hsv]
        omega
    · unfold next_bufnum at h0 h8
      split at h0 <;> omega

theorem inserted_cons (p : Int × load_result) (rs : List (Int × load_result)) :
    inserted (p :: rs)
      = if decoder_calls p.2.trace ≠ 0 then p.1 :: inserted rs else inserted rs := by
  unfold inserted
  by_cases h : decoder_calls p.2.trace ≠ 0
  · simp [List.filter_cons, h]
  · simp [List.filter_cons, h]

theorem cloop_load_buffers_inserts {z : zlib} {fuel : Nat} :
    ∀ (calls : List Int) (clo clo2 : cloop_device) (rs : List (Int × load_result)),
      cloop_load_buffers z fuel clo calls = .ok (clo2, rs) →
      (∀ p ∈ rs, decoder_calls p.2.trace ≠ 0 → p.2.ret ≠ -1) →
      (clo2.buffered_blocknum, clo2.current_bufnum)
          = (inserted rs).foldl ring_insert (clo.buffered_blocknum, clo.current_bufnum)
        ∧ (inserted rs ≠ [] → -1 ≤ clo.current_bufnum) := by
  intro calls
  induction calls with
  | nil =>
    intro clo clo2 rs h _
    simp only [cloop_load_buffers] at h
    injection h with h
    injection h with h1 h2
    subst h1 h2
    simp [inserted]
  | cons b rest ih =>
    intro clo clo2 rs h hok
    simp only [cloop_load_buffers] at h
    split at h
    · cases h
    · rename_i r hr
      split at h
      · cases h
      · rename_i clo3 rs3 hrest
        injection h with h
        injection h with h1 h2
        subst h1 h2
        obtain ⟨ih1, ih2⟩ := ih r.clo clo3 rs3 hrest (fun p hp => hok p (by simp [hp]))
        rw [inserted_cons]
        by_cases hd : decoder_calls r.trace ≠ 0
        · obtain ⟨hi1, hi2⟩ := cloop_load_buffer_insert hr hd (hok (b, r) (by simp) hd)
          simp only [hd, ne_eq, not_false_eq_true, if_true, List.foldl_cons]
          rw [← hi1]
          exact ⟨ih1, fun _ => hi2⟩
        · have hd0 : decoder_calls r.trace = 0 := by
            by_contra hne
            exact hd hne
          have hclo := (cloop_load_buffer_no_decode hr hd0).1
          simp only [hd, if_false]
          rw [hclo] at ih1 ih2
          exact ⟨ih1, ih2⟩

/-- C5. Round-robin eviction. Take any sequence of `cloop_load_buffer` calls, from any
device state, in which the calls that run the decoder all succeed and are nine calls for
pairwise distinct blocks `b1, ..., b9` (the other calls are cache hits or are turned
away, in any number and at any place). At the end `b1` is not resident and each of
`b2, ..., b9` is. -/
theorem cloop_load_buffer_round_robin (z : zlib) (fuel : Nat) (clo clo2 : cloop_device)
    (calls : List Int) (rs : List (Int × load_result)) (b1 : Int) (later : List Int)
    (hrun : cloop_load_buffers z fuel clo calls = .ok (clo2, rs))
    (hok : ∀ p ∈ rs, decoder_calls p.2.trace ≠ 0 → p.2.ret ≠ -1)
    (hins : inserted rs = b1 :: later) (hlen : later.length = 8)
    (hdistinct : (b1 :: later).Nodup) :
    ¬ resident clo2 b1 ∧ ∀ b ∈ later, resident clo2 b := by
  obtain ⟨hfold, hcur⟩ := cloop_load_buffers_inserts calls clo clo2 rs hrun hok
  rw [hins] at hfold hcur
  have hcur0 := hcur (by simp)
  match later, hlen with
  | [b2, b3, b4, b5, b6, b7, b8, b9], _ =>
    rw [List.foldl_cons] at hfold
    have hnext : -1 ≤ (ring_insert (clo.buffered_blocknum, clo.current_bufnum) b1).2 := by
      simp only [ring_insert]
      rcases next_bufnum_range hcur0 with h | h | h | h | h | h | h | h <;> rw [h] <;> decide
    obtain ⟨hall, hex⟩ := ring_insert_eight
      (ring_insert (clo.buffered_blocknum, clo.current_bufnum) b1).1
      (ring_insert (clo.buffered_blocknum, clo.current_bufnum) b1).2 hnext
      b2 b3 b4 b5 b6 b7 b8 b9
    have htags : clo2.buffered_blocknum
        = ([b2, b3, b4, b5, b6, b7, b8, b9].foldl ring_insert
            (ring_insert (clo.buffered_blocknum, clo.current_bufnum) b1)).1 := by
      rw [← hfold]
    constructor
    · rintro ⟨i, hi⟩
      have := hall i
      rw [← htags, hi] at this
      exact (List.nodup_cons.mp hdistinct).1 this
    · intro b hb
      obtain ⟨i, hi⟩ := hex b hb
      exact ⟨i, by rw [htags]; exact hi⟩

theorem memcpy_steps_append (t1 t2 : List Event) :
    memcpy_steps (t1 ++ t2) = memcpy_steps t1 ++ memcpy_steps t2 := by
  simp [memcpy_steps, List.filterMap_append]

theorem cloop_load_buffer_memcpy_steps {z : zlib} {fuel : Nat} {clo : cloop_device} {b : Int}
    {r : load_result} (h : cloop_load_buffer z fuel clo b = .ok r) :
    memcpy_steps r.trace = [] := by
  rcases cloop_load_buffer_cases h with ⟨_, rfl⟩ | ⟨_, i, _, rfl⟩ |
    ⟨_, _, s, d, ret1, f1, c1, p, l, _, _, _, ht⟩
  · rfl
  · rfl
  · rw [ht]
    rfl

theorem cloop_resolve_block_memcpy_steps {z : zlib} {rfuel : Nat} {st st1 : copy_state}
    {k : Nat} {x : Option (List Nat)}
    (h : cloop_resolve_block z rfuel st k = .ok (st1, x)) :
    memcpy_steps st1.trace = memcpy_steps st.trace := by
  unfold cloop_resolve_block at h
  split at h
  · cases h
  · injection h with h
    injection h with h1 h2
    subst h1 h2
    rfl
  · split at h
    · cases h
    · rename_i r hr
      have hm := cloop_load_buffer_memcpy_steps hr
      dsimp only at h
      split at h
      · injection h with h
        injection h with h1 h2
        subst h1 h2
        simp only [memcpy_steps_append, hm, List.append_nil]
        simp [memcpy_steps]
      · repeat (split at h; · cases h)
        injection h with h
        injection h with h1 h2
        subst h1 h2
        simp only [memcpy_steps_append, hm, List.append_nil]
        simp [memcpy_steps]

/-! ### The request translator: `cloop_handle_request` -/

theorem logical_image_succ (img : Nat → List Nat) (n : Nat) :
    logical_image img (n + 1) = logical_image img n ++ img n := by
  simp [logical_image, List.range_succ]

theorem length_logical_image (img : Nat → List Nat) (bs : Nat)
    (himg : ∀ k, (img k).length = bs) (n : Nat) :
    (logical_image img n).length = n * bs := by
  induction n with
  | zero => simp [logical_image]
  | succ n ih =>
    rw [logical_image_succ, List.length_append, ih, himg]
    ring

theorem logical_image_split (img : Nat → List Nat) (k : Nat) :
    ∀ n, k < n → ∃ tail, logical_image img n = logical_image img k ++ (img k ++ tail) := by
  intro n
  induction n with
  | zero => intro h; omega
  | succ n ih =>
    intro h
    by_cases hk : k = n
    · subst hk
      exact ⟨[], by rw [logical_image_succ]; simp⟩
    · obtain ⟨tail, ht⟩ := ih (by omega)
      exact ⟨tail ++ img n, by rw [logical_image_succ, ht]; simp⟩

theorem logical_image_chunk (img : Nat → List Nat) (bs : Nat)
    (himg : ∀ k, (img k).length = bs) (n k oib len : Nat) (hk : k < n)
    (hlen : oib + len ≤ bs) :
    ((logical_image img n).drop (k * bs + oib)).take len = ((img k).drop oib).take len := by
  obtain ⟨tail, ht⟩ := logical_image_split img k n hk
  have hl := length_logical_image img bs himg k
  rw [ht, ← hl, List.drop_append, List.drop_append_of_le_length (by rw [himg]; omega),
    List.take_append_of_le_length (by rw [List.length_drop, himg]; omega)]

theorem cloop_load_buffer_head {z : zlib} {fuel : Nat} {clo : cloop_device} {b : Int}
    {r : load_result} (h : cloop_load_buffer z fuel clo b = .ok r) :
    r.clo.head = clo.head := by
  rcases cloop_load_buffer_cases h with ⟨_, rfl⟩ | ⟨_, i, _, rfl⟩ |
    ⟨_, _, s, d, ret1, f1, c1, p, l, _, _, hclo, _⟩
  · rfl
  · rfl
  · rw [hclo]

theorem cloop_resolve_block_frame {z : zlib} {rfuel : Nat} {st st1 : copy_state} {k : Nat}
    {x : Option (List Nat)} (h : cloop_resolve_block z rfuel st k = .ok (st1, x)) :
    st1.offset = st.offset ∧ st1.clo.head = st.clo.head
      ∧ (x.isSome → st1.buffered_blocknum ≠ -1 ∨ st1.preloaded ≠ 0) := by
  unfold cloop_resolve_block at h
  split at h
  · cases h
  · injection h with h
    injection h with h1 h2
    subst h1 h2
    refine ⟨rfl, rfl, fun _ => Or.inr ?_⟩
    simp
  · split at h
    · cases h
    · rename_i r hr
      have hh := cloop_load_buffer_head hr
      dsimp only at h
      split at h
      · injection h with h
        injection h with h1 h2
        subst h1 h2
        exact ⟨rfl, hh, fun hx => by cases hx⟩
      · rename_i hret
        repeat (split at h; · cases h)
        injection h with h
        injection h with h1 h2
        subst h1 h2
        exact ⟨rfl, hh, fun _ => Or.inl hret⟩

theorem cloop_copy_segment_image (z : zlib) (rfuel : Nat) (img : Nat → List Nat)
    (Inv : copy_state → Prop) (head0 : cloop_head) (n A B : Nat)
    (hbs : 0 < ntohl head0.block_size)
    (himg : ∀ k, (img k).length = ntohl head0.block_size)
    (hB : B ≤ n * ntohl head0.block_size) (hn : B < 2 ^ 64)
    (hres : ∀ (st : copy_state) (k : Nat), Inv st → st.clo.head = head0 → A ≤ k →
      k * ntohl head0.block_size < B →
      ∃ st1, cloop_resolve_block z rfuel st k = .ok (st1, some (img k))
        ∧ ∀ off o l, Inv { st1 with offset := off, trace := st1.trace ++ [.memcpy (img k) o l] }) :
    ∀ (fuel : Nat) (st : copy_state) (len : Nat) (written : List Nat), len ≤ fuel →
      Inv st → st.clo.head = head0 → A ≤ st.offset / ntohl head0.block_size →
      st.offset + len ≤ B →
      ∃ st2, cloop_copy_segment z rfuel fuel st len written
          = .ok (st2, written ++ ((logical_image img n).drop st.offset).take len)
        ∧ st2.offset = st.offset + len ∧ Inv st2 ∧ st2.clo.head = head0
        ∧ (0 < len → st2.buffered_blocknum ≠ -1 ∨ st2.preloaded ≠ 0)
        ∧ (len = 0 → st2 = st)
        ∧ memcpy_steps st2.trace = memcpy_steps st.trace
            ++ (copy_steps (ntohl head0.block_size) fuel st.offset len).map
                (fun s => (img s.1, s.2.1, s.2.2)) := by
  intro fuel
  induction fuel with
  | zero =>
    intro st len written hlen hinv hhead _ _
    have h0 : len = 0 := by omega
    subst h0
    exact ⟨st, by simp [cloop_copy_segment], rfl, hinv, hhead, fun h => absurd h (by omega),
      fun _ => rfl, by simp [copy_steps]⟩
  | succ fuel ih =>
    intro st len written hlen hinv hhead hA hBound
    by_cases h0 : len = 0
    · subst h0
      exact ⟨st, by simp [cloop_copy_segment], rfl, hinv, hhead,
        fun h => absurd h (by omega), fun _ => rfl, by simp [copy_steps]⟩
    · have hpos : 0 < len := Nat.pos_of_ne_zero h0
      have hbs0 : ntohl head0.block_size ≠ 0 := by omega
      have hk : st.offset / ntohl head0.block_size * ntohl head0.block_size < B := by
        have := Nat.div_mul_le_self st.offset (ntohl head0.block_size)
        omega
      obtain ⟨st1, hr, hinv1⟩ := hres st _ hinv hhead hA hk
      obtain ⟨hoff1, hhead1, hflag1⟩ := cloop_resolve_block_frame hr
      have hmod : st.offset % ntohl head0.block_size < ntohl head0.block_size :=
        Nat.mod_lt _ hbs
      have hdm := Nat.div_add_mod st.offset (ntohl head0.block_size)
      have hlib : 0 < min (ntohl head0.block_size - st.offset % ntohl head0.block_size) len := by
        rw [Nat.lt_min]; omega
      have hlible : min (ntohl head0.block_size - st.offset % ntohl head0.block_size) len
          ≤ len := Nat.min_le_right _ _
      have hlibbs : st.offset % ntohl head0.block_size
          + min (ntohl head0.block_size - st.offset % ntohl head0.block_size) len
          ≤ ntohl head0.block_size := by
        have := Nat.min_le_left (ntohl head0.block_size - st.offset % ntohl head0.block_size) len
        omega
      have hnowrap : (st.offset
          + min (ntohl head0.block_size - st.offset % ntohl head0.block_size) len) % 2 ^ 64
          = st.offset + min (ntohl head0.block_size - st.offset % ntohl head0.block_size) len :=
        Nat.mod_eq_of_lt (by omega)
      have hkn : st.offset / ntohl head0.block_size < n := by
        by_contra hge
        have : n * ntohl head0.block_size
            ≤ st.offset / ntohl head0.block_size * ntohl head0.block_size :=
          Nat.mul_le_mul_right _ (by omega)
        omega
      have hmc1 := cloop_resolve_block_memcpy_steps hr
      obtain ⟨st2, hrec, hoff2, hinv2, hhead2, hflag2, hsame2, hsteps2⟩ :=
        ih { st1 with
             offset := (st.offset
               + min (ntohl head0.block_size - st.offset % ntohl head0.block_size) len) % 2 ^ 64
             trace := st1.trace ++ [.memcpy (img (st.offset / ntohl head0.block_size))
               (st.offset % ntohl head0.block_size)
               (min (ntohl head0.block_size - st.offset % ntohl head0.block_size) len)] }
          (len - min (ntohl head0.block_size - st.offset % ntohl head0.block_size) len)
          (written ++ ((img (st.offset / ntohl head0.block_size)).drop
              (st.offset % ntohl head0.block_size)).take
            (min (ntohl head0.block_size - st.offset % ntohl head0.block_size) len))
          (by omega) (hinv1 _ _ _) (by rw [← hhead]; exact hhead1)
          (by
            simp only [hnowrap]
            exact le_trans hA (Nat.div_le_div_right (Nat.le_add_right _ _)))
          (by simp only [hnowrap]; omega)
      refine ⟨st2, ?_, ?_, hinv2, hhead2, ?_, fun h => absurd h h0, ?_⟩
      · rw [cloop_copy_segment, if_pos hpos, hhead]
        simp only [hbs0, if_false, hr]
        rw [if_neg (by rw [himg]; omega), hrec, List.append_assoc]
        congr 2
        simp only [hnowrap]
        have hchunk := logical_image_chunk img _ himg n (st.offset / ntohl head0.block_size)
          (st.offset % ntohl head0.block_size)
          (min (ntohl head0.block_size - st.offset % ntohl head0.block_size) len) hkn hlibbs
        rw [Nat.mul_comm, hdm] at hchunk
        rw [← hchunk, ← List.drop_drop, ← List.take_add]
        rw [Nat.add_sub_of_le hlible]
      · rw [hoff2]
        simp only [hnowrap]
        omega
      · intro _
        by_cases hrest :
            len - min (ntohl head0.block_size - st.offset % ntohl head0.block_size) len = 0
        · rw [hsame2 hrest]
          exact hflag1 rfl
        · exact hflag2 (Nat.pos_of_ne_zero hrest)
      · rw [hsteps2]
        simp only [hnowrap, memcpy_steps_append, hmc1]
        rw [copy_steps, if_neg h0]
        simp [memcpy_steps]

theorem flatten_image_segments (X : List Nat) :
    ∀ (bvecs : List Nat) (off : Nat),
      (image_segments X off bvecs).flatten = (X.drop off).take bvecs.sum := by
  intro bvecs
  induction bvecs with
  | nil => intro off; simp [image_segments]
  | cons len rest ih =>
    intro off
    simp only [image_segments, List.flatten_cons, List.sum_cons, ih]
    rw [List.take_add, List.drop_drop]

theorem length_image_segments (X : List Nat) :
    ∀ (bvecs : List Nat) (off : Nat), off + bvecs.sum ≤ X.length →
      (image_segments X off bvecs).map List.length = bvecs := by
  intro bvecs
  induction bvecs with
  | nil => intro off _; simp [image_segments]
  | cons len rest ih =>
    intro off h
    simp only [List.sum_cons] at h
    simp only [image_segments, List.map_cons, List.length_take, List.length_drop]
    rw [ih (off + len) (by omega)]
    congr 1
    omega

theorem cloop_copy_segments_image (z : zlib) (rfuel : Nat) (img : Nat → List Nat)
    (Inv : copy_state → Prop) (head0 : cloop_head) (n A B : Nat)
    (hbs : 0 < ntohl head0.block_size)
    (himg : ∀ k, (img k).length = ntohl head0.block_size)
    (hB : B ≤ n * ntohl head0.block_size) (hn : B < 2 ^ 64)
    (hres : ∀ (st : copy_state) (k : Nat), Inv st → st.clo.head = head0 → A ≤ k →
      k * ntohl head0.block_size < B →
      ∃ st1, cloop_resolve_block z rfuel st k = .ok (st1, some (img k))
        ∧ ∀ off o l, Inv { st1 with offset := off, trace := st1.trace ++ [.memcpy (img k) o l] }) :
    ∀ (bvecs : List Nat) (st : copy_state),
      Inv st → st.clo.head = head0 → A ≤ st.offset / ntohl head0.block_size →
      st.offset + bvecs.sum ≤ B →
      ∃ st2, cloop_copy_segments z rfuel st bvecs
          = .ok (st2, image_segments (logical_image img n) st.offset bvecs)
        ∧ Inv st2
        ∧ (0 < bvecs.sum → st2.buffered_blocknum ≠ -1 ∨ st2.preloaded ≠ 0)
        ∧ (bvecs.sum = 0 → st2 = st)
        ∧ memcpy_steps st2.trace = memcpy_steps st.trace
            ++ (request_steps (ntohl head0.block_size) st.offset bvecs).map
                (fun s => (img s.1, s.2.1, s.2.2)) := by
  intro bvecs
  induction bvecs with
  | nil =>
    intro st hinv _ _ _
    exact ⟨st, by simp [cloop_copy_segments, image_segments], hinv,
      fun h => absurd h (by simp), fun _ => rfl, by simp [request_steps]⟩
  | cons len rest ih =>
    intro st hinv hhead hA hBound
    simp only [List.sum_cons] at hBound ⊢
    obtain ⟨st1, hseg, hoff1, hinv1, hhead1, hflag1, hsame1, hsteps1⟩ :=
      cloop_copy_segment_image z rfuel img Inv head0 n A B hbs himg hB hn hres len st len []
        (le_refl _) hinv hhead hA (by omega)
    obtain ⟨st2, hrest, hinv2, hflag2, hsame2, hsteps2⟩ := ih st1 hinv1 hhead1
      (by rw [hoff1]; exact le_trans hA (Nat.div_le_div_right (Nat.le_add_right _ _)))
      (by rw [hoff1]; omega)
    refine ⟨st2, ?_, hinv2, ?_, ?_, ?_⟩
    · rw [cloop_copy_segments, hseg]
      simp only [List.nil_append]
      rw [hrest, hoff1]
      simp [image_segments]
    · intro hpos
      by_cases hr0 : rest.sum = 0
      · rw [hsame2 hr0]
        exact hflag1 (by omega)
      · exact hflag2 (Nat.pos_of_ne_zero hr0)
    · intro h0
      rw [hsame2 (by omega), hsame1 (by omega)]
    · rw [hsteps2, hsteps1, hoff1]
      simp [request_steps, List.append_assoc]

theorem ntohl_lt (x : Nat) : ntohl x < 2 ^ 32 := by
  unfold ntohl
  exact Nat.mod_lt _ (by decide)

theorem ntohl_mul_lt (x y : Nat) : ntohl x * ntohl y < 2 ^ 64 := by
  have h1 := ntohl_lt x
  have h2 := ntohl_lt y
  calc ntohl x * ntohl y < 2 ^ 32 * 2 ^ 32 :=
        Nat.mul_lt_mul'' h1 h2
    _ = 2 ^ 64 := by norm_num

/-- C1. Let every block the request touches resolve, in every state the run can be in
(`Inv`), to the decoded block `img k` of `block_size` bytes, and let the request lie
inside the image of `num_blocks` blocks. Then `cloop_handle_request` returns, every
segment is filled completely, and the bytes delivered, in segment order, are the bytes
`[offset, offset + length)` of the concatenation `img 0 ++ img 1 ++ ...`, where
`offset = sector * 512`. Its `memcpy` operations are the steps of the specification:
each takes `min (block_size - offset_in_block) remaining` bytes of block
`offset / block_size` from `offset mod block_size` on and advances the offset by that
amount. In particular with `block_size = 4096` the segment that covers the bytes
`[4090, 4100)` receives the last 6 bytes of block 0 followed by the first 4 bytes of
block 1. -/
theorem cloop_handle_request_copies_image (z : zlib) (rfuel : Nat) (clo : cloop_device)
    (req : request) (img : Nat → List Nat) (Inv : cloop_device → Prop)
    (hbs : 0 < ntohl clo.head.block_size)
    (himg : ∀ k, (img k).length = ntohl clo.head.block_size)
    (hwithin : req.sector * 512 + req.bvecs.sum
      ≤ ntohl clo.head.num_blocks * ntohl clo.head.block_size)
    (hinv : Inv clo)
    (hres : ∀ (st : copy_state) (k : Nat), Inv st.clo → st.clo.head = clo.head →
      req.sector * 512 / ntohl clo.head.block_size ≤ k →
      k * ntohl clo.head.block_size < req.sector * 512 + req.bvecs.sum →
      ∃ st1, cloop_resolve_block z rfuel st k = .ok (st1, some (img k)) ∧ Inv st1.clo) :
    ∃ r, cloop_handle_request z rfuel clo req = .ok r
      ∧ r.dest.map List.length = req.bvecs
      ∧ r.dest.flatten
          = ((logical_image img (ntohl clo.head.num_blocks)).drop (req.sector * 512)).take
              req.bvecs.sum
      ∧ (ntohl clo.head.block_size = 4096 → req.sector = 0 → req.bvecs = [4090, 10] →
          r.dest = [(img 0).take 4090, (img 0).drop 4090 ++ (img 1).take 4])
      ∧ memcpy_steps r.trace
          = (request_steps (ntohl clo.head.block_size) (req.sector * 512) req.bvecs).map
              (fun s => (img s.1, s.2.1, s.2.2))
      ∧ (0 < req.bvecs.sum → r.ret = 1)
      ∧ Inv r.clo := by
  have hn := ntohl_mul_lt clo.head.num_blocks clo.head.block_size
  have hoff : (req.sector * 512) % 2 ^ 64 = req.sector * 512 :=
    Nat.mod_eq_of_lt (by omega)
  obtain ⟨st2, hrun, hinv2, hflag, _, hsteps⟩ :=
    cloop_copy_segments_image z rfuel img (fun st => Inv st.clo) clo.head
      (ntohl clo.head.num_blocks)
      (req.sector * 512 / ntohl clo.head.block_size) (req.sector * 512 + req.bvecs.sum)
      hbs himg hwithin (by omega)
      (fun st k h1 h2 h3 h4 => by
        obtain ⟨st1, hr, hi⟩ := hres st k h1 h2 h3 h4
        exact ⟨st1, hr, fun _ _ _ => hi⟩)
      req.bvecs
      { clo := clo, buffered_blocknum := -1, preloaded := 0,
        offset := (req.sector * 512) % 2 ^ 64, trace := [] }
      hinv rfl (by simp only [hoff]; exact le_refl _) (by simp only [hoff]; exact le_refl _)
  simp only [hoff] at hrun hsteps
  have hlen := length_logical_image img _ himg (ntohl clo.head.num_blocks)
  refine ⟨_, by rw [cloop_handle_request, hoff, hrun], ?_, ?_, ?_, ?_, ?_, hinv2⟩
  · exact length_image_segments _ _ _ (by rw [hlen]; exact hwithin)
  · exact flatten_image_segments _ _ _
  · intro h4096 hsec hbv
    rw [hsec, hbv, h4096] at hwithin
    simp only [List.sum_cons, List.sum_nil] at hwithin
    have hnb : 1 < ntohl clo.head.num_blocks := by omega
    have himg4 : ∀ k, (img k).length = 4096 := fun k => by rw [himg, h4096]
    have c0 := logical_image_chunk img 4096 himg4 (ntohl clo.head.num_blocks) 0 0 4090
      (by omega) (by omega)
    have c1 := logical_image_chunk img 4096 himg4 (ntohl clo.head.num_blocks) 0 4090 6
      (by omega) (by omega)
    have c2 := logical_image_chunk img 4096 himg4 (ntohl clo.head.num_blocks) 1 0 4 hnb (by omega)
    simp only [Nat.zero_mul, Nat.zero_add, Nat.one_mul, Nat.add_zero, List.drop_zero] at c0 c1 c2
    have c1b : ((img 0).drop 4090).take 6 = (img 0).drop 4090 :=
      List.take_of_length_le (by rw [List.length_drop, himg4])
    rw [c1b] at c1
    simp only [hsec, hbv, image_segments, Nat.zero_mul, Nat.zero_add, List.drop_zero]
    rw [c0]
    have h10 : (10 : Nat) = 6 + 4 := rfl
    rw [h10, List.take_add, List.drop_drop, c1, c2]
  · simp only [hsteps]
    simp [memcpy_steps]
  · intro hpos
    have := hflag hpos
    simp only [this, if_true]

theorem uncompress_length {z : zlib} {dest : List Nat} {destLen : Nat} {source : List Nat}
    {ret : Int} {dest1 : List Nat} {m : Nat}
    (h : uncompress z dest destLen source = .ok (ret, dest1, m)) :
    dest1.length = dest.length := by
  unfold uncompress at h
  split at h
  dsimp only at h
  split at h
  · cases h
  · rename_i hle
    injection h with h
    injection h with _ h
    injection h with h _
    subst h
    simp only [List.length_append, List.length_drop]
    omega

theorem cloop_load_buffer_buffer_lengths {z : zlib} {fuel : Nat} {clo : cloop_device}
    {b : Int} {r : load_result} (h : cloop_load_buffer z fuel clo b = .ok r) :
    ∀ i, (r.clo.buffer i).map List.length = (clo.buffer i).map List.length := by
  unfold cloop_load_buffer at h
  split at h
  · injection h with h
    subst h
    exact fun _ => rfl
  · split at h
    · injection h with h
      subst h
      exact fun _ => rfl
    · repeat (split at h; · cases h)
      dsimp only at h
      repeat (split at h; · cases h)
      rename_i slot hslot _ dest hdest _ ret dest1 snd hun
      have hlen := uncompress_length hun
      have hd : clo.buffer slot = some dest := by
        unfold deref at hdest
        split at hdest
        · rename_i a ha
          injection hdest with hdest
          rw [ha, hdest]
        · cases hdest
      intro i
      split at h <;>
      · injection h with h
        subst h
        simp only
        by_cases his : i = slot
        · subst his
          rw [Function.update_same, hd]
          simp [hlen]
        · rw [Function.update_noteq his]

theorem preload_lookup_congr {c1 c2 : cloop_device} (k : Nat)
    (h1 : c1.preload_size = c2.preload_size) (h2 : c1.preload_cache = c2.preload_cache) :
    preload_lookup c1 k = preload_lookup c2 k := by
  unfold preload_lookup
  rw [h1, h2]

theorem cloop_load_buffer_preload {z : zlib} {fuel : Nat} {clo : cloop_device} {b : Int}
    {r : load_result} (h : cloop_load_buffer z fuel clo b = .ok r) :
    r.clo.preload_size = clo.preload_size ∧ r.clo.preload_cache = clo.preload_cache := by
  rcases cloop_load_buffer_cases h with ⟨_, rfl⟩ | ⟨_, i, _, rfl⟩ |
    ⟨_, _, s, d, ret1, f1, c1, p, l, _, _, hclo, _⟩
  · exact ⟨rfl, rfl⟩
  · exact ⟨rfl, rfl⟩
  · rw [hclo]
    exact ⟨rfl, rfl⟩

theorem decoder_calls_append (t1 t2 : List Event) :
    decoder_calls (t1 ++ t2) = decoder_calls t1 + decoder_calls t2 := by
  simp [decoder_calls, List.filter_append]

theorem load_buffer_calls_append (t1 t2 : List Event) :
    load_buffer_calls (t1 ++ t2) = load_buffer_calls t1 + load_buffer_calls t2 := by
  simp [load_buffer_calls, List.filter_append]

theorem to_loff_t_small {x : Nat} (h : x < 2 ^ 63) : to_loff_t x = (x : Int) := by
  unfold to_loff_t
  have h1 : x % 2 ^ 64 = x := Nat.mod_eq_of_lt (by omega)
  rw [h1, if_pos h]

theorem block_of_range {b bs off len k : Nat} (hlo : b * bs ≤ off)
    (hhi : off + len ≤ (b + 1) * bs) (hbs : 0 < bs) (hA : off / bs ≤ k)
    (hk : k * bs < off + len) : k = b := by
  have h1 : b ≤ off / bs := (Nat.le_div_iff_mul_le hbs).mpr hlo
  have h2 : k < b + 1 := by
    by_contra hge
    have : (b + 1) * bs ≤ k * bs := Nat.mul_le_mul_right _ (by omega)
    omega
  omega

/-- C8 (amended). Take a request of positive length that lies inside block `b`.
If `b` is below `preload_size` and its preload slot is populated, the request is served
from `preload_cache[b]`: `cloop_load_buffer` is not called, the decoder does not run and
the device is unchanged. If `b` is not served from the preload cache, is not resident
in the decode cache and its first `cloop_load_buffer` succeeds, the whole request runs
the decoder exactly once and `b` is resident afterwards. -/
theorem cloop_handle_request_preload_or_decode_once (z : zlib) (rfuel : Nat)
    (clo : cloop_device) (req : request) (b : Nat)
    (hbs : 0 < ntohl clo.head.block_size)
    (hlo : b * ntohl clo.head.block_size ≤ req.sector * 512)
    (hhi : req.sector * 512 + req.bvecs.sum ≤ (b + 1) * ntohl clo.head.block_size)
    (h64 : req.sector * 512 + req.bvecs.sum < 2 ^ 64)
    (hpos : 0 < req.bvecs.sum) :
    (∀ (table : List (Option (List Nat))) (src : List Nat),
        b < clo.preload_size % 2 ^ SIZE_BITS → clo.preload_cache = some table →
        table[b]? = some (some src) → src.length = ntohl clo.head.block_size →
        ∃ r, cloop_handle_request z rfuel clo req = .ok r
          ∧ r.clo = clo ∧ load_buffer_calls r.trace = 0 ∧ decoder_calls r.trace = 0
          ∧ r.dest.flatten
              = (src.drop (req.sector * 512 - b * ntohl clo.head.block_size)).take
                  req.bvecs.sum
          ∧ r.ret = 1)
    ∧ (∀ r1 : load_result,
        preload_lookup clo b = .ok none → ¬ resident clo (to_int b) →
        cloop_load_buffer z rfuel clo (to_int b) = .ok r1 → r1.ret ≠ -1 →
        (∀ i src, clo.buffer i = some src → src.length = ntohl clo.head.block_size) →
        ∃ r, cloop_handle_request z rfuel clo req = .ok r
          ∧ decoder_calls r.trace = 1 ∧ resident r.clo (to_int b) ∧ r.ret = 1) := by
  have hoff : (req.sector * 512) % 2 ^ 64 = req.sector * 512 :=
    Nat.mod_eq_of_lt (by omega)
  constructor
  · intro table src hb htable hsrc hlen
    have hb63 : b < 2 ^ 63 := by
      have : clo.preload_size % 2 ^ SIZE_BITS < 2 ^ SIZE_BITS := Nat.mod_lt _ (by decide)
      simp only [SIZE_BITS] at this hb
      omega
    obtain ⟨st2, hrun, hinv2, hflag, _⟩ :=
      cloop_copy_segments_image z rfuel (fun _ => src)
        (fun st => st.clo = clo ∧ load_buffer_calls st.trace = 0 ∧ decoder_calls st.trace = 0)
        clo.head (b + 1)
        (req.sector * 512 / ntohl clo.head.block_size) (req.sector * 512 + req.bvecs.sum)
        hbs (fun _ => hlen) hhi h64
        (fun st k hinv _ hA hk => by
          obtain ⟨hclo, hl, hd⟩ := hinv
          have hkb : k = b := block_of_range hlo hhi hbs hA hk
          subst hkb
          refine ⟨{ st with preloaded := 1 }, ?_, ?_⟩
          · unfold cloop_resolve_block preload_lookup
            rw [hclo, htable, to_loff_t_small hb63]
            have hlt : (k : Int) < ((clo.preload_size % 2 ^ SIZE_BITS : Nat) : Int) := by
              exact_mod_cast hb
            rw [if_pos hlt]
            simp only [index, Int.toNat_ofNat, hsrc, Int.natCast_nonneg, if_true]
          · intro off o l
            refine ⟨hclo, ?_, ?_⟩
            · simp only [load_buffer_calls_append, hl]
              simp [load_buffer_calls]
            · simp only [decoder_calls_append, hd]
              simp [decoder_calls])
        req.bvecs
        { clo := clo, buffered_blocknum := -1, preloaded := 0,
          offset := (req.sector * 512) % 2 ^ 64, trace := [] }
        ⟨rfl, by simp [load_buffer_calls], by simp [decoder_calls]⟩ rfl
        (by simp only [hoff]; exact le_refl _) (by simp only [hoff]; exact le_refl _)
    simp only [hoff] at hrun
    refine ⟨_, by rw [cloop_handle_request, hoff, hrun], hinv2.1, hinv2.2.1, hinv2.2.2, ?_, ?_⟩
    · simp only
      rw [flatten_image_segments]
      have hchunk := logical_image_chunk (fun _ => src) _ (fun _ => hlen) (b + 1) b
        (req.sector * 512 - b * ntohl clo.head.block_size) req.bvecs.sum (by omega)
        (by
          have : (b + 1) * ntohl clo.head.block_size
              = b * ntohl clo.head.block_size + ntohl clo.head.block_size := by ring
          omega)
      rw [← hchunk]
      congr 2
      omega
    · have := hflag hpos
      simp only [this, if_true]
  · intro r1 hpre hnr h1 hs hbuf
    -- the first call is a miss that succeeds
    rcases cloop_load_buffer_cases h1 with ⟨_, rfl⟩ | ⟨_, i, hi, rfl⟩ |
      ⟨hg, hnone, s, d, ret, f1, c1, p, l, hslot, hret, hclo, ht⟩
    · exact absurd rfl hs
    · exact absurd ⟨i, find_buffered_some hi⟩ hnr
    · have hret0 : ret = 0 := by
        by_contra hne
        rw [if_pos hne] at hret
        exact hs hret
      subst hret0
      simp only [ne_eq, not_true_eq_false, if_false] at hret hclo
      have hsv := (slot_index_ok hslot).1
      have hslot1 : slot_index r1.ret = .ok s := by rw [hret]; exact hslot
      have hbuf1 : r1.clo.buffer s = some d := by rw [hclo]; simp
      have hdlen : d.length = ntohl clo.head.block_size := by
        have := cloop_load_buffer_buffer_lengths h1 s
        rw [hbuf1] at this
        cases hc : clo.buffer s with
        | none => rw [hc] at this; cases this
        | some d0 =>
          rw [hc] at this
          simp only [Option.map_some', Option.some.injEq] at this
          rw [this]
          exact hbuf s d0 hc
      have hres1 : resident r1.clo (to_int b) := ⟨s, by rw [hclo]; simp⟩
      have hdec1 : decoder_calls r1.trace = 1 := by rw [ht, decoder_calls_miss]
      have hpre1 : preload_lookup r1.clo b = .ok none := by
        rw [preload_lookup_congr b (cloop_load_buffer_preload h1).1
          (cloop_load_buffer_preload h1).2]
        exact hpre
      have hagain := cloop_load_buffer_repeat rfuel h1 hs
      obtain ⟨st2, hrun, hinv2, hflag, _⟩ :=
        cloop_copy_segments_image z rfuel (fun _ => d)
          (fun st => (st.clo = clo ∧ st.trace = [] ∧ st.buffered_blocknum = -1
              ∧ st.preloaded = 0)
            ∨ (st.clo = r1.clo ∧ decoder_calls st.trace = 1))
          clo.head (b + 1)
          (req.sector * 512 / ntohl clo.head.block_size) (req.sector * 512 + req.bvecs.sum)
          hbs (fun _ => hdlen) hhi h64
          (fun st k hinv _ hA hk => by
            have hkb : k = b := block_of_range hlo hhi hbs hA hk
            subst hkb
            rcases hinv with ⟨hc, htr, _, _⟩ | ⟨hc, hdc⟩
            · refine ⟨{ st with
                  clo := r1.clo, preloaded := 0, buffered_blocknum := r1.ret,
                  trace := st.trace ++ [.load_buffer (to_int k)] ++ r1.trace }, ?_, ?_⟩
              · unfold cloop_resolve_block
                rw [hc, hpre]
                simp only [h1, hs, if_false, hslot1, hbuf1, deref]
              · intro off o l
                right
                refine ⟨rfl, ?_⟩
                simp only [htr, decoder_calls_append, hdec1]
                simp [decoder_calls]
            · refine ⟨{ st with
                  clo := r1.clo, preloaded := 0, buffered_blocknum := r1.ret,
                  trace := st.trace ++ [.load_buffer (to_int k)] ++ [] }, ?_, ?_⟩
              · unfold cloop_resolve_block
                rw [hc, hpre1]
                simp only [hagain, hs, if_false, hslot1, hbuf1, deref]
              · intro off o l
                right
                refine ⟨rfl, ?_⟩
                simp only [decoder_calls_append, hdc]
                simp [decoder_calls])
          req.bvecs
          { clo := clo, buffered_blocknum := -1, preloaded := 0,
            offset := (req.sector * 512) % 2 ^ 64, trace := [] }
          (Or.inl ⟨rfl, rfl, rfl, rfl⟩) rfl
          (by simp only [hoff]; exact le_refl _) (by simp only [hoff]; exact le_refl _)
      simp only [hoff] at hrun
      have hfl := hflag hpos
      rcases hinv2 with ⟨_, _, hb1, hp1⟩ | ⟨hc2, hd2⟩
      · rcases hfl with hfl | hfl
        · exact absurd hb1 hfl
        · exact absurd hp1 hfl
      · refine ⟨_, by rw [cloop_handle_request, hoff, hrun], hd2, ?_, ?_⟩
        · simp only
          rw [hc2]
          exact hres1
        · simp only [hfl, if_true]

/-! ### The attach -/

theorem index_of_getElem {α : Type} {l : List α} {n : Nat} {a : α} (h : l[n]? = some a) :
    index l (n : Int) = .ok a := by
  unfold index
  rw [if_pos (Int.ofNat_nonneg n), Int.toNat_ofNat, h]

theorem read_entries_length (bbuf : List Nat) :
    ∀ (n offset : Nat), (read_entries bbuf offset n).length = n := by
  intro n
  induction n with
  | zero => intro offset; rfl
  | succ n ih => intro offset; simp [read_entries, ih]

theorem store_entries_length {table entries table1 : List Nat} {k : Nat}
    (h : store_entries table k entries = .ok table1) :
    table1.length = table.length ∧ (entries.length ≠ 0 → k + entries.length ≤ table.length) := by
  unfold store_entries at h
  split at h
  · injection h with h
    subst h
    rename_i h0
    exact ⟨rfl, fun hne => absurd h0 hne⟩
  · split at h
    · injection h with h
      subst h
      rename_i hle
      refine ⟨?_, fun _ => hle⟩
      simp only [List.length_append, List.length_take, List.length_drop]
      omega
    · cases h

theorem error_release_backing_file (clo : cloop_device) (error : Int) :
    (error_release clo error).clo.backing_file = none ∧ (error_release clo error).ret = error :=
  ⟨rfl, rfl⟩

theorem neg_EBADF_ne_zero : -EBADF ≠ 0 := by decide

theorem neg_ENOMEM_ne_zero : -ENOMEM ≠ 0 := by decide

/-- The exits of `cloop_alloc_offsets`. -/
theorem cloop_alloc_offsets_cases {env : attach_env} {isblkdev : Bool} {i_size : Nat}
    {clo : cloop_device} :
    (∃ res, cloop_alloc_offsets env isblkdev i_size clo = .inl res
        ∧ res.clo.backing_file = none ∧ res.ret ≠ 0)
    ∨ (cloop_alloc_offsets env isblkdev i_size clo
        = .inr ({ clo with offsets := some (fresh_memory env 1
            ((8 * ((ntohl clo.head.num_blocks + 1) % 2 ^ 32)) % 2 ^ SIZE_BITS / 8)) },
          (ntohl clo.head.num_blocks + 1) % 2 ^ 32)) := by
  unfold cloop_alloc_offsets
  dsimp only
  split
  · left
    exact ⟨_, rfl, rfl, neg_EBADF_ne_zero⟩
  · split
    · right
      rfl
    · left
      exact ⟨_, rfl, rfl, neg_ENOMEM_ne_zero⟩

/-- The exits of `cloop_check_head`. -/
theorem cloop_check_head_cases {env : attach_env} {isblkdev : Bool} {i_size : Nat}
    {clo : cloop_device} {bbuf : List Nat} {x : set_file_result ⊕ (cloop_device × Nat)}
    (h : cloop_check_head env isblkdev i_size clo bbuf = .ok x) :
    ∃ head, read_head env bbuf = .ok head ∧
      ((∃ res, x = .inl res ∧ res.clo.backing_file = none ∧ res.ret ≠ 0)
      ∨ (ntohl head.block_size % 512 = 0
          ∧ index head.preamble 0x0B = .ok 86
          ∧ (∃ c0C, index head.preamble 0x0C = .ok c0C ∧ 50 ≤ c0C)
          ∧ x = .inr ({ clo with
                head := head
                offsets := some (fresh_memory env 1
                  ((8 * ((ntohl head.num_blocks + 1) % 2 ^ 32)) % 2 ^ SIZE_BITS / 8)) },
              (ntohl head.num_blocks + 1) % 2 ^ 32))) := by
  unfold cloop_check_head at h
  split at h
  · cases h
  · rename_i head hhead
    refine ⟨head, hhead, ?_⟩
    dsimp only at h
    split at h
    · injection h with h
      subst h
      left
      exact ⟨_, rfl, rfl, neg_EBADF_ne_zero⟩
    · rename_i hbs
      split at h
      · cases h
      · rename_i c0B h0B
        split at h
        · cases h
        · rename_i c0C h0C
          split at h
          · injection h with h
            subst h
            left
            exact ⟨_, rfl, rfl, neg_EBADF_ne_zero⟩
          · rename_i hm1
            split at h
            · injection h with h
              subst h
              left
              exact ⟨_, rfl, rfl, neg_EBADF_ne_zero⟩
            · rename_i hm2
              injection h with h
              subst h
              rcases @cloop_alloc_offsets_cases env isblkdev i_size
                  { clo with head := head } with
                ⟨res, hres, hf, hr⟩ | hok
              · left
                exact ⟨res, hres, hf, hr⟩
              · right
                refine ⟨by simpa using hbs, ?_, ⟨c0C, h0C, by omega⟩, hok⟩
                have : c0B = 86 := by
                  by_contra hne
                  exact hm1 (Or.inl hne)
                rw [h0B, this]

theorem store_length {buf bytes buf1 : List Nat} {pos : Nat}
    (h : store buf pos bytes = .ok buf1) : buf1.length = buf.length := by
  unfold store at h
  split at h
  · injection h with h
    subst h
    rfl
  · split at h
    · injection h with h
      subst h
      simp only [List.length_append, List.length_take, List.length_drop]
      omega
    · cases h

theorem cloop_read_loop_length :
    ∀ (fuel : Nat) (f : file) (buf : List Nat) (pos buf_len buf_done : Nat) (r : read_result),
      cloop_read_loop fuel f buf pos buf_len buf_done = .ok r → r.buf.length = buf.length := by
  intro fuel
  induction fuel with
  | zero =>
    intro f buf pos buf_len buf_done r h
    unfold cloop_read_loop at h
    split at h
    · cases h
    · injection h with h
      subst h
      rfl
  | succ n ih =>
    intro f buf pos buf_len buf_done r h
    unfold cloop_read_loop at h
    split at h
    · dsimp only at h
      split at h
      · split at h
        · rename_i buf1 hst
          injection h with h
          subst h
          exact store_length hst
        · cases h
      · split at h
        · rename_i buf1 hst
          rw [ih _ _ _ _ _ _ h]
          exact store_length hst
        · cases h
    · injection h with h
      subst h
      rfl

theorem cloop_read_from_file_length {fuel : Nat} {f : file} {buf : List Nat} {pos len : Nat}
    {r : read_result} (h : cloop_read_from_file fuel f buf pos len = .ok r) :
    r.buf.length = buf.length :=
  cloop_read_loop_length _ _ _ _ _ _ _ h

theorem fresh_memory_length (env : attach_env) (n size : Nat) :
    (fresh_memory env n size).length = size := by
  simp [fresh_memory]

theorem table_size_le (t : Nat) : (8 * t) % 2 ^ SIZE_BITS / 8 ≤ t := by
  have : (8 * t) % 2 ^ SIZE_BITS ≤ 8 * t := Nat.mod_le _ _
  omega

/-- The iterations of the index loop behind the first one: the header and the size of the
table stay, and when the loop is left the table has room for `total_offsets` entries. -/
theorem cloop_read_offsets_tail {env : attach_env} {isblkdev : Bool} {i_size : Nat} :
    ∀ (fuel : Nat) (clo : cloop_device) (f : file) (bbuf : List Nat) (i offsets_read total : Nat)
      (table : List Nat) (x : set_file_result ⊕ (cloop_device × Nat)),
      cloop_read_offsets env isblkdev i_size fuel clo f bbuf i offsets_read total = .ok x →
      (1 ≤ i ∨ total ≤ offsets_read) → i ≤ offsets_read + 1 → offsets_read ≤ total →
      total < 2 ^ 32 → 8 ≤ clo.underlying_blksize → clo.underlying_blksize < 2 ^ 32 →
      clo.offsets = some table → offsets_read ≤ table.length →
      (∃ res, x = .inl res ∧ res.clo.backing_file = none ∧ res.ret ≠ 0)
      ∨ (∃ c table1, x = .inr (c, total) ∧ c.head = clo.head ∧ c.offsets = some table1
          ∧ table1.length = table.length ∧ total ≤ table.length
          ∧ (clo.backing_file.isSome → c.backing_file.isSome)
          ∧ c.suspended = clo.suspended ∧ c.largest_block = clo.largest_block) := by
  intro fuel
  induction fuel with
  | zero =>
    intro clo f bbuf i oread total table x h _ _ hle _ _ _ htab hlen
    unfold cloop_read_offsets at h
    split at h
    · cases h
    · rename_i hnl
      injection h with h
      subst h
      right
      exact ⟨clo, table, rfl, rfl, htab, rfl, by omega, fun h => h, rfl, rfl⟩
  | succ n ih =>
    intro clo f bbuf i oread total table x h hi hio hle htot hb8 hb32 htab hlen
    unfold cloop_read_offsets at h
    split at h
    · rename_i hlt
      have hi1 : 1 ≤ i := by omega
      have hi0 : i ≠ 0 := by omega
      split at h
      · cases h
      · rename_i rd hrd
        dsimp only at h
        split at h
        · injection h with h
          subst h
          left
          exact ⟨_, rfl, rfl, neg_EBADF_ne_zero⟩
        · simp only [if_neg hi0, htab, deref] at h
          split at h
          · cases h
          · rename_i table1 hst
            have hst2 := store_entries_length hst
            rw [read_entries_length] at hst2
            have hmod : (total + 2 ^ 32 - oread) % 2 ^ 32 = total - oread := by omega
            have hbm : (clo.underlying_blksize + 2 ^ 32 - 0) % 2 ^ 32 / 8
                = clo.underlying_blksize / 8 := by
              rw [Nat.sub_zero, Nat.add_mod_right, Nat.mod_eq_of_lt hb32]
            rw [hmod, hbm] at hst2 h
            have hn1 : 1 ≤ min (total - oread) (clo.underlying_blksize / 8) := by
              have : 1 ≤ clo.underlying_blksize / 8 := by omega
              exact Nat.le_min.mpr ⟨by omega, this⟩
            have hnle : min (total - oread) (clo.underlying_blksize / 8) ≤ total - oread :=
              Nat.min_le_left _ _
            have hor : (oread + min (total - oread) (clo.underlying_blksize / 8)) % 2 ^ 32
                = oread + min (total - oread) (clo.underlying_blksize / 8) :=
              Nat.mod_eq_of_lt (by omega)
            rw [hor] at h
            have hres := ih _ _ _ _ _ _ table1 _ h
              (by
                by_cases hw : i + 1 < 2 ^ 32
                · left
                  rw [Nat.mod_eq_of_lt hw]
                  omega
                · right
                  omega)
              (by
                have : (i + 1) % 2 ^ 32 ≤ i + 1 := Nat.mod_le _ _
                omega)
              (by omega) htot hb8 hb32 rfl (by
                rw [hst2.1]
                have := hst2.2 (by omega)
                omega)
            rcases hres with hl | ⟨c, t1, hx, hhead, hoff, hlen1, htl, hbf, hsus, hlb⟩
            · left
              exact hl
            · right
              refine ⟨c, t1, hx, hhead, hoff, ?_, ?_, fun _ => hbf rfl, hsus, hlb⟩
              · rw [hlen1, hst2.1]
              · rw [← hst2.1]
                exact htl
    · rename_i hnl
      injection h with h
      subst h
      right
      exact ⟨clo, table, rfl, rfl, htab, rfl, by omega, fun h => h, rfl, rfl⟩

theorem read_head_length {env : attach_env} {bbuf : List Nat} {head : cloop_head}
    (h : read_head env bbuf = .ok head) : sizeof_cloop_head env.headroom ≤ bbuf.length := by
  unfold read_head at h
  split at h
  · cases h
  · omega

/-- The index loop of `cloop_set_file` as the attach starts it: when it is left without an
exit, the header has passed its checks and the table has `total_offsets` entries. -/
theorem cloop_read_offsets_first {env : attach_env} {isblkdev : Bool} {i_size : Nat}
    {fuel : Nat} {clo : cloop_device} {f : file} {bbuf : List Nat} {i offsets_read total : Nat}
    {x : set_file_result ⊕ (cloop_device × Nat)}
    (h : cloop_read_offsets env isblkdev i_size fuel clo f bbuf i offsets_read total = .ok x)
    (hi : i = 0) (ho : offsets_read = 0) (ht : total = 1)
    (hbuf : bbuf.length = clo.underlying_blksize) (hb32 : clo.underlying_blksize < 2 ^ 32) :
    (∃ res, x = .inl res ∧ res.clo.backing_file = none ∧ res.ret ≠ 0)
    ∨ (∃ c table, x = .inr (c, (ntohl c.head.num_blocks + 1) % 2 ^ 32)
        ∧ ntohl c.head.block_size % 512 = 0
        ∧ index c.head.preamble 0x0B = .ok 86
        ∧ (∃ c0C, index c.head.preamble 0x0C = .ok c0C ∧ 50 ≤ c0C)
        ∧ c.offsets = some table
        ∧ table.length = (ntohl c.head.num_blocks + 1) % 2 ^ 32
        ∧ c.backing_file.isSome
        ∧ c.suspended = clo.suspended ∧ c.largest_block = clo.largest_block) := by
  have hlt : offsets_read < total := by omega
  cases fuel with
  | zero =>
    unfold cloop_read_offsets at h
    rw [if_pos hlt] at h
    cases h
  | succ n =>
    unfold cloop_read_offsets at h
    rw [if_pos hlt] at h
    split at h
    · cases h
    · rename_i rd hrd
      have hrdlen := cloop_read_from_file_length hrd
      dsimp only at h
      split at h
      · injection h with h
        subst h
        left
        exact ⟨_, rfl, rfl, neg_EBADF_ne_zero⟩
      · try simp only [if_pos hi] at h
        split at h
        · cases h
        · rename_i res hch
          injection h with h
          subst h
          left
          obtain ⟨head, _, hcase⟩ := cloop_check_head_cases hch
          rcases hcase with ⟨res1, hres1, hf, hr⟩ | ⟨_, _, _, hx⟩
          · injection hres1 with hres1
            subst hres1
            exact ⟨_, rfl, hf, hr⟩
          · cases hx
        · rename_i clo2 total hch
          obtain ⟨head, hhead, hcase⟩ := cloop_check_head_cases hch
          rcases hcase with ⟨res1, hres1, _, _⟩ | ⟨hbs, h0B, h0C, hx⟩
          · cases hres1
          · injection hx with hx
            injection hx with hc ht
            subst hc ht
            have hhl := read_head_length hhead
            rw [hrdlen, hbuf] at hhl
            have hsz : sizeof_cloop_head env.headroom = env.headroom + 8 := rfl
            simp only [deref] at h
            split at h
            · cases h
            · rename_i table1 hst
              have hst2 := store_entries_length hst
              rw [read_entries_length, fresh_memory_length] at hst2
              have htlt : (ntohl head.num_blocks + 1) % 2 ^ 32 < 2 ^ 32 :=
                Nat.mod_lt _ (by norm_num)
              have hcap := table_size_le ((ntohl head.num_blocks + 1) % 2 ^ 32)
              have hmod : ((ntohl head.num_blocks + 1) % 2 ^ 32 + 2 ^ 32 - offsets_read) % 2 ^ 32
                  = (ntohl head.num_blocks + 1) % 2 ^ 32 := by
                rw [ho, Nat.sub_zero, Nat.add_mod_right, Nat.mod_mod]
              rw [hmod] at hst2 h
              have hnle := Nat.min_le_left ((ntohl head.num_blocks + 1) % 2 ^ 32)
                ((clo.underlying_blksize + 2 ^ 32 - sizeof_cloop_head env.headroom) % 2 ^ 32 / 8)
              have hor : (offsets_read + min ((ntohl head.num_blocks + 1) % 2 ^ 32)
                  ((clo.underlying_blksize + 2 ^ 32 - sizeof_cloop_head env.headroom)
                    % 2 ^ 32 / 8)) % 2 ^ 32
                  = min ((ntohl head.num_blocks + 1) % 2 ^ 32)
                  ((clo.underlying_blksize + 2 ^ 32 - sizeof_cloop_head env.headroom)
                    % 2 ^ 32 / 8) := by
                rw [ho, Nat.zero_add]
                exact Nat.mod_eq_of_lt (by omega)
              rw [hor] at h
              have hi1 : (i + 1) % 2 ^ 32 = 1 := by rw [hi]; rfl
              rw [hi1] at h
              have hres := cloop_read_offsets_tail _ _ _ _ _ _ _ table1 _ h
                (Or.inl (Nat.le_refl 1)) (Nat.le_add_left 1 _) hnle htlt (by show 8 ≤ clo.underlying_blksize; omega)
                hb32 rfl (by
                  rw [hst2.1]
                  by_cases hz : min ((ntohl head.num_blocks + 1) % 2 ^ 32)
                    ((clo.underlying_blksize + 2 ^ 32 - sizeof_cloop_head env.headroom)
                      % 2 ^ 32 / 8) = 0
                  · rw [hz]
                    exact Nat.zero_le _
                  · have := hst2.2 hz
                    omega)
              rcases hres with hl | ⟨c, t1, hx, hh, hoff, hlen1, htl, hbf, hsus, hlb⟩
              · left
                exact hl
              · right
                refine ⟨c, t1, ?_, ?_, ?_, ?_, hoff, ?_, hbf rfl, hsus, hlb⟩
                · rw [hx, hh]
                · rw [hh]
                  exact hbs
                · rw [hh]
                  exact h0B
                · rw [hh]
                  exact h0C
                · rw [hh, hlen1, hst2.1]
                  rw [hst2.1] at htl
                  exact Nat.le_antisymm hcap htl

theorem index_ok_lt {α : Type} {l : List α} {n : Nat} {a : α}
    (h : index l (n : Int) = .ok a) : n < l.length := by
  unfold index at h
  split at h
  · split at h
    · rename_i hget
      rw [Int.toNat_ofNat] at hget
      by_contra hlt
      rw [List.getElem?_eq_none (by omega)] at hget
      cases hget
    · cases h
  · cases h

theorem cloop_largest_block_bound {offsets : List Nat} {bound fuel i largest v : Nat}
    (h : cloop_largest_block offsets bound fuel i largest = .ok v) (hi : i < bound) :
    i + 1 < offsets.length := by
  cases fuel with
  | zero =>
    unfold cloop_largest_block at h
    rw [if_pos hi] at h
    cases h
  | succ n =>
    unfold cloop_largest_block at h
    rw [if_pos hi] at h
    split at h
    · cases h
    · cases h
    · rename_i o1 o0 h1 h0
      have : ((i : Int) + 1) = ((i + 1 : Nat) : Int) := by push_cast; rfl
      rw [this] at h1
      exact index_ok_lt h1

/-- The outcomes of the part of `cloop_set_file` before the preload: an exit that leaves
the device without backing file, the early return of the suspended mode, or a device
whose header has passed the checks and whose table has `num_blocks + 1` entries. -/
theorem cloop_set_file_attach_cases {env : attach_env} {clo : cloop_device} {file : file}
    {inode : inode} {x : set_file_result ⊕ cloop_device}
    (h : cloop_set_file_attach env clo file inode = .ok x) :
    (∃ res, x = .inl res ∧ (res.clo.backing_file = none ∨ clo.suspended ≠ 0))
    ∨ (∃ base table, x = .inr base ∧ clo.suspended = 0
        ∧ base.backing_file.isSome
        ∧ ntohl base.head.block_size % 512 = 0
        ∧ index base.head.preamble 0x0B = .ok 86
        ∧ (∃ c0C, index base.head.preamble 0x0C = .ok c0C ∧ 50 ≤ c0C)
        ∧ base.offsets = some table
        ∧ table.length = ntohl base.head.num_blocks + 1
        ∧ (∀ i, base.buffered_blocknum i = -1) ∧ base.current_bufnum = 0
        ∧ (inode.kind ≠ .block_device →
            ∃ last, index table (ntohl base.head.num_blocks : Int) = .ok last
              ∧ be64_to_cpu last = inode.i_size)) := by
  unfold cloop_set_file_attach at h
  dsimp only at h
  have hb32 : (if decide (inode.kind = inode_kind.block_device) = true
      then inode.bdev_block_size % 2 ^ 32 else PAGE_SIZE) < 2 ^ 32 := by
    split
    · exact Nat.mod_lt _ (by norm_num)
    · norm_num [PAGE_SIZE]
  generalize (if decide (inode.kind = inode_kind.block_device) = true
      then inode.bdev_block_size % 2 ^ 32 else PAGE_SIZE) = blksize at h hb32
  generalize hblk : decide (inode.kind = inode_kind.block_device) = isblkdev at h
  split at h
  · injection h with h
    subst h
    exact Or.inl ⟨_, rfl, Or.inl rfl⟩
  · split at h
    · injection h with h
      subst h
      exact Or.inl ⟨_, rfl, Or.inl rfl⟩
    · split at h
      · rename_i hs
        injection h with h
        subst h
        exact Or.inl ⟨_, rfl, Or.inr hs⟩
      · rename_i hs
        have hs0 : clo.suspended = 0 := by
          by_contra hne
          exact hs hne
        split at h
        · injection h with h
          subst h
          exact Or.inl ⟨_, rfl, Or.inl rfl⟩
        · split at h
          · cases h
          · rename_i res hro
            injection h with h
            subst h
            rcases cloop_read_offsets_first hro rfl rfl rfl (fresh_memory_length _ _ _) hb32 with
              ⟨res1, hres1, hf, _⟩ | ⟨c, t, hx, _⟩
            · injection hres1 with hres1
              subst hres1
              exact Or.inl ⟨_, rfl, Or.inl hf⟩
            · cases hx
          · rename_i clo3 total hro
            rcases cloop_read_offsets_first hro rfl rfl rfl (fresh_memory_length _ _ _) hb32 with
              ⟨res1, hres1, _, _⟩ | ⟨c, table, hx, hbs, h0B, h0C, hoff, hlen, hbf, hsus, hlb⟩
            · cases hres1
            · injection hx with hx
              injection hx with hc ht
              subst hc
              simp only [hoff, deref] at h
              split at h
              · cases h
              · rename_i largest hlarge
                have hlen2 : table.length = ntohl clo3.head.num_blocks + 1 := by
                  have hn := ntohl_lt clo3.head.num_blocks
                  by_cases h0 : total = 0
                  · have := cloop_largest_block_bound hlarge (by rw [h0]; norm_num)
                    omega
                  · omega
                split at h
                · injection h with h
                  subst h
                  exact Or.inl ⟨_, rfl, Or.inl rfl⟩
                · split at h
                  · injection h with h
                    subst h
                    exact Or.inl ⟨_, rfl, Or.inl rfl⟩
                  · split at h
                    · injection h with h
                      subst h
                      exact Or.inl ⟨_, rfl, Or.inl rfl⟩
                    · split at h
                      · cases h
                      · rename_i last hlast
                        split at h
                        · injection h with h
                          subst h
                          exact Or.inl ⟨_, rfl, Or.inl rfl⟩
                        · rename_i hfin
                          split at h
                          · injection h with h
                            subst h
                            exact Or.inl ⟨_, rfl, Or.inl rfl⟩
                          · injection h with h
                            subst h
                            right
                            refine ⟨_, table, rfl, hs0, hbf, hbs, h0B, h0C, rfl, hlen2,
                              fun _ => rfl, rfl, fun hk => ?_⟩
                            have hb : isblkdev = false := by
                              rw [← hblk]
                              exact decide_eq_false hk
                            rw [hb] at hlast hfin
                            refine ⟨last, hlast, ?_⟩
                            by_contra hne
                            exact hfin ⟨by simp, hne⟩

/-! ### The work list -/

theorem cloop_load_buffer_clo_list {z : zlib} {fuel : Nat} {clo : cloop_device} {b : Int}
    {r : load_result} (h : cloop_load_buffer z fuel clo b = .ok r) :
    r.clo.clo_list = clo.clo_list := by
  rcases cloop_load_buffer_cases h with ⟨_, rfl⟩ | ⟨_, i, _, rfl⟩ |
    ⟨_, _, s, d, ret1, f1, c1, p, l, _, _, hclo, _⟩
  · rfl
  · rfl
  · rw [hclo]

theorem cloop_resolve_block_clo_list {z : zlib} {rfuel : Nat} {st st1 : copy_state} {k : Nat}
    {x : Option (List Nat)} (h : cloop_resolve_block z rfuel st k = .ok (st1, x)) :
    st1.clo.clo_list = st.clo.clo_list := by
  unfold cloop_resolve_block at h
  split at h
  · cases h
  · injection h with h
    injection h with h1 h2
    subst h1
    rfl
  · split at h
    · cases h
    · rename_i r hr
      have hh := cloop_load_buffer_clo_list hr
      dsimp only at h
      split at h
      · injection h with h
        injection h with h1 h2
        subst h1
        exact hh
      · repeat (split at h; · cases h)
        injection h with h
        injection h with h1 h2
        subst h1
        exact hh

theorem cloop_copy_segment_clo_list {z : zlib} {rfuel : Nat} :
    ∀ (fuel : Nat) (st : copy_state) (len : Nat) (written : List Nat) (st1 : copy_state)
      (out : List Nat), cloop_copy_segment z rfuel fuel st len written = .ok (st1, out) →
      st1.clo.clo_list = st.clo.clo_list := by
  intro fuel
  induction fuel with
  | zero =>
    intro st len written st1 out h
    unfold cloop_copy_segment at h
    split at h
    · cases h
    · injection h with h
      injection h with h1 h2
      subst h1
      rfl
  | succ n ih =>
    intro st len written st1 out h
    unfold cloop_copy_segment at h
    split at h
    · dsimp only at h
      split at h
      · cases h
      · split at h
        · cases h
        · rename_i st2 hres
          injection h with h
          injection h with h1 h2
          subst h1
          exact cloop_resolve_block_clo_list hres
        · rename_i st2 from_ptr hres
          split at h
          · cases h
          · have hr := cloop_resolve_block_clo_list hres
            have hi := ih _ _ _ _ _ h
            exact hi.trans hr
    · injection h with h
      injection h with h1 h2
      subst h1
      rfl

theorem cloop_copy_segments_clo_list {z : zlib} {rfuel : Nat} :
    ∀ (bvecs : List Nat) (st st1 : copy_state) (dest : List (List Nat)),
      cloop_copy_segments z rfuel st bvecs = .ok (st1, dest) →
      st1.clo.clo_list = st.clo.clo_list := by
  intro bvecs
  induction bvecs with
  | nil =>
    intro st st1 dest h
    unfold cloop_copy_segments at h
    injection h with h
    injection h with h1 h2
    subst h1
    rfl
  | cons bv rest ih =>
    intro st st1 dest h
    unfold cloop_copy_segments at h
    split at h
    · cases h
    · rename_i st2 written hseg
      split at h
      · cases h
      · rename_i st3 dest3 hrest
        injection h with h
        injection h with h1 h2
        subst h1
        rw [ih _ _ _ hrest]
        exact cloop_copy_segment_clo_list _ _ _ _ _ _ hseg

theorem cloop_handle_request_clo_list {z : zlib} {rfuel : Nat} {clo : cloop_device}
    {req : request} {r : request_result} (h : cloop_handle_request z rfuel clo req = .ok r) :
    r.clo.clo_list = clo.clo_list := by
  unfold cloop_handle_request at h
  split at h
  · cases h
  · rename_i st dest hseg
    injection h with h
    subst h
    exact cloop_copy_segments_clo_list _ _ _ _ hseg

/-- What `cloop_do_request` does to the device: requests of `q`, in the order in which they
were fetched, go behind the requests already in the work list. -/
theorem cloop_do_request_appends :
    ∀ (q : List fetched_request) (clo : cloop_device),
      ∃ acc : List fetched_request, acc.Sublist q ∧
        (cloop_do_request clo q).1 = { clo with clo_list := clo.clo_list ++ acc } := by
  intro q
  induction q with
  | nil =>
    intro clo
    exact ⟨[], List.Sublist.slnil, by simp [cloop_do_request]⟩
  | cons req q ih =>
    intro clo
    unfold cloop_do_request
    split
    · obtain ⟨acc, hs, hacc⟩ := ih clo
      exact ⟨acc, List.Sublist.cons _ hs, hacc⟩
    · obtain ⟨acc, hs, hacc⟩ := ih { clo with clo_list := clo.clo_list ++ [req] }
      refine ⟨req :: acc, List.Sublist.cons₂ _ hs, ?_⟩
      rw [hacc]
      simp

theorem engine_step_fifo {z : zlib} {fuel : Nat} {e e1 : engine} {a : engine_action}
    (h : engine_step z fuel e a = .ok e1)
    (hinv : e.accepted = e.dequeued ++ e.clo.clo_list
      ∧ e.dequeued = e.serviced ++ e.in_flight.toList) :
    e1.accepted = e1.dequeued ++ e1.clo.clo_list
      ∧ e1.dequeued = e1.serviced ++ e1.in_flight.toList := by
  obtain ⟨h1, h2⟩ := hinv
  cases a with
  | submit q =>
    obtain ⟨acc, _, hacc⟩ := cloop_do_request_appends q e.clo
    unfold engine_step at h
    simp only at h
    injection h with h
    subst h
    simp only [hacc, List.drop_left, h1, List.append_assoc]
    exact ⟨trivial, h2⟩
  | dequeue =>
    unfold engine_step at h
    simp only at h
    split at h
    · rename_i req rest hfl hl
      injection h with h
      subst h
      simp only [h1, hl, List.append_assoc, List.singleton_append, true_and]
      rw [h2, hfl]
      simp
    · injection h with h
      subst h
      exact ⟨h1, h2⟩
  | service =>
    unfold engine_step at h
    simp only at h
    split at h
    · injection h with h
      subst h
      exact ⟨h1, h2⟩
    · rename_i req hfl
      split at h
      · cases h
      · rename_i r hr
        injection h with h
        subst h
        simp only [cloop_handle_request_clo_list hr, h1, true_and]
        rw [h2, hfl]
        simp

theorem engine_run_fifo_inv {z : zlib} {fuel : Nat} :
    ∀ (acts : List engine_action) (e e1 : engine), engine_run z fuel e acts = .ok e1 →
      (e.accepted = e.dequeued ++ e.clo.clo_list
        ∧ e.dequeued = e.serviced ++ e.in_flight.toList) →
      e1.accepted = e1.dequeued ++ e1.clo.clo_list
        ∧ e1.dequeued = e1.serviced ++ e1.in_flight.toList := by
  intro acts
  induction acts with
  | nil =>
    intro e e1 h hinv
    unfold engine_run at h
    injection h with h
    subst h
    exact hinv
  | cons a rest ih =>
    intro e e1 h hinv
    unfold engine_run at h
    split at h
    · cases h
    · rename_i e2 hstep
      exact ih _ _ h (engine_step_fifo hstep hinv)

/-- What one pass of the loop of `cloop_thread` does to the work list: the request at the
head is the one completed, and the rest of the list stays. -/
theorem cloop_thread_step_head {z : zlib} {fuel : Nat} {clo clo1 : cloop_device}
    {req : fetched_request} {rest : List fetched_request} {done : Option completion}
    (hl : clo.clo_list = req :: rest) (h : cloop_thread_step z fuel clo = .ok (clo1, done)) :
    (∃ error, done = some ⟨req, error⟩) ∧ clo1.clo_list = rest := by
  unfold cloop_thread_step at h
  rw [hl] at h
  dsimp only at h
  split at h
  · cases h
  · rename_i r hr
    injection h with h
    injection h with h1 h2
    subst h1 h2
    exact ⟨⟨_, rfl⟩, cloop_handle_request_clo_list hr⟩

/-- C20. Requests are serviced in the order in which they were accepted. However calls of
`cloop_do_request` and the steps of the worker interleave from an engine at rest, the
requests accepted so far, in the order of their acceptance, are the requests serviced so
far, in the order of their service, then the request the worker holds, then the work
list; `cloop_do_request` puts the requests it accepts behind the work list, in the order in
which it fetched them; and a pass of the loop of `cloop_thread` completes the head of the
work list and leaves the rest. -/
theorem engine_run_fifo (z : zlib) (fuel : Nat) (clo : cloop_device)
    (acts : List engine_action) (e : engine)
    (h : engine_run z fuel (engine_idle clo) acts = .ok e) :
    e.accepted = e.serviced ++ e.in_flight.toList ++ e.clo.clo_list
    ∧ (∀ (c : cloop_device) (q : List fetched_request), ∃ acc : List fetched_request,
        acc.Sublist q ∧ (cloop_do_request c q).1.clo_list = c.clo_list ++ acc)
    ∧ (∀ (c c1 : cloop_device) (req : fetched_request) (rest : List fetched_request)
        (done : Option completion), c.clo_list = req :: rest →
        cloop_thread_step z fuel c = .ok (c1, done) →
        (∃ error, done = some ⟨req, error⟩) ∧ c1.clo_list = rest) := by
  obtain ⟨h1, h2⟩ := engine_run_fifo_inv acts _ _ h ⟨rfl, rfl⟩
  refine ⟨by rw [h1, h2], fun c q => ?_, fun c c1 req rest done hl hs =>
    cloop_thread_step_head hl hs⟩
  obtain ⟨acc, hs, hacc⟩ := cloop_do_request_appends q c
  exact ⟨acc, hs, by rw [hacc]⟩
/-! ### The preload -/

theorem cloop_load_buffer_static {z : zlib} {fuel : Nat} {clo : cloop_device} {b : Int}
    {r : load_result} (h : cloop_load_buffer z fuel clo b = .ok r) :
    r.clo.offsets = clo.offsets ∧ r.clo.preload_array_size = clo.preload_array_size
      ∧ (clo.backing_file.isSome → r.clo.backing_file.isSome) := by
  rcases cloop_load_buffer_cases h with ⟨_, rfl⟩ | ⟨_, i, _, rfl⟩ |
    ⟨_, _, s, d, ret1, f1, c1, p, l, _, _, hclo, _⟩
  · exact ⟨rfl, rfl, fun h => h⟩
  · exact ⟨rfl, rfl, fun h => h⟩
  · rw [hclo]
    exact ⟨rfl, rfl, fun _ => rfl⟩

theorem set_preload_ok {table table1 : List (Option (List Nat))} {i : Nat}
    {p : Option (List Nat)} (h : set_preload table i p = .ok table1) :
    i < table.length ∧ table1 = table.set i p := by
  unfold set_preload at h
  split at h
  · rename_i hlt
    injection h with h
    exact ⟨hlt, h.symm⟩
  · cases h

/-- The allocation loop of the preload: the final `i` counts the buffers allocated before
the first failure. -/
theorem cloop_alloc_preload_count {env : attach_env} {block_size : Nat} :
    ∀ (count i : Nat) (table table1 : List (Option (List Nat))) (n : Nat),
      cloop_alloc_preload env block_size count i table = .ok (table1, n) →
      table1.length = table.length ∧ i ≤ n ∧ n ≤ i + count
        ∧ (∀ j, i ≤ j → j < n → env.malloc (13 + j) block_size = true)
        ∧ (n < i + count → env.malloc (13 + n) block_size = false) := by
  intro count
  induction count with
  | zero =>
    intro i table table1 n h
    unfold cloop_alloc_preload at h
    injection h with h
    injection h with h1 h2
    subst h1 h2
    exact ⟨rfl, Nat.le_refl _, Nat.le_refl _, fun j h1 h2 => by omega, fun h => by omega⟩
  | succ c ih =>
    intro i table table1 n h
    unfold cloop_alloc_preload at h
    split at h
    · rename_i hm
      split at h
      · cases h
      · rename_i table0 hset
        obtain ⟨hl, h1, h2, h3, h4⟩ := ih _ _ _ _ h
        obtain ⟨_, hset⟩ := set_preload_ok hset
        subst hset
        refine ⟨by rw [hl, List.length_set], by omega, by omega, ?_, fun hn => h4 (by omega)⟩
        intro j hj1 hj2
        by_cases hji : j = i
        · rw [hji]
          exact hm
        · exact h3 j (by omega) hj2
    · rename_i hm
      split at h
      · cases h
      · rename_i table0 hset
        injection h with h
        injection h with h1 h2
        subst h1 h2
        obtain ⟨_, hset⟩ := set_preload_ok hset
        subst hset
        refine ⟨List.length_set _ _ _, Nat.le_refl _, by omega, fun j h1 h2 => by omega, fun _ => ?_⟩
        simpa using hm

/-- One iteration of the fill loop of the preload: the slot gets the first `block_size`
bytes of the buffer `cloop_load_buffer` returned, or zero bytes when it returned -1. -/
theorem cloop_fill_preload_step {z : zlib} {fuel : Nat} {count i : Nat} {clo clo1 : cloop_device}
    {table table1 : List (Option (List Nat))}
    (h : cloop_fill_preload z fuel (count + 1) i clo table = .ok (clo1, table1)) :
    ∃ r bytes, cloop_load_buffer z fuel clo (i : Int) = .ok r
      ∧ i < table.length
      ∧ cloop_fill_preload z fuel count (i + 1) r.clo (table.set i (some bytes))
          = .ok (clo1, table1)
      ∧ bytes.length = ntohl clo.head.block_size
      ∧ (0 ≤ r.ret → ∃ slot src, slot_index r.ret = .ok slot ∧ r.clo.buffer slot = some src
          ∧ bytes = src.take (ntohl clo.head.block_size))
      ∧ (r.ret < 0 → bytes = List.replicate (ntohl clo.head.block_size) 0) := by
  unfold cloop_fill_preload at h
  split at h
  · cases h
  · rename_i r hr
    have hhead := cloop_load_buffer_head hr
    dsimp only at h
    rw [hhead] at h
    split at h
    · rename_i hret
      split at h
      · cases h
      · rename_i slot hslot
        split at h
        · cases h
        · rename_i src hsrc
          split at h
          · cases h
          · rename_i hlen
            split at h
            · cases h
            · rename_i table0 hset
              obtain ⟨hlt, hset⟩ := set_preload_ok hset
              subst hset
              refine ⟨r, _, hr, hlt, h, ?_, fun _ => ⟨slot, src, hslot, ?_, rfl⟩,
                fun hneg => by omega⟩
              · rw [List.length_take]
                omega
              · unfold deref at hsrc
                split at hsrc
                · rename_i a ha
                  injection hsrc with hsrc
                  rw [ha, hsrc]
                · cases hsrc
    · rename_i hret
      split at h
      · cases h
      · rename_i table0 hset
        obtain ⟨hlt, hset⟩ := set_preload_ok hset
        subst hset
        exact ⟨r, _, hr, hlt, h, List.length_replicate _ _, fun hpos => absurd hpos hret,
          fun _ => rfl⟩

/-- The fill loop of the preload, `count` blocks from block `i` on: slot `i + k` is filled
from the call of `cloop_load_buffer` for block `i + k`, which follows the calls for the
blocks `i` to `i + k - 1`. -/
theorem cloop_fill_preload_slots {z : zlib} {fuel : Nat} :
    ∀ (count i : Nat) (clo clo1 : cloop_device) (table table1 : List (Option (List Nat))),
      cloop_fill_preload z fuel count i clo table = .ok (clo1, table1) →
      table1.length = table.length ∧ (∀ j, j < i → table1[j]? = table[j]?)
      ∧ clo1.head = clo.head ∧ clo1.preload_size = clo.preload_size
      ∧ clo1.preload_array_size = clo.preload_array_size ∧ clo1.offsets = clo.offsets
      ∧ (clo.backing_file.isSome → clo1.backing_file.isSome)
      ∧ ∀ k, k < count → ∃ c rs rj bytes,
          cloop_load_buffers z fuel clo ((List.range' i k).map Int.ofNat) = .ok (c, rs)
          ∧ cloop_load_buffer z fuel c ((i + k : Nat) : Int) = .ok rj
          ∧ table1[i + k]? = some (some bytes)
          ∧ bytes.length = ntohl clo.head.block_size
          ∧ (0 ≤ rj.ret → ∃ slot src, slot_index rj.ret = .ok slot
              ∧ rj.clo.buffer slot = some src
              ∧ bytes = src.take (ntohl clo.head.block_size))
          ∧ (rj.ret < 0 → bytes = List.replicate (ntohl clo.head.block_size) 0) := by
  intro count
  induction count with
  | zero =>
    intro i clo clo1 table table1 h
    unfold cloop_fill_preload at h
    injection h with h
    injection h with h1 h2
    subst h1 h2
    exact ⟨rfl, fun _ _ => rfl, rfl, rfl, rfl, rfl, fun h => h, fun k hk => by omega⟩
  | succ n ih =>
    intro i clo clo1 table table1 h
    obtain ⟨r, bytes, hr, hlt, hrest, hblen, hpos, hneg⟩ := cloop_fill_preload_step h
    obtain ⟨hl, hpre, hhead, hps, hpa, hoff, hbf, hslots⟩ := ih _ _ _ _ _ hrest
    have hrh := cloop_load_buffer_head hr
    have hrp := cloop_load_buffer_preload hr
    have hrs := cloop_load_buffer_static hr
    refine ⟨by rw [hl, List.length_set], ?_, by rw [hhead, hrh], by rw [hps, hrp.1],
      by rw [hpa, hrs.2.1], by rw [hoff, hrs.1], fun hb => hbf (hrs.2.2 hb), ?_⟩
    · intro j hj
      rw [hpre j (by omega), List.getElem?_set_ne (by omega)]
    · intro k hk
      cases k with
      | zero =>
        refine ⟨clo, [], r, bytes, rfl, hr, ?_, hblen, hpos, hneg⟩
        rw [Nat.add_zero, hpre i (by omega), List.getElem?_set_eq_of_lt _ hlt]
      | succ k =>
        obtain ⟨c, rs, rj, bytes1, hc, hrj, hget, hlen1, hpos1, hneg1⟩ := hslots k (by omega)
        rw [hrh] at hlen1 hpos1 hneg1
        refine ⟨c, (((i : Nat) : Int), r) :: rs, rj, bytes1, ?_, ?_, ?_, hlen1, hpos1, hneg1⟩
        · rw [List.range'_succ, List.map_cons]
          unfold cloop_load_buffers
          have hi : Int.ofNat i = ((i : Nat) : Int) := rfl
          rw [hi, hr]
          dsimp only
          rw [hc]
        · have : i + (k + 1) = i + 1 + k := by omega
          rw [this]
          exact hrj
        · have : i + (k + 1) = i + 1 + k := by omega
          rw [this]
          exact hget

/-- The two outcomes of the preload part of `cloop_set_file` when `preload > 0`. -/
theorem cloop_set_file_preload_cases {env : attach_env} {base clo2 : cloop_device}
    (h : cloop_set_file_preload env base = .ok clo2) (hpre : 0 < env.preload % 2 ^ 32) :
    (env.malloc 12 ((min (env.preload % 2 ^ 32) (ntohl base.head.num_blocks) * 4)
        % 2 ^ SIZE_BITS) = false
      ∧ clo2 = { base with preload_cache := none, preload_array_size := 0, preload_size := 0 })
    ∨ (env.malloc 12 ((min (env.preload % 2 ^ 32) (ntohl base.head.num_blocks) * 4)
        % 2 ^ SIZE_BITS) = true
      ∧ ∃ table0 n c1 table1,
        cloop_alloc_preload env (ntohl base.head.block_size)
          (min (env.preload % 2 ^ 32) (ntohl base.head.num_blocks)) 0
          (List.replicate ((min (env.preload % 2 ^ 32) (ntohl base.head.num_blocks) * 4)
            % 2 ^ SIZE_BITS / 4) none) = .ok (table0, n)
        ∧ cloop_fill_preload env.z env.fuel n 0
            { base with
              preload_array_size := min (env.preload % 2 ^ 32) (ntohl base.head.num_blocks)
              preload_size := n } table0 = .ok (c1, table1)
        ∧ clo2 = { c1 with preload_cache := some table1 }) := by
  unfold cloop_set_file_preload at h
  rw [if_pos hpre] at h
  dsimp only at h
  rw [← Nat.min_def] at h
  split at h
  · rename_i hm
    right
    refine ⟨hm, ?_⟩
    split at h
    · cases h
    · rename_i table0 n hal
      split at h
      · cases h
      · rename_i c1 table1 hfill
        injection h with h
        exact ⟨table0, n, c1, table1, hal, hfill, h.symm⟩
  · rename_i hm
    left
    injection h with h
    exact ⟨by simpa using hm, h.symm⟩

/-- A call of `cloop_load_buffer` for a block below `k` keeps every tag below `k`. -/
theorem cloop_load_buffer_tags_below {z : zlib} {fuel : Nat} {clo : cloop_device} {b : Int}
    {r : load_result} (h : cloop_load_buffer z fuel clo b = .ok r) {k : Int}
    (htags : ∀ s, clo.buffered_blocknum s < k) (hb : b < k) (hk : -1 < k) :
    ∀ s, r.clo.buffered_blocknum s < k := by
  rcases cloop_load_buffer_cases h with ⟨_, rfl⟩ | ⟨_, i, _, rfl⟩ |
    ⟨_, _, slot, d, ret1, f1, c1, p, l, _, _, hclo, _⟩
  · exact htags
  · exact htags
  · intro s
    rw [hclo]
    dsimp only
    by_cases hs : s = slot
    · subst hs
      rw [Function.update_same]
      split
      · exact hk
      · exact hb
    · rw [Function.update_noteq hs]
      exact htags s

/-- A sequence of calls of `cloop_load_buffer` for blocks below `k` keeps every tag below
`k` and keeps the header. -/
theorem cloop_load_buffers_tags_below {z : zlib} {fuel : Nat} {k : Int} (hk : -1 < k) :
    ∀ (bs : List Int) (clo c : cloop_device) (rs : List (Int × load_result)),
      cloop_load_buffers z fuel clo bs = .ok (c, rs) →
      (∀ s, clo.buffered_blocknum s < k) → (∀ b ∈ bs, b < k) →
      (∀ s, c.buffered_blocknum s < k) ∧ c.head = clo.head := by
  intro bs
  induction bs with
  | nil =>
    intro clo c rs h htags _
    unfold cloop_load_buffers at h
    injection h with h
    injection h with h1 h2
    subst h1
    exact ⟨htags, rfl⟩
  | cons b rest ih =>
    intro clo c rs h htags hbs
    unfold cloop_load_buffers at h
    split at h
    · cases h
    · rename_i r hr
      split at h
      · cases h
      · rename_i c2 rs2 hrest
        injection h with h
        injection h with h1 h2
        subst h1
        obtain ⟨ht, hh⟩ := ih r.clo _ _ hrest
          (cloop_load_buffer_tags_below hr htags (hbs b (List.mem_cons_self _ _)) hk)
          (fun b1 hb1 => hbs b1 (List.mem_cons_of_mem _ hb1))
        exact ⟨ht, by rw [hh, cloop_load_buffer_head hr]⟩

/-- C17 (amended). After an attach with preloading that returns, the returned value is 0
and every preload slot `j` below `preload_size` is populated with `block_size` bytes. The
call of `cloop_load_buffer` for block `j` (made after the calls for the blocks before `j`,
on the device as the attach had set it up) is a miss. When it returns a slot, the decoder
has ended without error on the bytes read for the stream of block `j`, and the preload
slot holds the bytes the decoder produced followed by the bytes the buffer of the
decode-cache slot held before from that position on: it is a copy of the decode-cache
slot as it is at that moment, and when the decoder produced `block_size` bytes the preload
slot holds exactly these. When the call returns -1 the preload slot holds zero bytes. -/
theorem cloop_set_file_preload_contents (env : attach_env) (clo : cloop_device) (file : file)
    (inode : inode) (base : cloop_device) (r : set_file_result)
    (hatt : cloop_set_file_attach env clo file inode = .ok (.inr base))
    (h : cloop_set_file env clo file inode = .ok r) (hpre : 0 < env.preload % 2 ^ 32) :
    r.ret = 0 ∧ ∀ j, j < r.clo.preload_size → ∃ table c rs rj bytes,
      r.clo.preload_cache = some table
      ∧ cloop_load_buffers env.z env.fuel
          { base with
            preload_array_size := r.clo.preload_array_size
            preload_size := r.clo.preload_size }
          ((List.range j).map Int.ofNat) = .ok (c, rs)
      ∧ cloop_load_buffer env.z env.fuel c (j : Int) = .ok rj
      ∧ find_buffered c.buffered_blocknum (j : Int) = none
      ∧ table[j]? = some (some bytes)
      ∧ bytes.length = ntohl r.clo.head.block_size
      ∧ (0 ≤ rj.ret →
          ∃ (slot : Fin BUFFERED_BLOCKS) (old produced offsets cbuf : List Nat) (o1 o0 : Nat)
            (f : Cloop.file) (rd : read_result) (err : Int),
            slot_index rj.ret = .ok slot
            ∧ c.buffer slot = some old
            ∧ c.offsets = some offsets ∧ index offsets ((j : Int) + 1) = .ok o1
            ∧ index offsets (j : Int) = .ok o0
            ∧ c.backing_file = some f ∧ c.compressed_buffer = some cbuf
            ∧ cloop_read_from_file env.fuel f cbuf (be64_to_cpu o0)
                (((be64_to_cpu o1 : Int) - be64_to_cpu o0) % 2 ^ 32).toNat = .ok rd
            ∧ env.z.inflate
                (rd.buf.take (((be64_to_cpu o1 : Int) - be64_to_cpu o0) % 2 ^ 32).toNat)
                (ntohl r.clo.head.block_size) = (err, produced)
            ∧ (err = Z_STREAM_END ∨ err = Z_OK)
            ∧ rj.clo.buffer slot
                = some (produced.take (ntohl r.clo.head.block_size)
                    ++ old.drop (produced.take (ntohl r.clo.head.block_size)).length)
            ∧ bytes = (produced.take (ntohl r.clo.head.block_size)
                ++ old.drop (produced.take (ntohl r.clo.head.block_size)).length).take
                  (ntohl r.clo.head.block_size)
            ∧ (ntohl r.clo.head.block_size ≤ produced.length →
                bytes = produced.take (ntohl r.clo.head.block_size)))
      ∧ (rj.ret < 0 → bytes = List.replicate (ntohl r.clo.head.block_size) 0) := by
  have hbase : ∀ i, base.buffered_blocknum i = -1 := by
    rcases cloop_set_file_attach_cases hatt with ⟨res, hx, _⟩ | ⟨b2, table, hx, _, _, _, _, _, _, _,
      htags, _⟩
    · cases hx
    · injection hx with hx
      subst hx
      exact htags
  unfold cloop_set_file at h
  rw [hatt] at h
  dsimp only at h
  split at h
  · cases h
  · rename_i clo2 hp
    injection h with h
    subst h
    refine ⟨rfl, ?_⟩
    rcases cloop_set_file_preload_cases hp hpre with ⟨_, hc⟩ | ⟨_, table0, n, c1, table1, _, hfill, hc⟩
    · subst hc
      intro j hj
      exact absurd hj (Nat.not_lt_zero _)
    · subst hc
      obtain ⟨_, _, hhead, hps, hpa, _, _, hslots⟩ := cloop_fill_preload_slots _ _ _ _ _ _ hfill
      intro j hj
      have hjn : j < n := by
        have : c1.preload_size = n := hps
        exact this ▸ hj
      obtain ⟨c, rs, rj, bytes, hc, hrj, hget, hlen, hpos, hneg⟩ := hslots j hjn
      rw [Nat.zero_add] at hrj hget
      rw [← List.range_eq_range'] at hc
      have hh : c1.head = base.head := hhead
      obtain ⟨htags, hch⟩ := cloop_load_buffers_tags_below (show (-1 : Int) < (j : Int) by omega)
        _ _ _ _ hc (fun s => by
          show base.buffered_blocknum s < (j : Int)
          rw [hbase s]
          omega)
        (fun b hb => by
          rw [List.mem_map] at hb
          obtain ⟨a, ha, rfl⟩ := hb
          rw [List.mem_range] at ha
          show ((a : Nat) : Int) < (j : Int)
          omega)
      have hmiss : find_buffered c.buffered_blocknum (j : Int) = none := by
        rw [find_buffered_none]
        intro i hi
        have := htags i
        omega
      have hcb : c.head.block_size = base.head.block_size := by rw [hch]
      refine ⟨table1, c, rs, rj, bytes, rfl, ?_, hrj, hmiss, hget, ?_, ?_, ?_⟩
      · show cloop_load_buffers env.z env.fuel
          { base with preload_array_size := c1.preload_array_size, preload_size := c1.preload_size }
          _ = _
        rw [hps, hpa]
        exact hc
      · show bytes.length = ntohl c1.head.block_size
        rw [hh]
        exact hlen
      · intro hret
        show ∃ (slot : Fin BUFFERED_BLOCKS) (old produced offsets cbuf : List Nat) (o1 o0 : Nat)
            (f : Cloop.file) (rd : read_result) (err : Int),
            slot_index rj.ret = .ok slot
            ∧ c.buffer slot = some old
            ∧ c.offsets = some offsets ∧ index offsets ((j : Int) + 1) = .ok o1
            ∧ index offsets (j : Int) = .ok o0
            ∧ c.backing_file = some f ∧ c.compressed_buffer = some cbuf
            ∧ cloop_read_from_file env.fuel f cbuf (be64_to_cpu o0)
                (((be64_to_cpu o1 : Int) - be64_to_cpu o0) % 2 ^ 32).toNat = .ok rd
            ∧ env.z.inflate
                (rd.buf.take (((be64_to_cpu o1 : Int) - be64_to_cpu o0) % 2 ^ 32).toNat)
                (ntohl c1.head.block_size) = (err, produced)
            ∧ (err = Z_STREAM_END ∨ err = Z_OK)
            ∧ rj.clo.buffer slot
                = some (produced.take (ntohl c1.head.block_size)
                    ++ old.drop (produced.take (ntohl c1.head.block_size)).length)
            ∧ bytes = (produced.take (ntohl c1.head.block_size)
                ++ old.drop (produced.take (ntohl c1.head.block_size)).length).take
                  (ntohl c1.head.block_size)
            ∧ (ntohl c1.head.block_size ≤ produced.length →
                bytes = produced.take (ntohl c1.head.block_size))
        rw [hh, ← hcb]
        obtain ⟨slot, old, produced, offsets, cbuf, o1, o0, f, rd, err, hslot, hrs, hold, hoff,
          ho1, ho0, hf, hcbuf, hrd, hinf, herr, _, hbuf, _⟩ :=
          cloop_load_buffer_miss_shape hrj hmiss (by omega)
        obtain ⟨slot2, src, hslot2, hsrc, hbytes⟩ := hpos hret
        have hs2 : slot2 = slot := by
          rw [hrs, slot_index_val] at hslot2
          injection hslot2 with hs
          exact hs.symm
        subst hs2
        rw [hbuf] at hsrc
        injection hsrc with hsrc
        subst hsrc
        rw [← hcb] at hbytes
        refine ⟨slot2, old, produced, offsets, cbuf, o1, o0, f, rd, err, ?_, hold, hoff, ho1, ho0,
          hf, hcbuf, hrd, hinf, herr, hbuf, hbytes, fun hfull => ?_⟩
        · rw [hrs]
          exact slot_index_val slot2
        · rw [hbytes]
          have hl : (produced.take (ntohl c.head.block_size)).length
              = ntohl c.head.block_size := by
            rw [List.length_take]
            omega
          rw [List.take_append_of_le_length (by rw [hl]), List.take_of_length_le (by rw [hl])]
      · show rj.ret < 0 → bytes = List.replicate (ntohl c1.head.block_size) 0
        rw [hh]
        exact hneg

/-- C18 (amended). After an attach with `preload > 0` whose pointer table is allocated,
`preload_array_size` is the smaller of `preload` and `num_blocks`, and `preload_size` is the
number of preload buffers allocated before the first allocation that fails: it is not above
`preload_array_size`, every buffer below it was allocated, the one at it (if any) was not,
and it equals `preload_array_size` when every allocation succeeds. -/
theorem cloop_set_file_preload_size (env : attach_env) (clo : cloop_device) (file : file)
    (inode : inode) (base : cloop_device) (r : set_file_result)
    (hatt : cloop_set_file_attach env clo file inode = .ok (.inr base))
    (h : cloop_set_file env clo file inode = .ok r) (hpre : 0 < env.preload % 2 ^ 32)
    (htable : env.malloc 12 ((min (env.preload % 2 ^ 32) (ntohl base.head.num_blocks) * 4)
        % 2 ^ SIZE_BITS) = true) :
    r.clo.preload_array_size = min (env.preload % 2 ^ 32) (ntohl r.clo.head.num_blocks)
    ∧ r.clo.preload_size ≤ r.clo.preload_array_size
    ∧ (∀ i, i < r.clo.preload_size →
        env.malloc (13 + i) (ntohl r.clo.head.block_size) = true)
    ∧ (r.clo.preload_size < r.clo.preload_array_size →
        env.malloc (13 + r.clo.preload_size) (ntohl r.clo.head.block_size) = false)
    ∧ ((∀ i, i < r.clo.preload_array_size →
          env.malloc (13 + i) (ntohl r.clo.head.block_size) = true) →
        r.clo.preload_size = min (env.preload % 2 ^ 32) (ntohl r.clo.head.num_blocks)) := by
  unfold cloop_set_file at h
  rw [hatt] at h
  dsimp only at h
  split at h
  · cases h
  · rename_i clo2 hp
    injection h with h
    subst h
    rcases cloop_set_file_preload_cases hp hpre with ⟨hf, _⟩ | ⟨_, table0, n, c1, table1, hal, hfill, hc⟩
    · rw [htable] at hf
      cases hf
    · subst hc
      obtain ⟨_, _, hhead, hps, hpa, _, _, _⟩ := cloop_fill_preload_slots _ _ _ _ _ _ hfill
      obtain ⟨_, _, hn, hok, hfail⟩ := cloop_alloc_preload_count _ _ _ _ _ hal
      have hps : c1.preload_size = n := hps
      have hpa : c1.preload_array_size
          = min (env.preload % 2 ^ 32) (ntohl base.head.num_blocks) := hpa
      have hh : c1.head = base.head := hhead
      rw [Nat.zero_add] at hn hfail
      show c1.preload_array_size = min (env.preload % 2 ^ 32) (ntohl c1.head.num_blocks)
        ∧ c1.preload_size ≤ c1.preload_array_size
        ∧ (∀ i, i < c1.preload_size → env.malloc (13 + i) (ntohl c1.head.block_size) = true)
        ∧ (c1.preload_size < c1.preload_array_size →
            env.malloc (13 + c1.preload_size) (ntohl c1.head.block_size) = false)
        ∧ ((∀ i, i < c1.preload_array_size →
              env.malloc (13 + i) (ntohl c1.head.block_size) = true) →
            c1.preload_size = min (env.preload % 2 ^ 32) (ntohl c1.head.num_blocks))
      rw [hps, hpa, hh]
      refine ⟨rfl, hn, fun i hi => hok i (Nat.zero_le _) hi, hfail, fun hall => ?_⟩
      by_contra hne
      have hlt : n < min (env.preload % 2 ^ 32) (ntohl base.head.num_blocks) :=
        Nat.lt_of_le_of_ne hn hne
      have h1 := hfail hlt
      rw [hall n hlt] at h1
      cases h1

/-- C19. When the attach has reached the preload part, `preload > 0` and the allocation of
the preload pointer table fails, `cloop_set_file` returns 0, the device keeps its backing
file, `preload_size` and `preload_array_size` are 0 and the preload lookup finds no block,
on this device and on every device with the same preload fields. -/
theorem cloop_set_file_preload_table_failure (env : attach_env) (clo : cloop_device)
    (file : file) (inode : inode) (base : cloop_device)
    (hatt : cloop_set_file_attach env clo file inode = .ok (.inr base))
    (hpre : 0 < env.preload % 2 ^ 32)
    (hfail : env.malloc 12 ((min (env.preload % 2 ^ 32) (ntohl base.head.num_blocks) * 4)
        % 2 ^ SIZE_BITS) = false) :
    ∃ r, cloop_set_file env clo file inode = .ok r ∧ r.ret = 0
      ∧ r.clo.backing_file.isSome
      ∧ r.clo.preload_size = 0 ∧ r.clo.preload_array_size = 0 ∧ r.clo.preload_cache = none
      ∧ ∀ (c : cloop_device) (k : Nat), c.preload_size = r.clo.preload_size →
          c.preload_cache = r.clo.preload_cache → preload_lookup c k = .ok none := by
  have hp : cloop_set_file_preload env base
      = .ok { base with preload_cache := none, preload_array_size := 0, preload_size := 0 } := by
    unfold cloop_set_file_preload
    rw [if_pos hpre]
    dsimp only
    rw [← Nat.min_def, hfail]
    rfl
  have hbf : base.backing_file.isSome := by
    rcases cloop_set_file_attach_cases hatt with ⟨res, hres, _⟩ | ⟨b, t, hb, _, hbf, _⟩
    · cases hres
    · injection hb with hb
      rw [hb]
      exact hbf
  refine ⟨⟨0, { base with preload_cache := none, preload_array_size := 0, preload_size := 0 }⟩,
    ?_, rfl, hbf, rfl, rfl, rfl, ?_⟩
  · unfold cloop_set_file
    rw [hatt]
    dsimp only
    rw [hp]
  · intro c k _ hc
    have hc1 : c.preload_cache = none := hc
    unfold preload_lookup
    rw [hc1]
    split <;> rfl

/-- What the preload part of `cloop_set_file` leaves as it is. -/
theorem cloop_set_file_preload_frame {env : attach_env} {base clo2 : cloop_device}
    (h : cloop_set_file_preload env base = .ok clo2) :
    clo2.head = base.head ∧ clo2.offsets = base.offsets
      ∧ (base.backing_file.isSome → clo2.backing_file.isSome) := by
  by_cases hpre : 0 < env.preload % 2 ^ 32
  · rcases cloop_set_file_preload_cases h hpre with ⟨_, hc⟩ | ⟨_, table0, n, c1, table1, _, hfill, hc⟩
    · subst hc
      exact ⟨rfl, rfl, fun h => h⟩
    · subst hc
      obtain ⟨_, _, hhead, _, _, hoff, hbf, _⟩ := cloop_fill_preload_slots _ _ _ _ _ _ hfill
      exact ⟨hhead, hoff, hbf⟩
  · unfold cloop_set_file_preload at h
    rw [if_neg hpre] at h
    injection h with h
    subst h
    exact ⟨rfl, rfl, fun h => h⟩

/-- C13 (amended). Every container that `cloop_set_file` accepts (it returns 0 and the
device has its backing file; the device was not suspended) has an offsets table of exactly
`num_blocks + 1` entries, and on a regular file the last of them is the size of the file. -/
theorem cloop_set_file_offsets_entries (env : attach_env) (clo : cloop_device) (file : file)
    (inode : inode) (r : set_file_result)
    (h : cloop_set_file env clo file inode = .ok r) (hs : clo.suspended = 0)
    (hret : r.ret = 0) (hbf : r.clo.backing_file.isSome) :
    ∃ table, r.clo.offsets = some table
      ∧ table.length = ntohl r.clo.head.num_blocks + 1
      ∧ (inode.kind = .regular →
          ∃ last, index table (ntohl r.clo.head.num_blocks : Int) = .ok last
            ∧ be64_to_cpu last = inode.i_size) := by
  unfold cloop_set_file at h
  split at h
  · cases h
  · rename_i res hatt
    injection h with h
    subst h
    rcases cloop_set_file_attach_cases hatt with ⟨res1, hres1, hn | hn⟩ | ⟨_, _, hb, _⟩
    · injection hres1 with hres1
      subst hres1
      rw [hn] at hbf
      cases hbf
    · exact absurd hs hn
    · cases hb
  · rename_i base hatt
    split at h
    · cases h
    · rename_i clo2 hp
      injection h with h
      subst h
      obtain ⟨hhead, hoff, _⟩ := cloop_set_file_preload_frame hp
      rcases cloop_set_file_attach_cases hatt with ⟨res1, hres1, _⟩ |
        ⟨b, table, hb, _, _, _, _, _, hboff, hlen, _, _, hlast⟩
      · cases hres1
      · injection hb with hb
        subst hb
        refine ⟨table, ?_, ?_, fun hk => ?_⟩
        · show clo2.offsets = some table
          rw [hoff, hboff]
        · show table.length = ntohl clo2.head.num_blocks + 1
          rw [hhead]
          exact hlen
        · show ∃ last, index table (ntohl clo2.head.num_blocks : Int) = .ok last
            ∧ be64_to_cpu last = inode.i_size
          rw [hhead]
          exact hlast (by rw [hk]; decide)

/-- The marker check of `cloop_check_head` on a header that does not pass it. -/
theorem cloop_check_head_reject {env : attach_env} {isblkdev : Bool} {i_size : Nat}
    {clo : cloop_device} {bbuf : List Nat} {head : cloop_head} {c0B c0C : Int}
    (hhead : read_head env bbuf = .ok head)
    (h0B : index head.preamble 0x0B = .ok c0B) (h0C : index head.preamble 0x0C = .ok c0C)
    (hbad : c0B ≠ 86 ∨ c0C < 50) :
    cloop_check_head env isblkdev i_size clo bbuf
      = .ok (.inl (error_release { clo with head := head } (-EBADF))) := by
  unfold cloop_check_head
  rw [hhead]
  dsimp only
  split
  · rfl
  · rw [h0B, h0C]
    dsimp only
    split
    · rfl
    · rename_i h1
      split
      · rfl
      · rename_i h2
        exfalso
        rcases hbad with hb | hb
        · exact h1 (Or.inl hb)
        · exact h2 hb

/-- The marker check of `cloop_check_head` on a header that passes it: the code goes on
to `cloop_alloc_offsets`. -/
theorem cloop_check_head_pass {env : attach_env} {isblkdev : Bool} {i_size : Nat}
    {clo : cloop_device} {bbuf : List Nat} {head : cloop_head} {c0B c0C : Int}
    (hhead : read_head env bbuf = .ok head) (hbs : ntohl head.block_size % 512 = 0)
    (h0B : index head.preamble 0x0B = .ok c0B) (h0C : index head.preamble 0x0C = .ok c0C)
    (hV : c0B = 86) (h2 : 50 ≤ c0C) :
    cloop_check_head env isblkdev i_size clo bbuf
      = .ok (cloop_alloc_offsets env isblkdev i_size { clo with head := head }) := by
  unfold cloop_check_head
  rw [hhead]
  dsimp only
  rw [if_neg (by simpa using hbs), h0B, h0C]
  dsimp only
  rw [if_neg (by omega), if_neg (by omega)]

/-- The index loop of `cloop_set_file` when the checks on the header in block zero take
an exit. -/
theorem cloop_read_offsets_exit {env : attach_env} {isblkdev : Bool} {i_size : Nat}
    {fuel : Nat} {clo : cloop_device} {f : file} {bbuf : List Nat} {i offsets_read total : Nat}
    {rd : read_result} {res : set_file_result}
    (hfuel : 0 < fuel) (hi : i = 0) (ho : offsets_read = 0) (ht : total = 1)
    (hread : cloop_read_from_file env.fuel f bbuf 0 clo.underlying_blksize = .ok rd)
    (hfull : (rd.ret % 2 ^ SIZE_BITS).toNat = clo.underlying_blksize)
    (hcheck : cloop_check_head env isblkdev i_size { clo with backing_file := some rd.f } rd.buf
      = .ok (.inl res)) :
    cloop_read_offsets env isblkdev i_size fuel clo f bbuf i offsets_read total
      = .ok (.inl res) := by
  cases fuel with
  | zero => exact absurd hfuel (Nat.lt_irrefl 0)
  | succ n =>
    unfold cloop_read_offsets
    rw [if_pos (by omega)]
    have hpos : (i * clo.underlying_blksize) % 2 ^ 32 = 0 := by rw [hi, Nat.zero_mul]; rfl
    rw [hpos, hread]
    dsimp only
    rw [if_neg (by rw [hfull]; exact fun h => h rfl), if_pos hi, hcheck]

/-- The marker check on the elements of the preamble. When `cloop_set_file` has read block
zero in full and the header in it has the
element `c0B` at `preamble[0x0B]` and `c0C` at `preamble[0x0C]`: if `c0B` is not 'V' (86)
or `c0C` is below '2' (50), `cloop_set_file` returns `-EBADF` and the device has no
backing file; if `c0B` is 'V' and `c0C` is at least '2' (and the block size has passed its
check), the checks on the header go on behind the marker check, to the computation of
`total_offsets`. -/
theorem cloop_set_file_marker_values (env : attach_env) (clo : cloop_device) (file : file)
    (inode : inode) (blksize : Nat) (rd : read_result) (head : cloop_head) (c0B c0C : Int)
    (hkind : inode.kind = .regular ∨ inode.kind = .block_device)
    (hsize : inode.kind = .regular → sizeof_cloop_head env.headroom ≤ inode.i_size)
    (hsusp : clo.suspended = 0) (hfuel : 0 < env.fuel)
    (hblk : blksize = if inode.kind = .block_device then inode.bdev_block_size % 2 ^ 32
      else PAGE_SIZE)
    (hbbuf : env.malloc 0 blksize = true)
    (hread : cloop_read_from_file env.fuel file (fresh_memory env 0 blksize) 0 blksize = .ok rd)
    (hfull : (rd.ret % 2 ^ SIZE_BITS).toNat = blksize)
    (hhead : read_head env rd.buf = .ok head)
    (h0B : index head.preamble 0x0B = .ok c0B) (h0C : index head.preamble 0x0C = .ok c0C) :
    ((c0B ≠ 86 ∨ c0C < 50) →
      ∃ r, cloop_set_file env clo file inode = .ok r ∧ r.ret = -EBADF
        ∧ r.clo.backing_file = none)
    ∧ (c0B = 86 → 50 ≤ c0C → ntohl head.block_size % 512 = 0 →
        ∀ (isblkdev : Bool) (i_size : Nat) (c : cloop_device),
          cloop_check_head env isblkdev i_size c rd.buf
            = .ok (cloop_alloc_offsets env isblkdev i_size { c with head := head })) := by
  refine ⟨fun hbad => ?_, fun hV h2 hbs isblkdev i_size c =>
    cloop_check_head_pass hhead hbs h0B h0C hV h2⟩
  have hblk2 : (if decide (inode.kind = inode_kind.block_device) = true
      then inode.bdev_block_size % 2 ^ 32 else PAGE_SIZE) = blksize := by
    rw [hblk]
    simp
  have hatt : ∃ res, cloop_set_file_attach env clo file inode = .ok (.inl res)
      ∧ res.ret = -EBADF ∧ res.clo.backing_file = none := by
    unfold cloop_set_file_attach
    dsimp only
    rw [hblk2]
    split
    · rename_i hk
      exfalso
      rcases hkind with hr | hb
      · exact hk.2 hr
      · exact hk.1 (by simp [hb])
    · split
      · rename_i hk hsz
        exfalso
        have := hsize (by
          rcases hkind with hr | hb
          · exact hr
          · exact absurd (by simp [hb]) hsz.1)
        omega
      · split
        · rename_i hs
          exact absurd hsusp hs
        · try rw [if_neg (not_not.mpr hbbuf)]
          have hexit := @cloop_read_offsets_exit env
            (decide (inode.kind = inode_kind.block_device)) inode.i_size env.fuel
            { clo with backing_file := some file, underlying_blksize := blksize }
            file (fresh_memory env 0 blksize) 0 0 1 rd _ hfuel rfl rfl rfl hread hfull
            (cloop_check_head_reject hhead h0B h0C hbad)
          rw [hexit]
          exact ⟨_, rfl, rfl, rfl⟩
  obtain ⟨res, hres, hret, hbf⟩ := hatt
  refine ⟨res, ?_, hret, hbf⟩
  unfold cloop_set_file
  rw [hres]

theorem x86_char_marker {b : Nat} (hb : b < 256) : x86_char b = 86 ↔ b = 86 := by
  unfold x86_char
  split <;> omega

theorem x86_char_version {b : Nat} (hb : b < 256) :
    x86_char b < 50 ↔ (b < 50 ∨ 128 ≤ b) := by
  unfold x86_char
  split <;> omega

/-- The element of the preamble at a position below `CLOOP_HEADROOM` is the byte of block
zero at that position, as a `char`. -/
theorem read_head_preamble {env : attach_env} {bbuf : List Nat} {k b : Nat}
    (hlen : sizeof_cloop_head env.headroom ≤ bbuf.length) (hk : k < env.headroom)
    (hb : bbuf[k]? = some b) :
    ∃ head, read_head env bbuf = .ok head
      ∧ index head.preamble (k : Int) = .ok (env.char b)
      ∧ head.block_size = be_value ((bbuf.drop env.headroom).take 4) := by
  unfold read_head
  rw [if_neg (by omega)]
  refine ⟨_, rfl, ?_, rfl⟩
  apply index_of_getElem
  rw [List.getElem?_map, List.getElem?_take_of_lt hk, hb]
  rfl

/-- C14 (amended). When `cloop_set_file` has read block zero in full, with the byte `b0B`
at position 0x0B and the byte `b0C` at position 0x0C, on the x86 target where `char` is
signed: if `b0B` is not 'V' (86), or `b0C` is below '2' (50), or `b0C` is 0x80 or more,
`cloop_set_file` returns `-EBADF` and the device has no backing file; if `b0B` is 'V' and
`b0C` is from '2' to 0x7F (and the block size has passed its check), the checks on the
header go on behind the marker check, to the computation of `total_offsets`. -/
theorem cloop_set_file_marker_check (env : attach_env) (clo : cloop_device) (file : file)
    (inode : inode) (blksize : Nat) (rd : read_result) (b0B b0C : Nat)
    (hkind : inode.kind = .regular ∨ inode.kind = .block_device)
    (hsize : inode.kind = .regular → sizeof_cloop_head env.headroom ≤ inode.i_size)
    (hsusp : clo.suspended = 0) (hfuel : 0 < env.fuel)
    (hblk : blksize = if inode.kind = .block_device then inode.bdev_block_size % 2 ^ 32
      else PAGE_SIZE)
    (hbbuf : env.malloc 0 blksize = true)
    (hread : cloop_read_from_file env.fuel file (fresh_memory env 0 blksize) 0 blksize = .ok rd)
    (hfull : (rd.ret % 2 ^ SIZE_BITS).toNat = blksize)
    (hchar : ∀ b, env.char b = x86_char b)
    (hroom : 0x0C < env.headroom) (hhdr : sizeof_cloop_head env.headroom ≤ blksize)
    (h0B : rd.buf[0x0B]? = some b0B) (h0C : rd.buf[0x0C]? = some b0C)
    (hbyte : b0B < 256 ∧ b0C < 256) :
    ((b0B ≠ 86 ∨ b0C < 50 ∨ 128 ≤ b0C) →
      ∃ r, cloop_set_file env clo file inode = .ok r ∧ r.ret = -EBADF
        ∧ r.clo.backing_file = none)
    ∧ (b0B = 86 → 50 ≤ b0C → b0C < 128 →
        ntohl (be_value ((rd.buf.drop env.headroom).take 4)) % 512 = 0 →
        ∃ head, read_head env rd.buf = .ok head
          ∧ ∀ (isblkdev : Bool) (i_size : Nat) (c : cloop_device),
            cloop_check_head env isblkdev i_size c rd.buf
              = .ok (cloop_alloc_offsets env isblkdev i_size { c with head := head })) := by
  have hlen : sizeof_cloop_head env.headroom ≤ rd.buf.length := by
    rw [cloop_read_from_file_length hread, fresh_memory_length]
    exact hhdr
  obtain ⟨head, hhead, hi0B, _⟩ := @read_head_preamble env rd.buf 0x0B b0B hlen (by omega) h0B
  obtain ⟨head2, hhead2, hi0C, hbs⟩ := @read_head_preamble env rd.buf 0x0C b0C hlen hroom h0C
  have heq : head2 = head := by
    rw [hhead] at hhead2
    injection hhead2 with h
    exact h.symm
  subst heq
  rw [hchar] at hi0B hi0C
  have hmain := cloop_set_file_marker_values env clo file inode blksize rd head2
    (x86_char b0B) (x86_char b0C) hkind hsize hsusp hfuel hblk hbbuf hread hfull hhead hi0B hi0C
  refine ⟨fun hbad => hmain.1 ?_, fun hV h2 h7 hsz => ⟨head2, hhead, ?_⟩⟩
  · rcases hbad with h | h | h
    · exact Or.inl (fun hc => h ((x86_char_marker hbyte.1).mp hc))
    · exact Or.inr ((x86_char_version hbyte.2).mpr (Or.inl h))
    · exact Or.inr ((x86_char_version hbyte.2).mpr (Or.inr h))
  · refine hmain.2 ((x86_char_marker hbyte.1).mpr hV) ?_ (by rw [hbs]; exact hsz)
    have := (x86_char_version hbyte.2).not.mpr (by omega)
    omega

/-- The device the index loop of `cloop_set_file` returns: its header is the header copied
from block zero, and its table is the one allocated, of a size in bytes below 2^32. -/
theorem cloop_read_offsets_first_table {env : attach_env} {isblkdev : Bool} {i_size : Nat}
    {fuel : Nat} {clo : cloop_device} {f : file} {bbuf : List Nat} {i offsets_read total : Nat}
    {c : cloop_device} {t : Nat}
    (h : cloop_read_offsets env isblkdev i_size fuel clo f bbuf i offsets_read total
      = .ok (.inr (c, t)))
    (hi : i = 0) (ho : offsets_read = 0) (ht : total = 1)
    (hbuf : bbuf.length = clo.underlying_blksize) (hb32 : clo.underlying_blksize < 2 ^ 32) :
    ∃ rd table, cloop_read_from_file env.fuel f bbuf 0 clo.underlying_blksize = .ok rd
      ∧ read_head env rd.buf = .ok c.head
      ∧ c.offsets = some table ∧ 8 * table.length < 2 ^ 32 := by
  have hlt : offsets_read < total := by omega
  cases fuel with
  | zero =>
    unfold cloop_read_offsets at h
    rw [if_pos hlt] at h
    cases h
  | succ n =>
    unfold cloop_read_offsets at h
    rw [if_pos hlt] at h
    have hpos : (i * clo.underlying_blksize) % 2 ^ 32 = 0 := by
      rw [hi, Nat.zero_mul, Nat.zero_mod]
    rw [hpos] at h
    split at h
    · cases h
    · rename_i rd hread
      have hrdlen := cloop_read_from_file_length hread
      dsimp only at h
      split at h
      · injection h with h
        cases h
      · try simp only [if_pos hi] at h
        split at h
        · cases h
        · injection h with h
          cases h
        · rename_i clo2 total hch
          obtain ⟨head, hhead, hcase⟩ := cloop_check_head_cases hch
          rcases hcase with ⟨res1, hres1, _, _⟩ | ⟨hbs, h0B, h0C, hx⟩
          · cases hres1
          · injection hx with hx
            injection hx with hc ht
            subst hc ht
            have hhl := read_head_length hhead
            rw [hrdlen, hbuf] at hhl
            have hsz : sizeof_cloop_head env.headroom = env.headroom + 8 := rfl
            simp only [deref] at h
            split at h
            · cases h
            · rename_i table1 hst
              have hst2 := store_entries_length hst
              rw [read_entries_length, fresh_memory_length] at hst2
              have htlt : (ntohl head.num_blocks + 1) % 2 ^ 32 < 2 ^ 32 :=
                Nat.mod_lt _ (by norm_num)
              have hmod : ((ntohl head.num_blocks + 1) % 2 ^ 32 + 2 ^ 32 - offsets_read) % 2 ^ 32
                  = (ntohl head.num_blocks + 1) % 2 ^ 32 := by
                rw [ho, Nat.sub_zero, Nat.add_mod_right, Nat.mod_mod]
              rw [hmod] at hst2 h
              have hnle := Nat.min_le_left ((ntohl head.num_blocks + 1) % 2 ^ 32)
                ((clo.underlying_blksize + 2 ^ 32 - sizeof_cloop_head env.headroom) % 2 ^ 32 / 8)
              have hor : (offsets_read + min ((ntohl head.num_blocks + 1) % 2 ^ 32)
                  ((clo.underlying_blksize + 2 ^ 32 - sizeof_cloop_head env.headroom)
                    % 2 ^ 32 / 8)) % 2 ^ 32
                  = min ((ntohl head.num_blocks + 1) % 2 ^ 32)
                  ((clo.underlying_blksize + 2 ^ 32 - sizeof_cloop_head env.headroom)
                    % 2 ^ 32 / 8) := by
                rw [ho, Nat.zero_add]
                exact Nat.mod_eq_of_lt (by omega)
              rw [hor] at h
              have hi1 : (i + 1) % 2 ^ 32 = 1 := by rw [hi]; rfl
              rw [hi1] at h
              have hres := cloop_read_offsets_tail _ _ _ _ _ _ _ table1 _ h
                (Or.inl (Nat.le_refl 1)) (Nat.le_add_left 1 _) hnle htlt
                (by show 8 ≤ clo.underlying_blksize; omega)
                hb32 rfl (by
                  rw [hst2.1]
                  by_cases hz : min ((ntohl head.num_blocks + 1) % 2 ^ 32)
                    ((clo.underlying_blksize + 2 ^ 32 - sizeof_cloop_head env.headroom)
                      % 2 ^ 32 / 8) = 0
                  · rw [hz]
                    exact Nat.zero_le _
                  · have := hst2.2 hz
                    omega)
              rcases hres with ⟨res, hl, _⟩ | ⟨c1, t1, hx, hh, hoff, hlen1, _⟩
              · cases hl
              · injection hx with hx
                injection hx with hc _
                refine ⟨rd, t1, hread, ?_, ?_, ?_⟩
                · rw [hc, hh]
                  exact hhead
                · rw [hc]
                  exact hoff
                · rw [hlen1, hst2.1]
                  have : 8 * ((8 * ((ntohl head.num_blocks + 1) % 2 ^ 32)) % 2 ^ SIZE_BITS / 8)
                      ≤ (8 * ((ntohl head.num_blocks + 1) % 2 ^ 32)) % 2 ^ SIZE_BITS :=
                    Nat.mul_div_le _ 8
                  have h2 : (8 * ((ntohl head.num_blocks + 1) % 2 ^ 32)) % 2 ^ SIZE_BITS
                      < 2 ^ 32 := Nat.mod_lt _ (by norm_num [SIZE_BITS])
                  omega

theorem cloop_alloc_buffers_zero {env : attach_env} (hzero : ∀ n, env.malloc n 0 = false)
    (buffer : Fin BUFFERED_BLOCKS → Option (List Nat)) :
    (cloop_alloc_buffers env 0 (List.finRange BUFFERED_BLOCKS) buffer).2 = true := by
  have hf : List.finRange BUFFERED_BLOCKS
      = (⟨0, by decide⟩ : Fin BUFFERED_BLOCKS) :: (List.finRange BUFFERED_BLOCKS).tail := by
    decide
  rw [hf]
  unfold cloop_alloc_buffers
  rw [hzero]
  rfl

/-- The block-size check of `cloop_check_head` on a header that does not pass it. -/
theorem cloop_check_head_reject_size {env : attach_env} {isblkdev : Bool} {i_size : Nat}
    {clo : cloop_device} {bbuf : List Nat} {head : cloop_head}
    (hhead : read_head env bbuf = .ok head) (hbad : ntohl head.block_size % 512 ≠ 0) :
    cloop_check_head env isblkdev i_size clo bbuf
      = .ok (.inl (error_release { clo with head := head } (-EBADF))) := by
  unfold cloop_check_head
  rw [hhead]
  dsimp only
  rw [if_pos hbad]

/-- An attach of a header with block size 0, when `cloop_malloc(0)` returns `NULL`, takes
an exit with an error. -/
theorem cloop_set_file_attach_block_size_zero {env : attach_env} {clo : cloop_device}
    {file : file} {inode : inode} {blksize : Nat} {rd : read_result} {head : cloop_head}
    {x : set_file_result ⊕ cloop_device}
    (hatt : cloop_set_file_attach env clo file inode = .ok x)
    (hsusp : clo.suspended = 0)
    (hblk : blksize = if inode.kind = .block_device then inode.bdev_block_size % 2 ^ 32
      else PAGE_SIZE)
    (hread : cloop_read_from_file env.fuel file (fresh_memory env 0 blksize) 0 blksize = .ok rd)
    (hhead : read_head env rd.buf = .ok head) (h0 : ntohl head.block_size = 0)
    (hzero : ∀ n, env.malloc n 0 = false) :
    ∃ res, x = .inl res ∧ res.ret ≠ 0 ∧ res.clo.backing_file = none := by
  have hblk2 : (if decide (inode.kind = inode_kind.block_device) = true
      then inode.bdev_block_size % 2 ^ 32 else PAGE_SIZE) = blksize := by
    rw [hblk]
    simp
  have hb32 : blksize < 2 ^ 32 := by
    rw [hblk]
    split
    · exact Nat.mod_lt _ (by norm_num)
    · norm_num [PAGE_SIZE]
  unfold cloop_set_file_attach at hatt
  dsimp only at hatt
  rw [hblk2] at hatt
  generalize decide (inode.kind = inode_kind.block_device) = isblkdev at hatt
  split at hatt
  · injection hatt with hatt
    subst hatt
    exact ⟨_, rfl, neg_EBADF_ne_zero, rfl⟩
  · split at hatt
    · injection hatt with hatt
      subst hatt
      exact ⟨_, rfl, neg_EBADF_ne_zero, rfl⟩
    · split at hatt
      · rename_i hs
        exact absurd hsusp hs
      · split at hatt
        · injection hatt with hatt
          subst hatt
          exact ⟨_, rfl, neg_ENOMEM_ne_zero, rfl⟩
        · split at hatt
          · cases hatt
          · rename_i res hro
            injection hatt with hatt
            subst hatt
            rcases cloop_read_offsets_first hro rfl rfl rfl (fresh_memory_length _ _ _) hb32 with
              ⟨res1, hres1, hf, hr⟩ | ⟨c, t, hx, _⟩
            · injection hres1 with hres1
              subst hres1
              exact ⟨_, rfl, hr, hf⟩
            · cases hx
          · rename_i clo3 total hro
            obtain ⟨rd1, _, hr1, hh1, _, _⟩ := cloop_read_offsets_first_table hro rfl rfl rfl
              (fresh_memory_length _ _ _) hb32
            have hr2 : cloop_read_from_file env.fuel file (fresh_memory env 0 blksize) 0 blksize
                = .ok rd1 := hr1
            have hh : clo3.head = head := by
              rw [hread] at hr2
              injection hr2 with hr2
              subst hr2
              rw [hhead] at hh1
              injection hh1 with hh1
              exact hh1.symm
            split at hatt
            · cases hatt
            · split at hatt
              · cases hatt
              · rename_i largest hlarge
                have hal := @cloop_alloc_buffers_zero env hzero clo3.buffer
                have hbs : ntohl clo3.head.block_size = 0 := by rw [hh]; exact h0
                try dsimp only at hatt
                rw [hbs] at hatt
                split at hatt
                · injection hatt with hatt
                  subst hatt
                  exact ⟨_, rfl, neg_ENOMEM_ne_zero, rfl⟩
                · rename_i buffer hbuf
                  rw [hbuf] at hal
                  cases hal

/-- C12. When `cloop_set_file` has read block zero in full, with the header `head` in it,
on a device that is not suspended: if the `block_size` field is not divisible by 512,
`cloop_set_file` returns `-EBADF` and the device has no backing file; if the field is 0
and `cloop_malloc(0)` returns `NULL` (as it does on this kernel), every value
`cloop_set_file` returns is an error and the device has no backing file. -/
theorem cloop_set_file_block_size_check (env : attach_env) (clo : cloop_device) (file : file)
    (inode : inode) (blksize : Nat) (rd : read_result) (head : cloop_head)
    (hkind : inode.kind = .regular ∨ inode.kind = .block_device)
    (hsize : inode.kind = .regular → sizeof_cloop_head env.headroom ≤ inode.i_size)
    (hsusp : clo.suspended = 0) (hfuel : 0 < env.fuel)
    (hblk : blksize = if inode.kind = .block_device then inode.bdev_block_size % 2 ^ 32
      else PAGE_SIZE)
    (hbbuf : env.malloc 0 blksize = true)
    (hread : cloop_read_from_file env.fuel file (fresh_memory env 0 blksize) 0 blksize = .ok rd)
    (hfull : (rd.ret % 2 ^ SIZE_BITS).toNat = blksize)
    (hhead : read_head env rd.buf = .ok head)
    (hzero : ∀ n, env.malloc n 0 = false) :
    (ntohl head.block_size % 512 ≠ 0 →
      ∃ r, cloop_set_file env clo file inode = .ok r ∧ r.ret = -EBADF
        ∧ r.clo.backing_file = none)
    ∧ (ntohl head.block_size = 0 →
        ∀ r, cloop_set_file env clo file inode = .ok r →
          r.ret ≠ 0 ∧ r.clo.backing_file = none) := by
  refine ⟨fun hbad => ?_, fun h0 r h => ?_⟩
  · have hblk2 : (if decide (inode.kind = inode_kind.block_device) = true
        then inode.bdev_block_size % 2 ^ 32 else PAGE_SIZE) = blksize := by
      rw [hblk]
      simp
    have hatt : ∃ res, cloop_set_file_attach env clo file inode = .ok (.inl res)
        ∧ res.ret = -EBADF ∧ res.clo.backing_file = none := by
      unfold cloop_set_file_attach
      dsimp only
      rw [hblk2]
      split
      · rename_i hk
        exfalso
        rcases hkind with hr | hb
        · exact hk.2 hr
        · exact hk.1 (by simp [hb])
      · split
        · rename_i hk hsz
          exfalso
          have := hsize (by
            rcases hkind with hr | hb
            · exact hr
            · exact absurd (by simp [hb]) hsz.1)
          omega
        · split
          · rename_i hs
            exact absurd hsusp hs
          · try rw [if_neg (not_not.mpr hbbuf)]
            have hexit := @cloop_read_offsets_exit env
              (decide (inode.kind = inode_kind.block_device)) inode.i_size env.fuel
              { clo with backing_file := some file, underlying_blksize := blksize }
              file (fresh_memory env 0 blksize) 0 0 1 rd _ hfuel rfl rfl rfl hread hfull
              (cloop_check_head_reject_size hhead hbad)
            rw [hexit]
            exact ⟨_, rfl, rfl, rfl⟩
    obtain ⟨res, hres, hret, hbf⟩ := hatt
    refine ⟨res, ?_, hret, hbf⟩
    unfold cloop_set_file
    rw [hres]
  · unfold cloop_set_file at h
    split at h
    · cases h
    · rename_i res hatt
      injection h with h
      subst h
      obtain ⟨res1, hx, hr, hf⟩ :=
        cloop_set_file_attach_block_size_zero hatt hsusp hblk hread hhead h0 hzero
      injection hx with hx
      subst hx
      exact ⟨hr, hf⟩
    · rename_i base hatt
      obtain ⟨res1, hx, _, _⟩ :=
        cloop_set_file_attach_block_size_zero hatt hsusp hblk hread hhead h0 hzero
      cases hx

theorem accepted_by_iff (clo : cloop_device) (req : fetched_request) :
    accepted_by clo req = true ↔
      ¬ (¬ req.fs_request ∨ (req.data_dir ≠ 0 ∧ req.data_dir ≠ 2)
          ∨ (clo.backing_file.isNone ∧ clo.suspended = 0)) := by
  unfold accepted_by
  cases hf : req.fs_request <;> cases hb : clo.backing_file <;>
    by_cases h0 : req.data_dir = 0 <;> by_cases h2 : req.data_dir = 2 <;>
    by_cases hs : clo.suspended = 0 <;> simp [h0, h2, hs]

theorem accepted_by_clo_list (clo : cloop_device) (l : List fetched_request) :
    accepted_by { clo with clo_list := l } = accepted_by clo := rfl

/-- What `cloop_do_request` does with the requests it fetches: those that are filesystem
reads on a device that is attached or suspended go behind the work list, in the order in
which they were fetched, and the others are completed with `-EIO`. -/
theorem cloop_do_request_split :
    ∀ (q : List fetched_request) (clo : cloop_device),
      cloop_do_request clo q
        = ({ clo with clo_list := clo.clo_list ++ q.filter (accepted_by clo) },
            (q.filter (fun req => !accepted_by clo req)).map (fun req => ⟨req, - EIO⟩)) := by
  intro q
  induction q with
  | nil =>
    intro clo
    simp [cloop_do_request]
  | cons req q ih =>
    intro clo
    unfold cloop_do_request
    split
    · rename_i hrej
      have hacc : accepted_by clo req = false := by
        cases h : accepted_by clo req
        · rfl
        · exact absurd hrej ((accepted_by_iff clo req).mp h)
      rw [ih clo]
      simp [List.filter_cons, hacc]
    · rename_i hok
      have hacc : accepted_by clo req = true := (accepted_by_iff clo req).mpr hok
      rw [ih]
      simp [List.filter_cons, hacc, accepted_by_clo_list]

/-- C23. On a device that has no backing file and is not suspended `cloop_do_request`
completes every request it fetches with `-EIO` and leaves the work list as it is; on any
device the requests it puts behind the work list are those that are filesystem reads
(`READ` or `READA`) fetched while the device is attached or suspended, and the others are
completed with `-EIO`. -/
theorem cloop_do_request_not_attached (clo : cloop_device) (q : List fetched_request) :
    (clo.backing_file = none → clo.suspended = 0 →
      cloop_do_request clo q = (clo, q.map (fun req => ⟨req, - EIO⟩)))
    ∧ (cloop_do_request clo q).1.clo_list = clo.clo_list ++ q.filter (accepted_by clo)
    ∧ (cloop_do_request clo q).2
        = (q.filter (fun req => !accepted_by clo req)).map (fun req => ⟨req, - EIO⟩)
    ∧ (∀ req, accepted_by clo req = true ↔
        (req.fs_request = true ∧ (req.data_dir = 0 ∨ req.data_dir = 2)
          ∧ (clo.backing_file.isSome = true ∨ clo.suspended ≠ 0))) := by
  refine ⟨fun hb hs => ?_, by rw [cloop_do_request_split], by rw [cloop_do_request_split],
    fun req => ?_⟩
  · have hnone : ∀ req, accepted_by clo req = false := by
      intro req
      unfold accepted_by
      simp [hb, hs]
    rw [cloop_do_request_split]
    have h1 : q.filter (accepted_by clo) = [] := by
      rw [List.filter_eq_nil_iff]
      intro a _
      simp [hnone a]
    have h2 : q.filter (fun req => !accepted_by clo req) = q := by
      rw [List.filter_eq_self]
      intro a _
      simp [hnone a]
    rw [h1, h2, List.append_nil]
  · unfold accepted_by
    simp [Bool.and_eq_true, Bool.or_eq_true, and_assoc]

/-- C24. The device is read-only. A request whose data direction is neither `READ` nor
`READA` is not put into the work list by `cloop_do_request`, which completes it with
`-EIO`; and `cloop_open` on an existing device with `FMODE_WRITE` in the mode returns
`-EROFS` and leaves the device, its reference count included, as it is. -/
theorem cloop_do_request_read_only (clo : cloop_device) (q : List fetched_request)
    (req : fetched_request) (cloop_count : Int) (minor mode : Nat)
    (hreq : req ∈ q) (hdir : req.data_dir ≠ 0 ∧ req.data_dir ≠ 2)
    (hminor : to_int minor ≤ cloop_count - 1) (hmode : mode &&& FMODE_WRITE ≠ 0) :
    (∃ added, (cloop_do_request clo q).1 = { clo with clo_list := clo.clo_list ++ added }
        ∧ req ∉ added ∧ ∀ a ∈ added, a.data_dir = 0 ∨ a.data_dir = 2)
    ∧ (⟨req, - EIO⟩ : completion) ∈ (cloop_do_request clo q).2
    ∧ cloop_open cloop_count (some minor) mode clo = (-EROFS, clo) := by
  have hrej : accepted_by clo req = false := by
    unfold accepted_by
    simp [hdir.1, hdir.2]
  refine ⟨⟨q.filter (accepted_by clo), by rw [cloop_do_request_split], ?_, ?_⟩, ?_, ?_⟩
  · intro hmem
    rw [List.mem_filter] at hmem
    rw [hrej] at hmem
    exact absurd hmem.2 (by decide)
  · intro a ha
    rw [List.mem_filter] at ha
    have := ha.2
    unfold accepted_by at this
    simp only [Bool.and_eq_true, Bool.or_eq_true, beq_iff_eq] at this
    exact this.1.2
  · rw [cloop_do_request_split]
    rw [List.mem_map]
    exact ⟨req, by rw [List.mem_filter]; exact ⟨hreq, by simp [hrej]⟩, rfl⟩
  · unfold cloop_open
    simp only
    rw [if_neg (by omega), if_pos hmode]

/-! ### Suspend, resume and detach -/

/-- C28. On a suspended device `cloop_set_file` with a block device, or with a regular
file of at least the size of the header, returns 0 and changes nothing but `backing_file`,
which becomes the file as it was handed in (no read has been made on it); the
`LOOP_SET_FD` command then also clears `suspended`. On the device so resumed a block that
is tagged in the decode cache is returned from its slot without any operation on the
file, and the preload lookup gives what it gave before. -/
theorem cloop_set_file_suspended (env : attach_env) (clo : cloop_device) (file : file)
    (inode : inode) (hs : clo.suspended ≠ 0)
    (hkind : inode.kind = .block_device
      ∨ (inode.kind = .regular ∧ sizeof_cloop_head env.headroom ≤ inode.i_size)) :
    cloop_set_file env clo file inode = .ok ⟨0, { clo with backing_file := some file }⟩
    ∧ (clo.backing_file = none →
        cloop_ioctl env clo (.set_fd (some (file, inode)))
          = .ok (0, { clo with backing_file := some file, suspended := 0 }, []))
    ∧ (∀ (z : zlib) (fuel : Nat) (b : Int) (i : Fin BUFFERED_BLOCKS),
        ¬ (b % 2 ^ 32 > (ntohl clo.head.num_blocks : Int) ∨ b < 0) →
        find_buffered clo.buffered_blocknum b = some i →
        cloop_load_buffer z fuel { clo with backing_file := some file, suspended := 0 } b
          = .ok ⟨(i.val : Int), { clo with backing_file := some file, suspended := 0 }, []⟩)
    ∧ (∀ k, preload_lookup { clo with backing_file := some file, suspended := 0 } k
        = preload_lookup clo k) := by
  have hset : cloop_set_file env clo file inode
      = .ok ⟨0, { clo with backing_file := some file }⟩ := by
    unfold cloop_set_file cloop_set_file_attach
    dsimp only
    rw [if_neg, if_neg, if_pos hs]
    · intro hc
      rcases hkind with hb | ⟨hr, hsz⟩
      · exact hc.1 (by simp [hb])
      · omega
    · intro hc
      rcases hkind with hb | ⟨hr, hsz⟩
      · exact hc.1 (by simp [hb])
      · exact hc.2 hr
  refine ⟨hset, fun hb => ?_, fun z fuel b i hg hf => ?_, fun k => ?_⟩
  · unfold cloop_ioctl cloop_set_fd
    simp only [hb, Option.isSome_none, Bool.false_eq_true, if_false, hset]
    rw [if_pos ⟨trivial, hs⟩]
  · exact cloop_load_buffer_of_find hg hf
  · exact preload_lookup_congr k rfl rfl

/-- C25 (code defect). The file ends one byte short of the stream of block 1: the read of
the three bytes of the stream returns 2, and the request for block 1 is completed with
"uptodate" 1, its segment filled from the stream completed with a zero byte. -/
theorem cloop_handle_request_short_read_succeeds :
    (cloop_read_from_file 4 (regular_file short_bytes) [0, 0, 0] 163 3).toOption.map
        (fun rd => (rd.ret, rd.buf)) = some (2, [9, 2, 0])
    ∧ (cloop_handle_request demo_zlib 4 short_device ⟨1, [512]⟩).toOption.map
        (fun r => (r.ret, r.dest, r.trace))
      = some (1, [List.replicate 512 9],
          [.load_buffer 1, .offsets_index 2, .offsets_index 1, .read_from_file 163 3,
            .uncompress 1 3 0, .memcpy (List.replicate 512 9) 0 512]) :=
  ⟨by decide!, by decide!⟩

/-- The capacity the attach sets is the value of `cloop_capacity` on the header. -/
theorem cloop_set_file_attach_capacity {env : attach_env} {clo : cloop_device} {file : file}
    {inode : inode} {base : cloop_device}
    (h : cloop_set_file_attach env clo file inode = .ok (.inr base)) :
    base.capacity = cloop_capacity base.head := by
  unfold cloop_set_file_attach at h
  dsimp only at h
  generalize (if decide (inode.kind = inode_kind.block_device) = true
      then inode.bdev_block_size % 2 ^ 32 else PAGE_SIZE) = blksize at h
  generalize decide (inode.kind = inode_kind.block_device) = isblkdev at h
  repeat' split at h
  all_goals first
    | cases h
      done
    | cases h
      rfl

/-- C26 (code defect). The capacity an attach sets is `cloop_capacity` of the header, a
product of two `unsigned int`: for 2^21 blocks of 2^20 bytes it is 0 sectors, where the
device has 2^32 sectors of 512 bytes; for two blocks of 512 bytes it is 2. -/
theorem cloop_capacity_wraps :
    (∀ (env : attach_env) (clo : cloop_device) (file : file) (inode : inode)
        (base : cloop_device),
        cloop_set_file_attach env clo file inode = .ok (.inr base) →
        base.capacity = cloop_capacity base.head)
    ∧ cloop_capacity { block_size := 2 ^ 20, num_blocks := 2 ^ 21 } = 0
    ∧ 2 ^ 21 * (2 ^ 20 / 512) = 2 ^ 32
    ∧ cloop_capacity { block_size := 512, num_blocks := 2 } = 2 :=
  ⟨fun _ _ _ _ _ h => cloop_set_file_attach_capacity h, by decide!, by norm_num, by decide!⟩

/-- C29 (amended). Whenever `cloop_load_buffer` returns a slot for block `b` after a miss,
the decoder has returned `Z_STREAM_END` (or `Z_OK`) on the bytes read for block `b`, the
slot is tagged `b`, and its buffer holds the bytes the decoder produced, at most
`block_size` of them, followed by the bytes the buffer held before from that position
on. -/
theorem cloop_load_buffer_miss_contents (z : zlib) (fuel : Nat) (clo : cloop_device) (b : Int)
    (r : load_result) (h : cloop_load_buffer z fuel clo b = .ok r)
    (hmiss : find_buffered clo.buffered_blocknum b = none) (hret : r.ret ≠ -1) :
    ∃ (slot : Fin BUFFERED_BLOCKS) (old produced offsets cbuf : List Nat) (o1 o0 : Nat)
      (f : file) (rd : read_result) (err : Int),
      slot_index (next_bufnum clo.current_bufnum) = .ok slot ∧ r.ret = (slot.val : Int)
      ∧ clo.buffer slot = some old
      ∧ clo.offsets = some offsets ∧ index offsets (b + 1) = .ok o1 ∧ index offsets b = .ok o0
      ∧ clo.backing_file = some f ∧ clo.compressed_buffer = some cbuf
      ∧ cloop_read_from_file fuel f cbuf (be64_to_cpu o0)
          (((be64_to_cpu o1 : Int) - be64_to_cpu o0) % 2 ^ 32).toNat = .ok rd
      ∧ z.inflate (rd.buf.take (((be64_to_cpu o1 : Int) - be64_to_cpu o0) % 2 ^ 32).toNat)
          (ntohl clo.head.block_size) = (err, produced)
      ∧ (err = Z_STREAM_END ∨ err = Z_OK)
      ∧ r.clo.buffered_blocknum slot = b
      ∧ r.clo.buffer slot
          = some (produced.take (ntohl clo.head.block_size)
              ++ old.drop (produced.take (ntohl clo.head.block_size)).length)
      ∧ (produced.take (ntohl clo.head.block_size)).length ≤ ntohl clo.head.block_size :=
  cloop_load_buffer_miss_shape h hmiss hret

/-- C29 (counterexample). The stream of block 0 ends cleanly after 511 bytes of 7: the
call misses, returns slot 1 and tags it with block 0, and the buffer of the slot holds
the 511 bytes followed by the byte 170 it held before. -/
theorem cloop_load_buffer_short_stream_tagged :
    find_buffered short_stream_device.buffered_blocknum 0 = none
    ∧ demo_zlib.inflate [7, 1, 255] 512 = (Z_STREAM_END, List.replicate 511 7)
    ∧ (cloop_load_buffer demo_zlib 4 short_stream_device 0).toOption.map
        (fun r => (r.ret, r.clo.buffered_blocknum 1, r.clo.buffer 1))
      = some (1, 0, some (List.replicate 511 7 ++ [170])) :=
  ⟨by decide!, by decide!, by decide!⟩

/-- The read loop on `alternating_file`: a read of one byte takes `buf_done` from 0 to 1,
the failing read that follows takes it back to 0, and so on. -/
theorem cloop_read_loop_alternating :
    ∀ (fuel calls : Nat) (buf : List Nat) (pos : Nat), buf.length = 2 →
      (calls % 2 = 0 →
        cloop_read_loop fuel ⟨calls, alternating_file.behaviour⟩ buf pos 2 0
          = .error .no_termination)
      ∧ (calls % 2 = 1 →
        cloop_read_loop fuel ⟨calls, alternating_file.behaviour⟩ buf pos 2 1
          = .error .no_termination) := by
  intro fuel
  induction fuel with
  | zero =>
    intro calls buf pos _
    exact ⟨fun _ => by simp [cloop_read_loop], fun _ => by simp [cloop_read_loop]⟩
  | succ n ih =>
    intro calls buf pos hlen
    constructor
    · intro hc
      unfold cloop_read_loop
      rw [if_pos (by norm_num)]
      have hv : vfs_read ⟨calls, alternating_file.behaviour⟩ pos (2 - 0)
          = (1, [1], ⟨calls + 1, alternating_file.behaviour⟩) := by
        simp [vfs_read, alternating_file, hc]
      simp only [hv]
      have hs : ∃ buf1, store buf 0 [1] = .ok buf1 ∧ buf1.length = 2 := by
        unfold store
        rw [if_neg (by simp), if_pos (by simp [hlen])]
        exact ⟨_, rfl, by simp [hlen]⟩
      obtain ⟨buf1, hst, hl1⟩ := hs
      have h1 : ((1 : Int) % 2 ^ SIZE_BITS).toNat = 1 := by decide
      simp only [h1, hst]
      rw [if_neg (by decide)]
      have := (ih (calls + 1) buf1 (pos + (1 : Int).toNat) hl1).2 (by omega)
      simpa using this
    · intro hc
      unfold cloop_read_loop
      rw [if_pos (by norm_num)]
      have hv : vfs_read ⟨calls, alternating_file.behaviour⟩ pos (2 - 1)
          = (-1, [], ⟨calls + 1, alternating_file.behaviour⟩) := by
        simp [vfs_read, alternating_file, hc]
      simp only [hv]
      have hst : store buf 1 [] = .ok buf := by
        unfold store
        simp
      have h1 : ((-1 : Int) % 2 ^ SIZE_BITS).toNat = 4294967295 := by decide
      simp only [h1, hst]
      rw [if_neg (by decide)]
      have := (ih (calls + 1) buf (pos + (-1 : Int).toNat) hlen).1 (by omega)
      simpa [SIZE_BITS] using this

/-- C30 (code defect). `size_read` is unsigned. When the first read fails with `EIO`,
`cloop_read_from_file` returns -5 for a buffer of 3 bytes and the buffer still holds the
bytes it held before, none of them zero. When reads of one byte and failing reads
alternate, the loop does not end: however many iterations are followed, `buf_done` is
below `buf_len`. -/
theorem cloop_read_from_file_negative_result :
    (cloop_read_from_file 4 (flaky_file demo_bytes) [170, 170, 170] 160 3).toOption.map
        (fun rd => (rd.ret, rd.buf)) = some (-5, [170, 170, 170])
    ∧ ∀ fuel, fault_of (cloop_read_from_file fuel alternating_file [0, 0] 0 2)
        = some .no_termination := by
  refine ⟨by decide!, fun fuel => ?_⟩
  unfold cloop_read_from_file
  have := (cloop_read_loop_alternating fuel 0 [0, 0] 0 rfl).1 rfl
  have hf : alternating_file = ⟨0, alternating_file.behaviour⟩ := rfl
  rw [hf, this]
  rfl

/-! ### The index of a container on a stable file -/

theorem to_int_cast_mod (n : Nat) : (to_int n % 2 ^ SIZE_BITS).toNat = n % 2 ^ 32 := by
  unfold to_int SIZE_BITS
  split <;> omega

/-- A read of `len` bytes that a stable file holds in full delivers them with one
`vfs_read`. -/
theorem cloop_read_from_file_stable {data : List Nat} {f : file} {buf : List Nat}
    {pos len fuel : Nat} (hst : stable_file data f) (hfuel : 0 < fuel) (hlen : 0 < len)
    (hl32 : len < 2 ^ 32) (hbuf : buf.length = len) (hdata : pos + len ≤ data.length) :
    cloop_read_from_file fuel f buf pos len
      = .ok ⟨to_int len, { f with calls := f.calls + 1 }, (data.drop pos).take len⟩ := by
  have hslice : ((data.drop pos).take len).length = len := by
    rw [List.length_take, List.length_drop]
    omega
  have hv : vfs_read f pos (len - 0)
      = ((len : Int), (data.drop pos).take len, { f with calls := f.calls + 1 }) := by
    unfold vfs_read
    rw [hst]
    simp only [Nat.sub_zero, List.take_take, Nat.min_self, hslice]
  have hstore : store buf 0 ((data.drop pos).take len) = .ok ((data.drop pos).take len) := by
    unfold store
    rw [if_neg (by rw [hslice]; omega), if_pos (by rw [hslice, hbuf]; omega)]
    have hbd : buf.drop len = [] := List.drop_of_length_le (by omega)
    rw [hslice, Nat.zero_add, List.take_zero, List.nil_append, hbd, List.append_nil]
  have hsr : ((len : Int) % 2 ^ SIZE_BITS).toNat = len := by
    unfold SIZE_BITS
    omega
  unfold cloop_read_from_file
  cases fuel with
  | zero => omega
  | succ n =>
    unfold cloop_read_loop
    rw [if_pos hlen]
    simp only [hv, hsr, hstore]
    rw [if_neg (by omega)]
    have hdone : (0 + len) % 2 ^ SIZE_BITS = len := by
      unfold SIZE_BITS
      omega
    rw [hdone]
    cases n with
    | zero =>
      unfold cloop_read_loop
      rw [if_neg (Nat.lt_irrefl _)]
    | succ m =>
      unfold cloop_read_loop
      rw [if_neg (Nat.lt_irrefl _)]

theorem read_entries_getElem (bbuf : List Nat) :
    ∀ (n offset m : Nat), m < n →
      (read_entries bbuf offset n)[m]? = some (be_value ((bbuf.drop (offset + 8 * m)).take 8)) := by
  intro n
  induction n with
  | zero => intro offset m hm; omega
  | succ n ih =>
    intro offset m hm
    unfold read_entries
    cases m with
    | zero => simp
    | succ m =>
      rw [List.getElem?_cons_succ, ih (offset + 8) m (by omega)]
      have : offset + 8 + 8 * m = offset + 8 * (m + 1) := by omega
      rw [this]

theorem drop_take_slice (data : List Nat) (p L a : Nat) (h : a + 8 ≤ L) :
    (((data.drop p).take L).drop a).take 8 = (data.drop (p + a)).take 8 := by
  rw [List.drop_take, List.take_take, List.drop_drop]
  have : min 8 (L - a) = 8 := by omega
  rw [this]

theorem store_entries_getElem {table entries table1 : List Nat} {k : Nat}
    (h : store_entries table k entries = .ok table1) (hk : k + entries.length ≤ table.length) :
    (∀ j, j < k → table1[j]? = table[j]?)
    ∧ (∀ m, m < entries.length → table1[k + m]? = entries[m]?) := by
  unfold store_entries at h
  split at h
  · injection h with h
    subst h
    rename_i h0
    exact ⟨fun _ _ => rfl, fun m hm => by omega⟩
  · injection h with h
    subst h
    constructor
    · intro j hj
      rw [List.append_assoc, List.getElem?_append_left (by rw [List.length_take]; omega),
        List.getElem?_take_of_lt hj]
    · intro m hm
      have hlt : (table.take k).length = k := by rw [List.length_take]; omega
      rw [List.append_assoc, List.getElem?_append_right (by rw [hlt]; omega), hlt,
        Nat.add_sub_cancel_left, List.getElem?_append_left hm]

theorem store_entries_ok {table entries : List Nat} {k : Nat}
    (hk : k + entries.length ≤ table.length) :
    ∃ table1, store_entries table k entries = .ok table1 ∧ table1.length = table.length := by
  unfold store_entries
  split
  · exact ⟨table, rfl, rfl⟩
  · refine ⟨_, rfl, ?_⟩
    simp only [List.length_append, List.length_take, List.length_drop]
    omega

/-- One pass of the index loop in which the block is read in full, the header (in the
first pass) passes its checks and the entries are stored: the loop goes on with the next
block. -/
theorem cloop_read_offsets_step {env : attach_env} {isblkdev : Bool} {i_size fuel : Nat}
    {clo clo2 : cloop_device} {f : file} {bbuf : List Nat} {i oread t1 total : Nat}
    {rd : read_result} {table table1 : List Nat}
    (hlt : oread < t1)
    (hrd : cloop_read_from_file env.fuel f bbuf ((i * clo.underlying_blksize) % 2 ^ 32)
      clo.underlying_blksize = .ok rd)
    (hret : (rd.ret % 2 ^ SIZE_BITS).toNat = clo.underlying_blksize)
    (hchk : (if i = 0 then cloop_check_head env isblkdev i_size
                { clo with backing_file := some rd.f } rd.buf
             else .ok (.inr ({ clo with backing_file := some rd.f }, t1)))
      = .ok (.inr (clo2, total)))
    (htab : clo2.offsets = some table)
    (hst : store_entries table oread
      (read_entries rd.buf (if i = 0 then sizeof_cloop_head env.headroom else 0)
        (min ((total + 2 ^ 32 - oread) % 2 ^ 32)
          ((clo.underlying_blksize + 2 ^ 32
              - (if i = 0 then sizeof_cloop_head env.headroom else 0)) % 2 ^ 32 / 8)))
      = .ok table1) :
    cloop_read_offsets env isblkdev i_size (fuel + 1) clo f bbuf i oread t1
      = cloop_read_offsets env isblkdev i_size fuel { clo2 with offsets := some table1 }
          rd.f rd.buf ((i + 1) % 2 ^ 32)
          ((oread + min ((total + 2 ^ 32 - oread) % 2 ^ 32)
            ((clo.underlying_blksize + 2 ^ 32
                - (if i = 0 then sizeof_cloop_head env.headroom else 0)) % 2 ^ 32 / 8))
            % 2 ^ 32) total := by
  rw [cloop_read_offsets, if_pos hlt, hrd]
  dsimp only
  rw [if_neg (fun h => h hret), hchk]
  dsimp only
  rw [htab]
  simp only [deref]
  rw [hst]

/-- The iterations of the index loop behind the first one, on a stable file whose blocks
can be read in full: the loop ends with every entry of the table read from its place in
the file, after one read for each block from block `i` on that holds a part of the
table. -/
theorem cloop_read_offsets_tail_stable {env : attach_env} {isblkdev : Bool} {i_size : Nat}
    {data : List Nat} {blksize hdr total : Nat} :
    ∀ (fuel : Nat) (clo : cloop_device) (f : file) (bbuf : List Nat) (i oread : Nat)
      (table : List Nat),
      stable_file data f → 0 < env.fuel → clo.underlying_blksize = blksize → 8 ≤ blksize →
      blksize % 8 = 0 → blksize < 2 ^ 32 → bbuf.length = blksize → 1 ≤ i →
      clo.offsets = some table → clo.backing_file = some f → table.length = total →
      oread ≤ total → hdr + 8 * total ≤ 2 ^ 32 →
      (oread < total → hdr + 8 * oread = i * blksize) →
      (∀ j, j < oread → table[j]? = some (file_entry data (hdr + 8 * j))) →
      (∀ b, b * blksize < hdr + 8 * total → (b + 1) * blksize ≤ data.length) →
      total - oread ≤ fuel →
      ∃ (c : cloop_device) (table1 : List Nat) (f1 : file) (k : Nat),
        cloop_read_offsets env isblkdev i_size fuel clo f bbuf i oread total
          = .ok (.inr (c, total))
        ∧ c.head = clo.head ∧ c.offsets = some table1 ∧ table1.length = total
        ∧ (∀ j, j < total → table1[j]? = some (file_entry data (hdr + 8 * j)))
        ∧ c.backing_file = some f1 ∧ f1.calls = f.calls + k
        ∧ (oread < total →
            (i + k - 1) * blksize < hdr + 8 * total ∧ hdr + 8 * total ≤ (i + k) * blksize)
        ∧ (¬ oread < total → k = 0) := by
  intro fuel
  induction fuel with
  | zero =>
    intro clo f bbuf i oread table hst hrf hblk hb8 hm8 hb32 hbuf hi htab hbf hlen hle hmem
      hinv hcor hdata hfuel
    have heq : oread = total := by omega
    unfold cloop_read_offsets
    rw [if_neg (by omega)]
    refine ⟨clo, table, f, 0, rfl, rfl, htab, hlen, ?_, hbf, rfl, fun h => by omega, fun _ => rfl⟩
    intro j hj
    exact hcor j (by omega)
  | succ n ih =>
    intro clo f bbuf i oread table hst hrf hblk hb8 hm8 hb32 hbuf hi htab hbf hlen hle hmem
      hinv hcor hdata hfuel
    by_cases hlt : oread < total
    · have hP := hinv hlt
      have hP32 : i * blksize < 2 ^ 32 := by omega
      have hsucc : (i + 1) * blksize = i * blksize + blksize := Nat.succ_mul i blksize
      have hcomp := hdata i (by omega)
      have hrd := @cloop_read_from_file_stable data f bbuf (i * blksize) blksize env.fuel hst hrf
        (by omega) hb32 hbuf (by omega)
      have hslen : ((data.drop (i * blksize)).take blksize).length = blksize := by
        rw [List.length_take, List.length_drop]
        omega
      have hn1 : (total + 2 ^ 32 - oread) % 2 ^ 32 = total - oread := by omega
      have hn2 : (blksize + 2 ^ 32 - 0) % 2 ^ 32 / 8 = blksize / 8 := by
        rw [Nat.sub_zero, Nat.add_mod_right, Nat.mod_eq_of_lt hb32]
      have hnle : min (total - oread) (blksize / 8) ≤ total - oread := Nat.min_le_left _ _
      have hnle2 : min (total - oread) (blksize / 8) ≤ blksize / 8 := Nat.min_le_right _ _
      have hnpos : 1 ≤ min (total - oread) (blksize / 8) :=
        Nat.le_min.mpr ⟨by omega, by omega⟩
      have hrl : (read_entries ((data.drop (i * blksize)).take blksize) 0
          (min (total - oread) (blksize / 8))).length = min (total - oread) (blksize / 8) :=
        read_entries_length _ _ _
      obtain ⟨table1, hstore, hlen1⟩ := @store_entries_ok table
        (read_entries ((data.drop (i * blksize)).take blksize) 0
          (min (total - oread) (blksize / 8))) oread (by rw [hrl]; omega)
      obtain ⟨hold, hnew⟩ := store_entries_getElem hstore (by rw [hrl]; omega)
      have hi32 : (i + 1) % 2 ^ 32 = i + 1 := by
        apply Nat.mod_eq_of_lt
        have : i * 8 ≤ i * blksize := Nat.mul_le_mul_left i hb8
        omega
      have ho32 : (oread + min (total - oread) (blksize / 8)) % 2 ^ 32
          = oread + min (total - oread) (blksize / 8) := Nat.mod_eq_of_lt (by omega)
      obtain ⟨c, t2, f1, k, hres, hhead, hoff, hl2, hall, hbf2, hcalls, hbound, hk0⟩ :=
        ih { clo with backing_file := some { f with calls := f.calls + 1 },
                      offsets := some table1 }
          { f with calls := f.calls + 1 } ((data.drop (i * blksize)).take blksize) (i + 1)
          (oread + min (total - oread) (blksize / 8)) table1 hst hrf hblk hb8 hm8 hb32 hslen
          (by omega) rfl rfl (by rw [hlen1, hlen]) (by omega) hmem
          (by
            intro hlt2
            have : min (total - oread) (blksize / 8) = blksize / 8 := by
              by_cases h1 : total - oread ≤ blksize / 8
              · rw [Nat.min_eq_left h1] at hlt2
                omega
              · exact Nat.min_eq_right (by omega)
            rw [this, hsucc]
            omega)
          (by
            intro j hj
            by_cases hjo : j < oread
            · rw [hold j hjo]
              exact hcor j hjo
            · have hm : j - oread < (read_entries ((data.drop (i * blksize)).take blksize) 0
                  (min (total - oread) (blksize / 8))).length := by rw [hrl]; omega
              have := hnew (j - oread) hm
              rw [Nat.add_sub_cancel' (by omega)] at this
              rw [this, read_entries_getElem _ _ _ _ (by rw [hrl] at hm; exact hm)]
              unfold file_entry
              rw [Nat.zero_add, drop_take_slice data (i * blksize) blksize (8 * (j - oread))
                (by omega)]
              have : i * blksize + 8 * (j - oread) = hdr + 8 * j := by omega
              rw [this])
          hdata (by omega)
      refine ⟨c, t2, f1, k + 1, ?_, hhead, hoff, hl2, hall, hbf2, ?_, fun _ => ?_,
        fun h => absurd hlt h⟩
      · have hi0 : ¬ i = 0 := by omega
        rw [← hblk] at hrd hstore hres
        rw [@cloop_read_offsets_step env isblkdev i_size n clo
          { clo with backing_file := some { f with calls := f.calls + 1 } } f bbuf i oread
          total total _ table table1 hlt
          (by rw [hblk, Nat.mod_eq_of_lt hP32, ← hblk]; exact hrd)
          (by rw [to_int_cast_mod, hblk, Nat.mod_eq_of_lt hb32])
          (by rw [if_neg hi0]) htab
          (by rw [if_neg hi0, hn1, hblk, hn2, ← hblk]; exact hstore)]
        rw [if_neg hi0, hn1, hblk, hn2, hi32, ho32, ← hblk]
        exact hres
      · rw [hcalls]
        simp only
        omega
      · by_cases hlt2 : oread + min (total - oread) (blksize / 8) < total
        · have := hbound hlt2
          have e1 : i + (k + 1) - 1 = i + 1 + k - 1 := by omega
          have e2 : i + (k + 1) = i + 1 + k := by omega
          rw [e1, e2]
          exact this
        · have hk := hk0 hlt2
          subst hk
          have he : oread + min (total - oread) (blksize / 8) = total := by omega
          have e1 : i + (0 + 1) - 1 = i := by omega
          have e2 : i + (0 + 1) = i + 1 := by omega
          rw [e1, e2, hsucc]
          have : 8 * (blksize / 8) ≤ blksize := Nat.mul_div_le blksize 8
          omega
    · unfold cloop_read_offsets
      rw [if_neg hlt]
      refine ⟨clo, table, f, 0, rfl, rfl, htab, hlen, ?_, hbf, rfl, fun h => absurd h hlt,
        fun _ => rfl⟩
      intro j hj
      exact hcor j (by omega)

theorem cloop_check_head_table {env : attach_env} {isblkdev : Bool} {i_size : Nat}
    {clo clo2 : cloop_device} {bbuf : List Nat} {total : Nat}
    (h : cloop_check_head env isblkdev i_size clo bbuf = .ok (.inr (clo2, total)))
    (hmem : 8 * total < 2 ^ 32) (htotal : 0 < total) :
    clo2.offsets = some (fresh_memory env 1 total) ∧ total = ntohl clo2.head.num_blocks + 1
    ∧ clo2.backing_file = clo.backing_file
    ∧ clo2.underlying_blksize = clo.underlying_blksize := by
  obtain ⟨head, _, hcase⟩ := cloop_check_head_cases h
  rcases hcase with ⟨res, hres, _, _⟩ | ⟨_, _, _, hx⟩
  · cases hres
  injection hx with hx
  injection hx with hc2 htot
  have hnb := ntohl_lt head.num_blocks
  have htot1 : total = ntohl head.num_blocks + 1 := by omega
  have hcap : (8 * ((ntohl head.num_blocks + 1) % 2 ^ 32)) % 2 ^ SIZE_BITS / 8 = total := by
    rw [← htot]
    unfold SIZE_BITS
    omega
  rw [hcap] at hc2
  subst hc2
  exact ⟨rfl, htot1, rfl, rfl⟩

theorem cloop_read_offsets_first_stable (env : attach_env) (isblkdev : Bool) (i_size fuel : Nat)
    (clo : cloop_device) (f : file) (bbuf data : List Nat) (blksize : Nat)
    (clo2 : cloop_device) (total : Nat)
    (hstable : stable_file data f) (hrfuel : 0 < env.fuel)
    (hblk : clo.underlying_blksize = blksize) (hbuf : bbuf.length = blksize)
    (h8 : blksize % 8 = 0) (hhdr : sizeof_cloop_head env.headroom ≤ blksize)
    (hhdr8 : env.headroom % 8 = 0) (hb32 : blksize < 2 ^ 32)
    (hcheck : cloop_check_head env isblkdev i_size
      { clo with backing_file := some { f with calls := f.calls + 1 } } (data.take blksize)
      = .ok (.inr (clo2, total)))
    (htotal : 0 < total)
    (hmem : sizeof_cloop_head env.headroom + 8 * total ≤ 2 ^ 32)
    (hdata : ∀ b, b * blksize < sizeof_cloop_head env.headroom + 8 * total →
      (b + 1) * blksize ≤ data.length)
    (hfuel : total < fuel) (i oread t1 : Nat) (hi : i = 0) (ho : oread = 0) (ht : t1 = 1) :
    ∃ (c : cloop_device) (table : List Nat) (f1 : file) (k : Nat),
      cloop_read_offsets env isblkdev i_size fuel clo f bbuf i oread t1 = .ok (.inr (c, total))
      ∧ total = ntohl c.head.num_blocks + 1
      ∧ c.offsets = some table ∧ table.length = ntohl c.head.num_blocks + 1
      ∧ (∀ j, j ≤ ntohl c.head.num_blocks →
          table[j]? = some (file_entry data (sizeof_cloop_head env.headroom + 8 * j)))
      ∧ c.backing_file = some f1 ∧ f1.calls = f.calls + k
      ∧ (k - 1) * blksize < sizeof_cloop_head env.headroom + 8 * total
      ∧ sizeof_cloop_head env.headroom + 8 * total ≤ k * blksize := by
  have hsz : sizeof_cloop_head env.headroom = env.headroom + 8 := rfl
  obtain ⟨hoff2, htot1, hbf2, hblk2⟩ := cloop_check_head_table hcheck (by omega) htotal
  have hd0 : blksize ≤ data.length := by
    have := hdata 0 (by omega)
    omega
  have hrd := @cloop_read_from_file_stable data f bbuf 0 blksize env.fuel hstable hrfuel
    (by omega) hb32 hbuf (by omega)
  rw [List.drop_zero] at hrd
  have hslen : (data.take blksize).length = blksize := by
    rw [List.length_take]
    omega
  have hn1 : (total + 2 ^ 32 - 0) % 2 ^ 32 = total := by omega
  have hn2 : (blksize + 2 ^ 32 - sizeof_cloop_head env.headroom) % 2 ^ 32 / 8
      = (blksize - sizeof_cloop_head env.headroom) / 8 := by
    have : blksize + 2 ^ 32 - sizeof_cloop_head env.headroom
        = (blksize - sizeof_cloop_head env.headroom) + 2 ^ 32 := by omega
    rw [this, Nat.add_mod_right, Nat.mod_eq_of_lt (by omega)]
  have hnle : min total ((blksize - sizeof_cloop_head env.headroom) / 8) ≤ total :=
    Nat.min_le_left _ _
  have hnle2 : min total ((blksize - sizeof_cloop_head env.headroom) / 8)
      ≤ (blksize - sizeof_cloop_head env.headroom) / 8 := Nat.min_le_right _ _
  have hrl : (read_entries (data.take blksize) (sizeof_cloop_head env.headroom)
      (min total ((blksize - sizeof_cloop_head env.headroom) / 8))).length
      = min total ((blksize - sizeof_cloop_head env.headroom) / 8) := read_entries_length _ _ _
  obtain ⟨table1, hstore, hlen1⟩ := @store_entries_ok (fresh_memory env 1 total)
    (read_entries (data.take blksize) (sizeof_cloop_head env.headroom)
      (min total ((blksize - sizeof_cloop_head env.headroom) / 8))) 0
    (by rw [hrl, fresh_memory_length]; omega)
  rw [fresh_memory_length] at hlen1
  obtain ⟨_, hnew⟩ := store_entries_getElem hstore (by rw [hrl, fresh_memory_length]; omega)
  have hinv : min total ((blksize - sizeof_cloop_head env.headroom) / 8) < total →
      sizeof_cloop_head env.headroom
        + 8 * min total ((blksize - sizeof_cloop_head env.headroom) / 8) = 1 * blksize := by
    intro hlt
    have : min total ((blksize - sizeof_cloop_head env.headroom) / 8)
        = (blksize - sizeof_cloop_head env.headroom) / 8 := by
      by_cases h1 : total ≤ (blksize - sizeof_cloop_head env.headroom) / 8
      · rw [Nat.min_eq_left h1] at hlt
        omega
      · exact Nat.min_eq_right (by omega)
    rw [this, Nat.one_mul]
    omega
  have hcor : ∀ j, j < min total ((blksize - sizeof_cloop_head env.headroom) / 8) →
      table1[j]? = some (file_entry data (sizeof_cloop_head env.headroom + 8 * j)) := by
    intro j hj
    have hm : j < (read_entries (data.take blksize) (sizeof_cloop_head env.headroom)
        (min total ((blksize - sizeof_cloop_head env.headroom) / 8))).length := by
      rw [hrl]
      exact hj
    have := hnew j hm
    rw [Nat.zero_add] at this
    rw [this, read_entries_getElem _ _ _ _ hj]
    unfold file_entry
    have hsl := drop_take_slice data 0 blksize (sizeof_cloop_head env.headroom + 8 * j)
      (by omega)
    rw [List.drop_zero, Nat.zero_add] at hsl
    rw [hsl]
  cases fuel with
  | zero => omega
  | succ n =>
    obtain ⟨c, t2, f1, k, hloop, hh, hoff, hl2, hall, hbfc, hcalls, hbound, hk0⟩ :=
      @cloop_read_offsets_tail_stable env isblkdev i_size data blksize
        (sizeof_cloop_head env.headroom) total n
        { clo2 with offsets := some table1 }
        { f with calls := f.calls + 1 } (data.take blksize) 1
        (min total ((blksize - sizeof_cloop_head env.headroom) / 8)) table1 hstable hrfuel
        (hblk2.trans hblk) (by omega) h8 hb32 hslen (Nat.le_refl 1) rfl hbf2 hlen1 hnle hmem
        hinv hcor hdata (by omega)
    have hhead : c.head = clo2.head := hh
    have hstep : cloop_read_offsets env isblkdev i_size (n + 1) clo f bbuf i oread t1
        = .ok (.inr (c, total)) := by
      have hpos : (i * clo.underlying_blksize) % 2 ^ 32 = 0 := by
        rw [hi, Nat.zero_mul, Nat.zero_mod]
      have e1 : (i + 1) % 2 ^ 32 = 1 := by omega
      have e3 : (oread + min total ((blksize - sizeof_cloop_head env.headroom) / 8)) % 2 ^ 32
          = min total ((blksize - sizeof_cloop_head env.headroom) / 8) := by
        rw [ho, Nat.zero_add]
        exact Nat.mod_eq_of_lt (by omega)
      rw [← hblk] at hrd
      rw [@cloop_read_offsets_step env isblkdev i_size n clo clo2 f bbuf i oread t1 total _
        (fresh_memory env 1 total) table1 (by omega) (by rw [hpos]; exact hrd)
        (by rw [to_int_cast_mod, hblk, Nat.mod_eq_of_lt hb32])
        (by rw [if_pos hi]; rw [← hblk] at hcheck; exact hcheck) hoff2
        (by rw [if_pos hi, hblk, hn2, ho, hn1]; exact hstore)]
      rw [if_pos hi, hblk, hn2, ho, hn1, e1, ← ho, e3]
      exact hloop
    refine ⟨c, t2, f1, k + 1, hstep, ?_, hoff, ?_, ?_, hbfc, ?_, ?_, ?_⟩
    · rw [hhead]
      exact htot1
    · rw [hl2, hhead]
      exact htot1
    · intro j hj
      rw [hhead] at hj
      exact hall j (by omega)
    · rw [hcalls]
      show f.calls + 1 + k = f.calls + (k + 1)
      omega
    · by_cases hlt : min total ((blksize - sizeof_cloop_head env.headroom) / 8) < total
      · have := (hbound hlt).1
        have e : k + 1 - 1 = 1 + k - 1 := by omega
        rw [e]
        exact this
      · have := hk0 hlt
        subst this
        simp only [Nat.zero_add, Nat.sub_self, Nat.zero_mul]
        omega
    · by_cases hlt : min total ((blksize - sizeof_cloop_head env.headroom) / 8) < total
      · have := (hbound hlt).2
        have e : k + 1 = 1 + k := by omega
        rw [e]
        exact this
      · have := hk0 hlt
        subst this
        have he : min total ((blksize - sizeof_cloop_head env.headroom) / 8) = total := by omega
        have : 8 * ((blksize - sizeof_cloop_head env.headroom) / 8)
            ≤ blksize - sizeof_cloop_head env.headroom := Nat.mul_div_le _ 8
        simp only [Nat.zero_add, Nat.one_mul]
        omega

/-- The index loop where the 32-bit size of the table does not wrap. On a file that
answers every read with what it holds, for an underlying block
size that is a multiple of 8 and at least the size of the header (itself a multiple of 8),
when the header in block zero passes its checks, the table is allocated, the header and
the table end at or below file position 2^32 and every underlying block that holds a part
of them can be read in full: the index loop of `cloop_set_file` ends, the table has
`num_blocks + 1` entries, entry `j` is the 8-byte big-endian value at file position
`sizeof(header) + 8 * j`, and the loop has made `k` reads, one for each of the `k`
underlying blocks that hold a part of the header and the table. -/
theorem cloop_read_offsets_table (env : attach_env) (isblkdev : Bool) (i_size fuel : Nat)
    (clo : cloop_device) (f : file) (bbuf data : List Nat) (blksize : Nat)
    (clo2 : cloop_device) (total : Nat)
    (hstable : stable_file data f) (hrfuel : 0 < env.fuel)
    (hblk : clo.underlying_blksize = blksize) (hbuf : bbuf.length = blksize)
    (h8 : blksize % 8 = 0) (hhdr : sizeof_cloop_head env.headroom ≤ blksize)
    (hhdr8 : env.headroom % 8 = 0) (hb32 : blksize < 2 ^ 32)
    (hcheck : cloop_check_head env isblkdev i_size
      { clo with backing_file := some { f with calls := f.calls + 1 } } (data.take blksize)
      = .ok (.inr (clo2, total)))
    (htotal : 0 < total)
    (hmem : sizeof_cloop_head env.headroom + 8 * total ≤ 2 ^ 32)
    (hdata : ∀ b, b * blksize < sizeof_cloop_head env.headroom + 8 * total →
      (b + 1) * blksize ≤ data.length)
    (hfuel : total < fuel) :
    ∃ (c : cloop_device) (table : List Nat) (f1 : file) (k : Nat),
      cloop_read_offsets env isblkdev i_size fuel clo f bbuf 0 0 1 = .ok (.inr (c, total))
      ∧ total = ntohl c.head.num_blocks + 1
      ∧ c.offsets = some table ∧ table.length = ntohl c.head.num_blocks + 1
      ∧ (∀ j, j ≤ ntohl c.head.num_blocks →
          table[j]? = some (file_entry data (sizeof_cloop_head env.headroom + 8 * j)))
      ∧ c.backing_file = some f1 ∧ f1.calls = f.calls + k
      ∧ (k - 1) * blksize < sizeof_cloop_head env.headroom + 8 * total
      ∧ sizeof_cloop_head env.headroom + 8 * total ≤ k * blksize :=
  cloop_read_offsets_first_stable env isblkdev i_size fuel clo f bbuf data blksize clo2 total
    hstable hrfuel hblk hbuf h8 hhdr hhdr8 hb32 hcheck htotal hmem hdata hfuel 0 0 1 rfl rfl rfl

/-- C2 (evaluation at the failing input). On a two-segment request whose first segment
fails to resolve (the backing file's first read fails, so block 0 does not inflate) and
whose second segment then resolves, `cloop_handle_request` returns 1 ("uptodate"):
the first segment received no byte, the second the bytes of block 0. -/
theorem cloop_handle_request_failed_segment_reported_uptodate :
    (cloop_handle_request demo_zlib 4 flaky_device ⟨0, [512, 512]⟩).toOption.map
        (fun r => (r.ret, r.dest, decoder_calls r.trace))
      = some (1, [[], List.replicate 512 7], 2) := by
  decide

/-- C3 (evaluation at the failing input). With `num_blocks = 2` and an offsets table of
three entries, `cloop_load_buffer(clo, 2)` is not turned away by the range check
`blocknum > num_blocks`: it goes on to index `offsets[3]`, one entry behind the table.
Where that memory can be read (`overread_device`), the call reads the backing file,
runs the decoder and advances the cursor before it returns -1. -/
theorem cloop_load_buffer_num_blocks_passes_guard :
    cloop_load_buffer demo_zlib 4 demo_device 2 = .error (.out_of_bounds 3)
      ∧ (cloop_load_buffer demo_zlib 4 overread_device 2).toOption.map
          (fun r => (r.ret, r.clo.current_bufnum, r.trace))
        = some (-1, 1, [.offsets_index 3, .offsets_index 2, .read_from_file 166 0,
            .uncompress 1 0 (-3)]) := by
  exact ⟨by rfl, by decide⟩

/-- C5 (witness). On a nine-block container blocks 0 to 7 are inserted, block 0 is looked
up again, then block 8 is inserted: block 0 is evicted, blocks 1 to 8 are resident. -/
theorem cloop_load_buffer_round_robin_witness :
    ¬ resident nine_final 0 ∧ ∀ b ∈ [(1 : Int), 2, 3, 4, 5, 6, 7, 8], resident nine_final b :=
  cloop_load_buffer_round_robin demo_zlib 4 nine_device nine_final nine_calls nine_results
    0 [1, 2, 3, 4, 5, 6, 7, 8] (by rfl) (by decide) (by decide) (by decide) (by decide)

/-- C6 (witness). After block 0 of `demo_device` has been loaded, and calls for the invalid
blocks 5 and -3 and for block 0 itself have been made, block 0 is served from its slot. -/
theorem cloop_load_buffer_hit_short_circuit_witness :
    cloop_load_buffer demo_zlib 7 (demo_load demo_device 0).clo 0
        = .ok ⟨(demo_load demo_device 0).ret, (demo_load demo_device 0).clo, []⟩
      ∧ (demo_load demo_device 0).clo = (demo_load demo_device 0).clo :=
  cloop_load_buffer_hit_short_circuit demo_zlib 4 7 demo_device (demo_load demo_device 0).clo
    0 (demo_load demo_device 0) [5, 0, -3]
    [(5, ⟨-1, (demo_load demo_device 0).clo, []⟩), (0, ⟨1, (demo_load demo_device 0).clo, []⟩),
      (-3, ⟨-1, (demo_load demo_device 0).clo, []⟩)]
    (by rfl) (by decide) (by rfl) (by decide)

/-- C7 (witness). The state of `demo_device` after blocks 0 and 1 have been loaded is
reachable, and its tags are unique. -/
theorem reachable_tags_unique_witness :
    reachable demo_zlib (demo_load (demo_load demo_device 0).clo 1).clo
      ∧ ∀ i j : Fin BUFFERED_BLOCKS,
        (demo_load (demo_load demo_device 0).clo 1).clo.buffered_blocknum i
          = (demo_load (demo_load demo_device 0).clo 1).clo.buffered_blocknum j →
        (demo_load (demo_load demo_device 0).clo 1).clo.buffered_blocknum i ≠ -1 → i = j :=
  ⟨reachable.call _ 4 1 _
      (reachable.call _ 4 0 (demo_load demo_device 0)
        (reachable.attach demo_device (fun _ => rfl) rfl) (by rfl))
      (by rfl),
    reachable_tags_unique demo_zlib (demo_load (demo_load demo_device 0).clo 1).clo
      (reachable.call _ 4 1 _
        (reachable.call _ 4 0 (demo_load demo_device 0)
          (reachable.attach demo_device (fun _ => rfl) rfl) (by rfl))
        (by rfl))⟩

/-- C9 (witness). On `corrupt_device`, after block 0 has been loaded, the call for the
damaged block 1 runs the decoder on slot 2, which returns -3. -/
theorem cloop_load_buffer_decode_outcome_witness :
    (2 : Int) = next_bufnum (demo_load corrupt_device 0).clo.current_bufnum
    ∧ (demo_load (demo_load corrupt_device 0).clo 1).clo.current_bufnum
        = next_bufnum (demo_load corrupt_device 0).clo.current_bufnum
    ∧ ∃ s : Fin BUFFERED_BLOCKS, s.val = 2
      ∧ ((-3 : Int) ≠ 0 → (demo_load (demo_load corrupt_device 0).clo 1).ret = -1
          ∧ (demo_load (demo_load corrupt_device 0).clo 1).clo.buffered_blocknum s = -1
          ∧ ¬ resident (demo_load (demo_load corrupt_device 0).clo 1).clo 1
          ∧ ∀ (fuel2 : Nat) (r2 : load_result),
              cloop_load_buffer demo_zlib fuel2
                (demo_load (demo_load corrupt_device 0).clo 1).clo 1 = .ok r2 →
              decoder_calls r2.trace = 1)
      ∧ ((-3 : Int) = 0 → (demo_load (demo_load corrupt_device 0).clo 1).ret = (2 : Nat)
          ∧ (demo_load (demo_load corrupt_device 0).clo 1).clo.buffered_blocknum s = 1) :=
  cloop_load_buffer_decode_outcome demo_zlib 4 (demo_load corrupt_device 0).clo 1
    (demo_load (demo_load corrupt_device 0).clo 1) 2 3 (-3) (by rfl) (by decide)

/-- C10 (counterexample). On `corrupt_device`, after block 0 has been read and block 1
has failed seven times, block 0 is resident; the eighth failing
`cloop_load_buffer(clo, 1)` returns -1 and block 0 is no longer resident. -/
theorem cloop_load_buffer_failure_evicts :
    resident corrupt_before 0
      ∧ (demo_load corrupt_before 1).ret = -1
      ∧ cloop_load_buffer demo_zlib 4 corrupt_before 1 = .ok (demo_load corrupt_before 1)
      ∧ ¬ resident (demo_load corrupt_before 1).clo 0 := by
  refine ⟨by decide, by decide, by rfl, by decide⟩

/-- C10 (witness of the amended statement). The eighth failing call for block 1 on
`corrupt_device` leaves the slots other than the selected one as they were. -/
theorem cloop_load_buffer_failure_frame_witness :
    (∀ (c : Int) (i : Fin BUFFERED_BLOCKS), corrupt_before.buffered_blocknum i = c →
        (i.val : Int) ≠ next_bufnum corrupt_before.current_bufnum →
        (demo_load corrupt_before 1).clo.buffered_blocknum i = c
          ∧ (demo_load corrupt_before 1).clo.buffer i = corrupt_before.buffer i)
    ∧ (decoder_calls (demo_load corrupt_before 1).trace = 0 →
        (demo_load corrupt_before 1).clo = corrupt_before)
    ∧ (decoder_calls (demo_load corrupt_before 1).trace ≠ 0 → ∀ i : Fin BUFFERED_BLOCKS,
        (i.val : Int) = next_bufnum corrupt_before.current_bufnum →
        (demo_load corrupt_before 1).clo.buffered_blocknum i = -1) :=
  cloop_load_buffer_failure_frame demo_zlib 4 corrupt_before 1 (demo_load corrupt_before 1)
    (by rfl) (by decide)

/-- C8 (counterexample). Block 2 of `preload_corrupt_device` is outside the preloaded
prefix and not resident. A two-segment request for it runs the decoder twice, returns 0,
and block 2 is not resident afterwards. -/
theorem cloop_handle_request_decode_failure_not_resident :
    preload_lookup preload_corrupt_device 2 = .ok none
      ∧ ¬ resident preload_corrupt_device 2
      ∧ (cloop_handle_request demo_zlib 4 preload_corrupt_device ⟨2, [256, 256]⟩).toOption.map
          (fun r => (r.ret, decoder_calls r.trace, decide (resident r.clo 2)))
        = some (0, 2, false) := by
  refine ⟨by rfl, by decide, by decide⟩

/-- C8 (witness of the amended statement). On `preload_device` a two-segment request for
block 0 is served from the preload cache, and a two-segment request for block 2 runs
the decoder once and leaves block 2 resident. -/
theorem cloop_handle_request_preload_or_decode_once_witness :
    (∃ r, cloop_handle_request demo_zlib 4 preload_device ⟨0, [256, 256]⟩ = .ok r
      ∧ r.clo = preload_device ∧ load_buffer_calls r.trace = 0 ∧ decoder_calls r.trace = 0
      ∧ r.dest.flatten
          = ((List.replicate 512 7).drop (0 * 512 - 0 * ntohl preload_device.head.block_size)).take
              [256, 256].sum
      ∧ r.ret = 1)
    ∧ (∃ r, cloop_handle_request demo_zlib 4 preload_device ⟨2, [256, 256]⟩ = .ok r
      ∧ decoder_calls r.trace = 1 ∧ resident r.clo (to_int 2) ∧ r.ret = 1) :=
  ⟨(cloop_handle_request_preload_or_decode_once demo_zlib 4 preload_device ⟨0, [256, 256]⟩ 0
      (by decide) (by decide) (by decide) (by decide) (by decide)).1
      [some (List.replicate 512 7)] (List.replicate 512 7)
      (by decide) (by rfl) (by rfl) (by decide),
    (cloop_handle_request_preload_or_decode_once demo_zlib 4 preload_device ⟨2, [256, 256]⟩ 2
      (by decide) (by decide) (by decide) (by decide) (by decide)).2
      (demo_load preload_device 2)
      (by rfl) (by decide) (by rfl) (by decide)
      (by
        intro i src h
        simp only [preload_device] at h
        split at h <;> (injection h with h; subst h; rfl))⟩

/-- In each of the five states of `demo_states`, blocks 0 and 1 resolve to their decoded
bytes and the state stays among the five. -/
theorem demo_states_resolve (st : copy_state) (k : Nat) (hinv : demo_states st.clo)
    (hk : k * ntohl demo_device.head.block_size < 0 * 512 + [768, 256].sum) :
    ∃ st1, cloop_resolve_block demo_zlib 4 st k = .ok (st1, some (demo_img k))
      ∧ demo_states st1.clo := by
  have hbs : ntohl demo_device.head.block_size = 512 := by decide
  rw [hbs] at hk
  simp only [List.sum_cons, List.sum_nil] at hk
  have hk2 : k = 0 ∨ k = 1 := by omega
  obtain ⟨c, off, bb, pl, tr⟩ := st
  simp only [demo_states] at hinv
  rcases hinv with rfl | rfl | rfl | rfl | rfl <;> rcases hk2 with rfl | rfl <;>
  · refine ⟨_, rfl, ?_⟩
    first
    | exact Or.inl rfl
    | exact Or.inr (Or.inl rfl)
    | exact Or.inr (Or.inr (Or.inl rfl))
    | exact Or.inr (Or.inr (Or.inr (Or.inl rfl)))
    | exact Or.inr (Or.inr (Or.inr (Or.inr rfl)))

/-- C1 (witness). The request for the 1024 bytes of `demo_device` in two segments of 768
and 256 bytes, the first of which crosses the block boundary. -/
theorem cloop_handle_request_copies_image_witness :
    ∃ r, cloop_handle_request demo_zlib 4 demo_device ⟨0, [768, 256]⟩ = .ok r
      ∧ r.dest.map List.length = [768, 256]
      ∧ r.dest.flatten
          = ((logical_image demo_img (ntohl demo_device.head.num_blocks)).drop (0 * 512)).take
              [768, 256].sum
      ∧ (ntohl demo_device.head.block_size = 4096 → (0 : Nat) = 0 →
          [768, 256] = [4090, 10] →
          r.dest = [(demo_img 0).take 4090, (demo_img 0).drop 4090 ++ (demo_img 1).take 4])
      ∧ memcpy_steps r.trace
          = (request_steps (ntohl demo_device.head.block_size) (0 * 512) [768, 256]).map
              (fun s => (demo_img s.1, s.2.1, s.2.2))
      ∧ (0 < [768, 256].sum → r.ret = 1)
      ∧ demo_states r.clo :=
  cloop_handle_request_copies_image demo_zlib 4 demo_device ⟨0, [768, 256]⟩ demo_img
    demo_states (by decide)
    (fun k => by unfold demo_img; split <;> rfl)
    (by decide) (Or.inl rfl)
    (fun st k hinv _ _ hk => demo_states_resolve st k hinv hk)

/-! ### The attach on example containers -/

/-- C11 (code defect). A regular file of 4097 bytes holds a container whose last offset is
4096: `cloop_set_file` takes the exit "final offset wrong", which releases the device, and
returns 0. On the file of 4096 bytes the same container is attached. -/
theorem cloop_set_file_final_offset_wrong_returns_zero :
    attach_summary (cloop_set_file demo_env blank_device (regular_file file_long)
        ⟨.regular, 4097, 0⟩)
      = some (0, false, false, List.replicate 8 false, false)
    ∧ attach_summary (cloop_set_file demo_env blank_device (regular_file file_a)
        ⟨.regular, 4096, 0⟩)
      = some (0, true, true, List.replicate 8 true, true) :=
  ⟨by decide!, by decide!⟩

/-- C13 (counterexample). A container whose offsets table decreases from entry 0 to
entry 1 is accepted: the attach returns 0 with the device set up and the table stored. -/
theorem cloop_set_file_decreasing_offsets_accepted :
    attach_summary (cloop_set_file demo_env blank_device
        (regular_file (bdev_bytes 512 [163, 160, 166])) bdev_inode)
      = some (0, true, true, List.replicate 8 true, true)
    ∧ (attach_device blank_device (cloop_set_file demo_env blank_device
        (regular_file (bdev_bytes 512 [163, 160, 166])) bdev_inode)).offsets
      = some [163, 160, 166] :=
  ⟨by decide!, by decide!⟩

/-- C15 (code defect). A device is attached to a container whose largest block has 6 bytes,
detached, and attached to a container whose blocks have 3 bytes each: `largest_block` is
still 6, while the same attach on a fresh device gives 3. -/
theorem cloop_set_file_reattach_keeps_largest_block :
    attach_summary (cloop_set_file demo_env
        (detach_device blank_device (cloop_clr_fd demo_zlib 4
          (attach_device blank_device (cloop_set_file demo_env blank_device
            (regular_file (bdev_bytes 512 [160, 166, 169])) bdev_inode))))
        (regular_file (bdev_bytes 512 [160, 163, 166])) bdev_inode)
      = some (0, true, true, List.replicate 8 true, true)
    ∧ (attach_device blank_device (cloop_set_file demo_env
        (detach_device blank_device (cloop_clr_fd demo_zlib 4
          (attach_device blank_device (cloop_set_file demo_env blank_device
            (regular_file (bdev_bytes 512 [160, 166, 169])) bdev_inode))))
        (regular_file (bdev_bytes 512 [160, 163, 166])) bdev_inode)).largest_block = 6
    ∧ (attach_device blank_device (cloop_set_file demo_env blank_device
        (regular_file (bdev_bytes 512 [160, 163, 166])) bdev_inode)).largest_block = 3 :=
  ⟨by decide!, by decide!, by decide!⟩

/-- C16 (code defect). When the allocation of `buffer[3]` fails, `cloop_set_file` returns
`-ENOMEM` and `buffer[0]` to `buffer[2]` are still set; when the second block of the index
cannot be read in full, it returns `-EBADF` and `offsets` is still set. -/
theorem cloop_set_file_error_exits_keep_state :
    attach_summary (cloop_set_file buffer_failure_env blank_device
        (regular_file (bdev_bytes 512 [160, 163, 166])) bdev_inode)
      = some (-12, false, false, [true, true, true, false, false, false, false, false], false)
    ∧ attach_summary (cloop_set_file demo_env blank_device (regular_file truncated_bytes)
        small_bdev_inode)
      = some (-9, false, true, List.replicate 8 false, false) :=
  ⟨by decide!, by decide!⟩

/-- C18 (counterexample). With `preload` 2 on a container of two blocks, when the
allocation of the second preload buffer fails the attach returns 0 with `preload_size` 1,
which is not the smaller of `preload` and `num_blocks`. -/
theorem cloop_set_file_preload_size_short :
    attach_summary (cloop_set_file preload_short_env blank_device
        (regular_file (bdev_bytes 512 [160, 163, 166])) bdev_inode)
      = some (0, true, true, List.replicate 8 true, true)
    ∧ (attach_device blank_device (cloop_set_file preload_short_env blank_device
        (regular_file (bdev_bytes 512 [160, 163, 166])) bdev_inode)).preload_size = 1
    ∧ (attach_device blank_device (cloop_set_file preload_short_env blank_device
        (regular_file (bdev_bytes 512 [160, 163, 166])) bdev_inode)).preload_size
      ≠ min (preload_short_env.preload % 2 ^ 32)
          (ntohl (attach_device blank_device (cloop_set_file preload_short_env blank_device
            (regular_file (bdev_bytes 512 [160, 163, 166])) bdev_inode)).head.num_blocks) :=
  ⟨by decide!, by decide!, by decide!⟩

/-- C14 (counterexample). A block device whose header has 'V' at 0x0B and the byte 0xB2,
which is above '2', at 0x0C: as a `char` the byte is -78, and the attach returns
`-EBADF`. -/
theorem cloop_set_file_high_version_rejected :
    bdev_high_bytes[0x0B]? = some 86 ∧ bdev_high_bytes[0x0C]? = some 178
    ∧ demo_env.char 178 = -78
    ∧ attach_summary (cloop_set_file demo_env blank_device (regular_file bdev_high_bytes)
        bdev_inode)
      = some (-EBADF, false, false, List.replicate 8 false, false)
    ∧ attach_summary (cloop_set_file demo_env blank_device
        (regular_file (bdev_bytes 512 [160, 163, 166])) bdev_inode)
      = some (0, true, true, List.replicate 8 true, true) :=
  ⟨by decide!, by decide!, by decide!, by decide!, by decide!⟩

/-- C17 (counterexample). The stream of block 0 ends after 511 bytes. The attach with
`preload` 2 returns 0 and preload slot 0 holds the 511 bytes followed by the byte 170 that
the buffer of the decode-cache slot held before. After the blocks 2 to 8 have been read,
block 0 is decoded again, into the slot that held block 1: the decode-cache path yields the
511 bytes followed by the byte 2. -/
theorem cloop_set_file_preload_short_stream_differs :
    attach_summary (cloop_set_file nine_env blank_device (regular_file nine_short_bytes)
        bdev_inode) = some (0, true, true, List.replicate 8 true, true)
    ∧ (preload_lookup (attach_device blank_device (cloop_set_file nine_env blank_device
        (regular_file nine_short_bytes) bdev_inode)) 0).toOption
      = some (some (List.replicate 511 1 ++ [170]))
    ∧ (cloop_load_buffers demo_zlib 4 (attach_device blank_device (cloop_set_file nine_env
        blank_device (regular_file nine_short_bytes) bdev_inode))
        [2, 3, 4, 5, 6, 7, 8, 0]).toOption.map
        (fun p => (p.1.buffered_blocknum 2, p.1.buffer 2,
          p.2.getLast?.map (fun q => (q.1, q.2.ret))))
      = some (0, some (List.replicate 511 1 ++ [2]), some (0, 2)) :=
  ⟨by decide!, by decide!, by decide!⟩

/-- C27 (code defect). A regular file of 4096 bytes whose header announces 2^29 blocks:
`total_offsets` is 2^29 + 1 and the size of the table, `sizeof(loff_t) * total_offsets` in
32 bits, wraps to 8 bytes, so the size check and the allocation pass, the table has room
for one entry, and the `memcpy` of the first pass of the index loop, which copies 495
entries, runs over it. -/
theorem cloop_set_file_table_size_wraps :
    wrap_bytes.length = 4096
    ∧ (head_of (read_head demo_env wrap_bytes)).num_blocks = 2 ^ 29
    ∧ (8 * (2 ^ 29 + 1)) % 2 ^ SIZE_BITS = 8
    ∧ min (2 ^ 29 + 1) ((PAGE_SIZE - sizeof_cloop_head demo_env.headroom) / 8) = 495
    ∧ fault_of (cloop_set_file demo_env blank_device (regular_file wrap_bytes)
        ⟨.regular, 4096, 0⟩) = some .buffer_overflow :=
  ⟨by decide!, by decide!, by decide!, by decide!, by decide!⟩
/-! ### Witnesses and counterexamples for the attach and the work list -/

theorem attach_result_ok (clo : cloop_device) (x : Except Fault set_file_result)
    (h : fault_of x = none) : x = .ok (attach_result clo x) := by
  cases x with
  | error e => cases h
  | ok r => rfl

theorem attach_base_ok (clo : cloop_device) (x : Except Fault (set_file_result ⊕ cloop_device))
    (h : reaches_preload x = true) : x = .ok (.inr (attach_base clo x)) := by
  cases x with
  | error e => cases h
  | ok r =>
    cases r with
    | inl res => cases h
    | inr base => rfl

theorem read_result_of_ok (f : file) (buf : List Nat) (x : Except Fault read_result)
    (h : fault_of x = none) : x = .ok (read_result_of f buf x) := by
  cases x with
  | error e => cases h
  | ok r => rfl

theorem head_of_ok (x : Except Fault cloop_head) (h : fault_of x = none) :
    x = .ok (head_of x) := by
  cases x with
  | error e => cases h
  | ok r => rfl

theorem engine_after_ok (z : zlib) (fuel : Nat) (e : engine) (acts : List engine_action)
    (h : fault_of (engine_run z fuel e acts) = none) :
    engine_run z fuel e acts = .ok (engine_after z fuel e acts) := by
  unfold engine_after
  cases hx : engine_run z fuel e acts with
  | error err => rw [hx] at h; cases h
  | ok r => rfl

/-- C13 (witness). The container in `file_a` is accepted; its table has three entries for
two blocks and the last entry is the size of the file. -/
theorem cloop_set_file_offsets_entries_witness :
    ∃ table, (attach_result blank_device (cloop_set_file demo_env blank_device
          (regular_file file_a) ⟨.regular, 4096, 0⟩)).clo.offsets = some table
      ∧ table.length = ntohl (attach_result blank_device (cloop_set_file demo_env blank_device
          (regular_file file_a) ⟨.regular, 4096, 0⟩)).clo.head.num_blocks + 1
      ∧ (inode_kind.regular = inode_kind.regular →
          ∃ last, index table (ntohl (attach_result blank_device (cloop_set_file demo_env
              blank_device (regular_file file_a) ⟨.regular, 4096, 0⟩)).clo.head.num_blocks : Int)
              = .ok last
            ∧ be64_to_cpu last = 4096) :=
  cloop_set_file_offsets_entries demo_env blank_device (regular_file file_a) ⟨.regular, 4096, 0⟩
    (attach_result blank_device (cloop_set_file demo_env blank_device
      (regular_file file_a) ⟨.regular, 4096, 0⟩))
    (attach_result_ok _ _ (by decide!)) rfl (by decide!) (by decide!)

/-- C14 (witness). A block device whose header has 'V' at 0x0B and '1' at 0x0C, the old
format generation 1.0, is rejected with `-EBADF`. -/
theorem cloop_set_file_marker_check_witness :
    (((86 : Nat) ≠ 86 ∨ (49 : Nat) < 50 ∨ 128 ≤ (49 : Nat)) →
      ∃ r, cloop_set_file demo_env blank_device (regular_file bdev_old_bytes) bdev_inode = .ok r
        ∧ r.ret = -EBADF ∧ r.clo.backing_file = none)
    ∧ ((86 : Nat) = 86 → 50 ≤ (49 : Nat) → (49 : Nat) < 128 →
        ntohl (be_value (((read_result_of (regular_file bdev_old_bytes)
          (fresh_memory demo_env 0 512)
          (cloop_read_from_file demo_env.fuel (regular_file bdev_old_bytes)
            (fresh_memory demo_env 0 512) 0 512)).buf.drop demo_env.headroom).take 4))
          % 512 = 0 →
        ∃ head, read_head demo_env (read_result_of (regular_file bdev_old_bytes)
            (fresh_memory demo_env 0 512)
            (cloop_read_from_file demo_env.fuel (regular_file bdev_old_bytes)
              (fresh_memory demo_env 0 512) 0 512)).buf = .ok head
          ∧ ∀ (isblkdev : Bool) (i_size : Nat) (c : cloop_device),
            cloop_check_head demo_env isblkdev i_size c
              (read_result_of (regular_file bdev_old_bytes) (fresh_memory demo_env 0 512)
                (cloop_read_from_file demo_env.fuel (regular_file bdev_old_bytes)
                  (fresh_memory demo_env 0 512) 0 512)).buf
              = .ok (cloop_alloc_offsets demo_env isblkdev i_size { c with head := head })) :=
  cloop_set_file_marker_check demo_env blank_device (regular_file bdev_old_bytes) bdev_inode 512
    (read_result_of (regular_file bdev_old_bytes) (fresh_memory demo_env 0 512)
      (cloop_read_from_file demo_env.fuel (regular_file bdev_old_bytes)
        (fresh_memory demo_env 0 512) 0 512))
    86 49 (Or.inr rfl) (fun h => by cases h) rfl (by decide) (by decide) rfl
    (read_result_of_ok _ _ _ (by decide!)) (by decide!) (fun _ => rfl) (by decide) (by decide)
    (by decide!) (by decide!) (by decide)

/-- C17 (witness). With `preload` 2 on a block device whose stream for block 1 is damaged
the attach returns 0 with two preload slots: slot 0 holds the 512 bytes of block 0 and
slot 1 holds 512 zero bytes. -/
theorem cloop_set_file_preload_contents_witness :
    ((attach_result blank_device (cloop_set_file preload_env blank_device
        (regular_file bdev_corrupt_bytes) bdev_inode)).clo.preload_size = 2
      ∧ (attach_result blank_device (cloop_set_file preload_env blank_device
        (regular_file bdev_corrupt_bytes) bdev_inode)).clo.preload_cache
        = some [some (List.replicate 512 7), some (List.replicate 512 0)])
    ∧ (attach_result blank_device (cloop_set_file preload_env blank_device
        (regular_file bdev_corrupt_bytes) bdev_inode)).ret = 0
    ∧ ∀ j, j < (attach_result blank_device (cloop_set_file preload_env blank_device
        (regular_file bdev_corrupt_bytes) bdev_inode)).clo.preload_size →
      ∃ table c rs rj bytes,
        (attach_result blank_device (cloop_set_file preload_env blank_device
        (regular_file bdev_corrupt_bytes) bdev_inode)).clo.preload_cache = some table
        ∧ cloop_load_buffers preload_env.z preload_env.fuel
            { (attach_base blank_device (cloop_set_file_attach preload_env blank_device
        (regular_file bdev_corrupt_bytes) bdev_inode)) with
              preload_array_size := (attach_result blank_device (cloop_set_file preload_env blank_device
        (regular_file bdev_corrupt_bytes) bdev_inode)).clo.preload_array_size
              preload_size := (attach_result blank_device (cloop_set_file preload_env blank_device
        (regular_file bdev_corrupt_bytes) bdev_inode)).clo.preload_size }
            ((List.range j).map Int.ofNat) = .ok (c, rs)
        ∧ cloop_load_buffer preload_env.z preload_env.fuel c (j : Int) = .ok rj
        ∧ find_buffered c.buffered_blocknum (j : Int) = none
        ∧ table[j]? = some (some bytes)
        ∧ bytes.length = ntohl (attach_result blank_device (cloop_set_file preload_env blank_device
        (regular_file bdev_corrupt_bytes) bdev_inode)).clo.head.block_size
        ∧ (0 ≤ rj.ret →
            ∃ (slot : Fin BUFFERED_BLOCKS) (old produced offsets cbuf : List Nat) (o1 o0 : Nat)
              (f : file) (rd : read_result) (err : Int),
              slot_index rj.ret = .ok slot
              ∧ c.buffer slot = some old
              ∧ c.offsets = some offsets ∧ index offsets ((j : Int) + 1) = .ok o1
              ∧ index offsets (j : Int) = .ok o0
              ∧ c.backing_file = some f ∧ c.compressed_buffer = some cbuf
              ∧ cloop_read_from_file preload_env.fuel f cbuf (be64_to_cpu o0)
                  (((be64_to_cpu o1 : Int) - be64_to_cpu o0) % 2 ^ 32).toNat = .ok rd
              ∧ preload_env.z.inflate
                  (rd.buf.take (((be64_to_cpu o1 : Int) - be64_to_cpu o0) % 2 ^ 32).toNat)
                  (ntohl (attach_result blank_device (cloop_set_file preload_env blank_device
        (regular_file bdev_corrupt_bytes) bdev_inode)).clo.head.block_size) = (err, produced)
              ∧ (err = Z_STREAM_END ∨ err = Z_OK)
              ∧ rj.clo.buffer slot
                  = some (produced.take (ntohl (attach_result blank_device (cloop_set_file preload_env blank_device
        (regular_file bdev_corrupt_bytes) bdev_inode)).clo.head.block_size)
                      ++ old.drop (produced.take (ntohl (attach_result blank_device (cloop_set_file preload_env blank_device
        (regular_file bdev_corrupt_bytes) bdev_inode)).clo.head.block_size)).length)
              ∧ bytes = (produced.take (ntohl (attach_result blank_device (cloop_set_file preload_env blank_device
        (regular_file bdev_corrupt_bytes) bdev_inode)).clo.head.block_size)
                  ++ old.drop (produced.take (ntohl (attach_result blank_device (cloop_set_file preload_env blank_device
        (regular_file bdev_corrupt_bytes) bdev_inode)).clo.head.block_size)).length).take
                    (ntohl (attach_result blank_device (cloop_set_file preload_env blank_device
        (regular_file bdev_corrupt_bytes) bdev_inode)).clo.head.block_size)
              ∧ (ntohl (attach_result blank_device (cloop_set_file preload_env blank_device
        (regular_file bdev_corrupt_bytes) bdev_inode)).clo.head.block_size ≤ produced.length →
                  bytes = produced.take (ntohl (attach_result blank_device (cloop_set_file preload_env blank_device
        (regular_file bdev_corrupt_bytes) bdev_inode)).clo.head.block_size)))
        ∧ (rj.ret < 0 → bytes = List.replicate (ntohl (attach_result blank_device (cloop_set_file preload_env blank_device
        (regular_file bdev_corrupt_bytes) bdev_inode)).clo.head.block_size) 0) :=
  ⟨⟨by decide!, by decide!⟩,
    cloop_set_file_preload_contents preload_env blank_device (regular_file bdev_corrupt_bytes)
      bdev_inode
      (attach_base blank_device (cloop_set_file_attach preload_env blank_device
        (regular_file bdev_corrupt_bytes) bdev_inode))
      (attach_result blank_device (cloop_set_file preload_env blank_device
        (regular_file bdev_corrupt_bytes) bdev_inode))
      (attach_base_ok _ _ (by decide!)) (attach_result_ok _ _ (by decide!)) (by decide)⟩

/-- C18 (witness). With `preload` 2 on a container of two blocks, when the allocation of
the second preload buffer fails, `preload_array_size` is 2 and `preload_size` is 1, the
number of buffers allocated before that failure. -/
theorem cloop_set_file_preload_size_witness :
    (attach_result blank_device (cloop_set_file preload_short_env blank_device
        (regular_file (bdev_bytes 512 [160, 163, 166])) bdev_inode)).clo.preload_array_size
      = min (preload_short_env.preload % 2 ^ 32)
          (ntohl (attach_result blank_device (cloop_set_file preload_short_env blank_device
            (regular_file (bdev_bytes 512 [160, 163, 166])) bdev_inode)).clo.head.num_blocks)
    ∧ (attach_result blank_device (cloop_set_file preload_short_env blank_device
        (regular_file (bdev_bytes 512 [160, 163, 166])) bdev_inode)).clo.preload_size
      ≤ (attach_result blank_device (cloop_set_file preload_short_env blank_device
        (regular_file (bdev_bytes 512 [160, 163, 166])) bdev_inode)).clo.preload_array_size
    ∧ (∀ i, i < (attach_result blank_device (cloop_set_file preload_short_env blank_device
          (regular_file (bdev_bytes 512 [160, 163, 166])) bdev_inode)).clo.preload_size →
        preload_short_env.malloc (13 + i)
          (ntohl (attach_result blank_device (cloop_set_file preload_short_env blank_device
            (regular_file (bdev_bytes 512 [160, 163, 166])) bdev_inode)).clo.head.block_size)
          = true)
    ∧ ((attach_result blank_device (cloop_set_file preload_short_env blank_device
          (regular_file (bdev_bytes 512 [160, 163, 166])) bdev_inode)).clo.preload_size
        < (attach_result blank_device (cloop_set_file preload_short_env blank_device
          (regular_file (bdev_bytes 512 [160, 163, 166])) bdev_inode)).clo.preload_array_size →
        preload_short_env.malloc
          (13 + (attach_result blank_device (cloop_set_file preload_short_env blank_device
            (regular_file (bdev_bytes 512 [160, 163, 166])) bdev_inode)).clo.preload_size)
          (ntohl (attach_result blank_device (cloop_set_file preload_short_env blank_device
            (regular_file (bdev_bytes 512 [160, 163, 166])) bdev_inode)).clo.head.block_size)
          = false)
    ∧ ((∀ i, i < (attach_result blank_device (cloop_set_file preload_short_env blank_device
          (regular_file (bdev_bytes 512 [160, 163, 166])) bdev_inode)).clo.preload_array_size →
          preload_short_env.malloc (13 + i)
            (ntohl (attach_result blank_device (cloop_set_file preload_short_env blank_device
              (regular_file (bdev_bytes 512 [160, 163, 166])) bdev_inode)).clo.head.block_size)
            = true) →
        (attach_result blank_device (cloop_set_file preload_short_env blank_device
          (regular_file (bdev_bytes 512 [160, 163, 166])) bdev_inode)).clo.preload_size
        = min (preload_short_env.preload % 2 ^ 32)
            (ntohl (attach_result blank_device (cloop_set_file preload_short_env blank_device
              (regular_file (bdev_bytes 512 [160, 163, 166])) bdev_inode)).clo.head.num_blocks)) :=
  cloop_set_file_preload_size preload_short_env blank_device
    (regular_file (bdev_bytes 512 [160, 163, 166])) bdev_inode
    (attach_base blank_device (cloop_set_file_attach preload_short_env blank_device
      (regular_file (bdev_bytes 512 [160, 163, 166])) bdev_inode))
    (attach_result blank_device (cloop_set_file preload_short_env blank_device
      (regular_file (bdev_bytes 512 [160, 163, 166])) bdev_inode))
    (attach_base_ok _ _ (by decide!)) (attach_result_ok _ _ (by decide!)) (by decide)
    (by decide!)

/-- C19 (witness). With `preload` 2, when the allocation of the preload pointer table
fails, the attach of the two-block container returns 0 without preload. -/
theorem cloop_set_file_preload_table_failure_witness :
    ∃ r, cloop_set_file preload_no_table_env blank_device
        (regular_file (bdev_bytes 512 [160, 163, 166])) bdev_inode = .ok r ∧ r.ret = 0
      ∧ r.clo.backing_file.isSome
      ∧ r.clo.preload_size = 0 ∧ r.clo.preload_array_size = 0 ∧ r.clo.preload_cache = none
      ∧ ∀ (c : cloop_device) (k : Nat), c.preload_size = r.clo.preload_size →
          c.preload_cache = r.clo.preload_cache → preload_lookup c k = .ok none :=
  cloop_set_file_preload_table_failure preload_no_table_env blank_device
    (regular_file (bdev_bytes 512 [160, 163, 166])) bdev_inode
    (attach_base blank_device (cloop_set_file_attach preload_no_table_env blank_device
      (regular_file (bdev_bytes 512 [160, 163, 166])) bdev_inode))
    (attach_base_ok _ _ (by decide!)) (by decide) (by decide!)

/-- C20 (witness). In the run `demo_actions` on `demo_device` the read requests are
accepted in the order `read_a`, `read_b`, `read_b`; `read_a` has been serviced, the worker
holds the first `read_b` and the second is in the work list. -/
theorem engine_run_fifo_witness :
    ((engine_after demo_zlib 4 (engine_idle demo_device) demo_actions).accepted
        = [read_a, read_b, read_b]
      ∧ (engine_after demo_zlib 4 (engine_idle demo_device) demo_actions).serviced = [read_a]
      ∧ (engine_after demo_zlib 4 (engine_idle demo_device) demo_actions).in_flight
        = some read_b
      ∧ (engine_after demo_zlib 4 (engine_idle demo_device) demo_actions).clo.clo_list
        = [read_b])
    ∧ (engine_after demo_zlib 4 (engine_idle demo_device) demo_actions).accepted
      = (engine_after demo_zlib 4 (engine_idle demo_device) demo_actions).serviced
        ++ (engine_after demo_zlib 4 (engine_idle demo_device) demo_actions).in_flight.toList
        ++ (engine_after demo_zlib 4 (engine_idle demo_device) demo_actions).clo.clo_list
    ∧ (∀ (c : cloop_device) (q : List fetched_request), ∃ acc : List fetched_request,
        acc.Sublist q ∧ (cloop_do_request c q).1.clo_list = c.clo_list ++ acc)
    ∧ (∀ (c c1 : cloop_device) (req : fetched_request) (rest : List fetched_request)
        (done : Option completion), c.clo_list = req :: rest →
        cloop_thread_step demo_zlib 4 c = .ok (c1, done) →
        (∃ error, done = some ⟨req, error⟩) ∧ c1.clo_list = rest) :=
  ⟨⟨by decide!, by decide!, by decide!, by decide!⟩,
    engine_run_fifo demo_zlib 4 demo_device demo_actions
      (engine_after demo_zlib 4 (engine_idle demo_device) demo_actions)
      (engine_after_ok _ _ _ _ (by decide!))⟩

/-- C12 (witness). A block device whose header is valid but for `block_size` 0: the
attach returns `-ENOMEM`, an error, and the device has no backing file. -/
theorem cloop_set_file_block_size_check_witness :
    attach_summary (cloop_set_file strict_env blank_device
        (regular_file (bdev_bytes 0 [160, 163, 166])) bdev_inode)
      = some (-ENOMEM, false, false, List.replicate 8 false, false)
    ∧ (ntohl (head_of (read_head strict_env
      (read_result_of (regular_file (bdev_bytes 0 [160, 163, 166])) (fresh_memory strict_env 0 512)
      (cloop_read_from_file strict_env.fuel (regular_file (bdev_bytes 0 [160, 163, 166]))
        (fresh_memory strict_env 0 512) 0 512)).buf)).block_size % 512 ≠ 0 →
      ∃ r, cloop_set_file strict_env blank_device
          (regular_file (bdev_bytes 0 [160, 163, 166])) bdev_inode = .ok r
        ∧ r.ret = -EBADF ∧ r.clo.backing_file = none)
    ∧ (ntohl (head_of (read_head strict_env
      (read_result_of (regular_file (bdev_bytes 0 [160, 163, 166])) (fresh_memory strict_env 0 512)
      (cloop_read_from_file strict_env.fuel (regular_file (bdev_bytes 0 [160, 163, 166]))
        (fresh_memory strict_env 0 512) 0 512)).buf)).block_size = 0 →
        ∀ r, cloop_set_file strict_env blank_device
            (regular_file (bdev_bytes 0 [160, 163, 166])) bdev_inode = .ok r →
          r.ret ≠ 0 ∧ r.clo.backing_file = none) :=
  ⟨by decide!,
    cloop_set_file_block_size_check strict_env blank_device
      (regular_file (bdev_bytes 0 [160, 163, 166])) bdev_inode 512
      (read_result_of (regular_file (bdev_bytes 0 [160, 163, 166])) (fresh_memory strict_env 0 512)
      (cloop_read_from_file strict_env.fuel (regular_file (bdev_bytes 0 [160, 163, 166]))
        (fresh_memory strict_env 0 512) 0 512))
      (head_of (read_head strict_env
      (read_result_of (regular_file (bdev_bytes 0 [160, 163, 166])) (fresh_memory strict_env 0 512)
      (cloop_read_from_file strict_env.fuel (regular_file (bdev_bytes 0 [160, 163, 166]))
        (fresh_memory strict_env 0 512) 0 512)).buf))
      (Or.inr rfl) (fun h => by cases h) rfl (by decide) rfl (by decide)
      (read_result_of_ok _ _ _ (by decide!)) (by decide!) (head_of_ok _ (by decide!))
      (fun _ => rfl)⟩
/-! ### Evaluations for suspend and detach -/

/-- C22 (code defect). On a suspended device (block 0 is in the decode cache) two read
requests are accepted; the first pass of the worker takes the request for block 0 from
the work list and completes it with 0; the second pass takes the request for block 1 and
dereferences the `backing_file` that `clo_suspend_fd` has set to `NULL`. -/
theorem cloop_thread_step_services_suspended :
    suspended_device.suspended = 1
    ∧ suspended_device.backing_file.isNone = true
    ∧ (cloop_do_request suspended_device [read_a, read_b]).1.clo_list = [read_a, read_b]
    ∧ step_completion (cloop_thread_step demo_zlib 4
          (cloop_do_request suspended_device [read_a, read_b]).1)
        = some (some (read_a, 0))
    ∧ fault_of (cloop_thread_step demo_zlib 4
          (worker_device suspended_device (cloop_thread_step demo_zlib 4
            (cloop_do_request suspended_device [read_a, read_b]).1)))
        = some .null_pointer :=
  ⟨by decide!, by decide!, by decide!, by decide!, by decide!⟩

theorem detach_outcome_ok (clo : cloop_device)
    (x : Except Fault (Int × cloop_device × List completion)) (h : fault_of x = none) :
    x = .ok (detach_outcome clo x) := by
  cases x with
  | error e => cases h
  | ok r => rfl

theorem checked_head_ok (clo : cloop_device)
    (x : Except Fault (set_file_result ⊕ (cloop_device × Nat))) (t : Nat)
    (h : passes_check x = true) (ht : (checked_head clo x).2 = t) :
    x = .ok (.inr ((checked_head clo x).1, t)) := by
  cases x with
  | error e => cases h
  | ok r =>
    cases r with
    | inl res => cases h
    | inr p =>
      subst ht
      rfl

/-- C24 (witness). The write request `write_c`, fetched behind a read request, is completed
with `-EIO` and stays out of the work list of `demo_device`; opening minor 0 of eight
devices with mode 3 (read and write) gives `-EROFS` and the device as it was. -/
theorem cloop_do_request_read_only_witness :
    (∃ added, (cloop_do_request demo_device [read_a, write_c]).1
          = { demo_device with clo_list := demo_device.clo_list ++ added }
        ∧ write_c ∉ added ∧ ∀ a ∈ added, a.data_dir = 0 ∨ a.data_dir = 2)
    ∧ (⟨write_c, - EIO⟩ : completion) ∈ (cloop_do_request demo_device [read_a, write_c]).2
    ∧ cloop_open 8 (some 0) 3 demo_device = (-EROFS, demo_device) :=
  cloop_do_request_read_only demo_device [read_a, write_c] write_c 8 0 3
    (by simp) (by decide) (by decide) (by decide)

/-- C28 (witness). The device `suspended_device` (block 0 of `demo_bytes` is in its decode
cache) is handed an empty block device: the attach returns 0 without a read, and the
resumed device serves every tagged block from its slot. -/
theorem cloop_set_file_suspended_witness :
    cloop_set_file demo_env suspended_device (regular_file []) bdev_inode
      = .ok ⟨0, { suspended_device with backing_file := some (regular_file []) }⟩
    ∧ (suspended_device.backing_file = none →
        cloop_ioctl demo_env suspended_device (.set_fd (some (regular_file [], bdev_inode)))
          = .ok (0, { suspended_device with
                      backing_file := some (regular_file []), suspended := 0 }, []))
    ∧ (∀ (z : zlib) (fuel : Nat) (b : Int) (i : Fin BUFFERED_BLOCKS),
        ¬ (b % 2 ^ 32 > (ntohl suspended_device.head.num_blocks : Int) ∨ b < 0) →
        find_buffered suspended_device.buffered_blocknum b = some i →
        cloop_load_buffer z fuel { suspended_device with
            backing_file := some (regular_file []), suspended := 0 } b
          = .ok ⟨(i.val : Int), { suspended_device with
              backing_file := some (regular_file []), suspended := 0 }, []⟩)
    ∧ (∀ k, preload_lookup { suspended_device with
            backing_file := some (regular_file []), suspended := 0 } k
        = preload_lookup suspended_device k) :=
  cloop_set_file_suspended demo_env suspended_device (regular_file []) bdev_inode
    (by decide!) (Or.inl rfl)

/-- C29 (witness). Block 0 of `demo_device` is not in the decode cache; the call returns a
slot, whose buffer then holds the 512 decoded bytes. -/
theorem cloop_load_buffer_miss_contents_witness :
    ∃ (slot : Fin BUFFERED_BLOCKS) (old produced offsets cbuf : List Nat) (o1 o0 : Nat)
      (f : file) (rd : read_result) (err : Int),
      slot_index (next_bufnum demo_device.current_bufnum) = .ok slot
      ∧ (demo_load demo_device 0).ret = (slot.val : Int)
      ∧ demo_device.buffer slot = some old
      ∧ demo_device.offsets = some offsets ∧ index offsets ((0 : Int) + 1) = .ok o1
      ∧ index offsets 0 = .ok o0
      ∧ demo_device.backing_file = some f ∧ demo_device.compressed_buffer = some cbuf
      ∧ cloop_read_from_file 4 f cbuf (be64_to_cpu o0)
          (((be64_to_cpu o1 : Int) - be64_to_cpu o0) % 2 ^ 32).toNat = .ok rd
      ∧ demo_zlib.inflate
          (rd.buf.take (((be64_to_cpu o1 : Int) - be64_to_cpu o0) % 2 ^ 32).toNat)
          (ntohl demo_device.head.block_size) = (err, produced)
      ∧ (err = Z_STREAM_END ∨ err = Z_OK)
      ∧ (demo_load demo_device 0).clo.buffered_blocknum slot = 0
      ∧ (demo_load demo_device 0).clo.buffer slot
          = some (produced.take (ntohl demo_device.head.block_size)
              ++ old.drop (produced.take (ntohl demo_device.head.block_size)).length)
      ∧ (produced.take (ntohl demo_device.head.block_size)).length
          ≤ ntohl demo_device.head.block_size :=
  cloop_load_buffer_miss_contents demo_zlib 4 demo_device 0 (demo_load demo_device 0)
    (by rfl) (by decide) (by decide!)

/-- The index loop on a container of nine blocks on a device with blocks of 192 bytes: the
header takes 136 bytes, so the ten entries of the table lie in the first two blocks; the
loop makes two reads and every entry is the value found in the file. -/
theorem cloop_read_offsets_table_witness :
    ∃ (c : cloop_device) (table : List Nat) (f1 : file) (k : Nat),
      cloop_read_offsets demo_env true 0 11 index_device (regular_file nine_index_bytes)
        (List.replicate 192 0) 0 0 1 = .ok (.inr (c, 10))
      ∧ 10 = ntohl c.head.num_blocks + 1
      ∧ c.offsets = some table ∧ table.length = ntohl c.head.num_blocks + 1
      ∧ (∀ j, j ≤ ntohl c.head.num_blocks →
          table[j]? = some (file_entry nine_index_bytes
            (sizeof_cloop_head demo_env.headroom + 8 * j)))
      ∧ c.backing_file = some f1 ∧ f1.calls = (regular_file nine_index_bytes).calls + k
      ∧ (k - 1) * 192 < sizeof_cloop_head demo_env.headroom + 8 * 10
      ∧ sizeof_cloop_head demo_env.headroom + 8 * 10 ≤ k * 192 :=
  cloop_read_offsets_table demo_env true 0 11 index_device (regular_file nine_index_bytes)
    (List.replicate 192 0) nine_index_bytes 192
    (checked_head index_device (cloop_check_head demo_env true 0
      { index_device with
        backing_file := some { regular_file nine_index_bytes with
          calls := (regular_file nine_index_bytes).calls + 1 } }
      (nine_index_bytes.take 192))).1
    10 rfl (by decide) rfl (List.length_replicate _ _) (by decide) (by decide) (by decide)
    (by norm_num)
    (checked_head_ok index_device _ 10 (by decide!) (by decide!))
    (by decide) (by norm_num [sizeof_cloop_head, demo_env])
    (fun b hb => by
      have hl : nine_index_bytes.length = 384 := by decide!
      have hh : sizeof_cloop_head demo_env.headroom = 136 := rfl
      rw [hl]
      rw [hh] at hb
      omega)
    (by decide)

end Cloop
